import Mathlib

/-!
# azcc: the recursive-descent parser of `parse.c`

A shallow embedding of `src/parse.c` and a verification of the properties its
specification states about it.

The three globals of the C file (`token`, `localVariableTable`,
`currentOffset`) become the fields of `State`; every C function that reads or
writes them becomes a `Parser α`, a function from a state to either a fatal
error or a result together with the new state.  The linked token list is a
Lean list: the cursor is the list of tokens from the current one on, and
`token = token->next` takes its tail.

The two recursive knots of the C file (`primary`/`argument` call `expression`,
the statement recognisers call `statement`) are tied by a `fuel` argument that
bounds the nesting depth and the iteration count of every `for (;;)` and
`while` loop.  Fuel 3 above the number of tokens is never used up
(`parse_finishes`), and more fuel does not change a result
(`parse_fuel_monotone`).

The counter `currentOffset` is an `int` of 32 bits: `currentOffset += 8` is the
addition followed by `int_wrap`, which wraps around at the ends of the range.
The properties that need the counter to count (positive offsets, one offset
per name) carry the hypothesis that 8 times the number of distinct variable
names of the token stream is at most 2147483647.
-/

namespace Azcc

/-! ## Data model -/

/-- Modelled from the spec: the `TokenKind` enumeration of `9cc.h`, a variant
over reserved punctuation or keyword, identifier, integer literal and
end-of-input. -/
inductive TokenKind
  | TOKEN_RESERVED
  | TOKEN_IDENTIFIER
  | TOKEN_NUMBER
  | TOKEN_EOF
  deriving DecidableEq, Repr

/-- Modelled from the spec: the `Token` record of `9cc.h`.  `string` is the
pointer into the source buffer, modelled as the source text from the first byte
of the token on; `length` is the byte length of the lexeme; `value` is the
integer of a number token.  The `next` link is the tail of the token list. -/
structure Token where
  kind : TokenKind
  string : List Char
  length : Nat
  value : Int
  deriving DecidableEq, Repr

/-- Modelled from the spec: the `NodeKind` tags of `9cc.h` that `new_node`
receives in `parse.c` (the tags of `NUM`, `LVAR` and `FUNC` are the
constructors of `Node`). -/
inductive NodeKind
  | NODE_ASSIGN
  | NODE_EQ
  | NODE_NE
  | NODE_LT
  | NODE_LE
  | NODE_ADD
  | NODE_SUB
  | NODE_MUL
  | NODE_DIV
  deriving DecidableEq, Repr

/-- Modelled from the spec: the `FunctionCall` record of `9cc.h` over the type
`N` of nodes: a copy of the name and the linked list of the argument nodes in
source order (the null pointer is the empty list). -/
structure FunctionCall (N : Type) where
  name : List Char
  arguments : List N

/-- Modelled from the spec: the `Node` record of `9cc.h`.  `binary` is a node
made by `new_node` (fields `kind`, `lhs`, `rhs`), `num` one made by
`new_node_num` (field `val`), `lvar` one made by `new_node_lvar` (field
`offset`), `func` one made by `new_node_function` (field `functionCall`). -/
inductive Node
  | binary (kind : NodeKind) (lhs rhs : Node)
  | num (val : Int)
  | lvar (offset : Int)
  | func (functionCall : FunctionCall Node)

/-- Modelled from the spec: the `LocalVariable` record of `9cc.h`, a name and
its frame offset. -/
structure LocalVariable where
  name : List Char
  offset : Int
  deriving DecidableEq, Repr

/-- Modelled from the spec: `ExpressionStatement` of `9cc.h`. -/
structure ExpressionStatement where
  node : Node

/-- Modelled from the spec: `ReturnStatement` of `9cc.h`. -/
structure ReturnStatement where
  node : Node

/-- Modelled from the spec: `IfStatement` of `9cc.h`, over the type `S` of
statements; `elseStatement` is a nullable pointer. -/
structure IfStatement (S : Type) where
  condition : Node
  thenStatement : S
  elseStatement : Option S

/-- Modelled from the spec: `WhileStatement` of `9cc.h`. -/
structure WhileStatement (S : Type) where
  condition : Node
  statement : S

/-- Modelled from the spec: `ForStatement` of `9cc.h`. -/
structure ForStatement (S : Type) where
  initialization : Node
  condition : Node
  afterthought : Node
  statement : S

/-- Modelled from the spec: `CompoundStatement` of `9cc.h`; `statementHead` is
the pointer to the linked list of the statements of the body, in source order.
It is `none` when the pointer was copied from a `next` field that nothing had
written, so that its value is indeterminate. -/
structure CompoundStatement (S : Type) where
  statementHead : Option (List S)

/-- The tagged union `StatementUnion` of `parse.c`: the constructor is the
`tag`, its argument the member of the union the tag selects. -/
inductive StatementUnion
  | expressionStatement (s : ExpressionStatement)
  | returnStatement (s : ReturnStatement)
  | ifStatement (s : IfStatement StatementUnion)
  | whileStatement (s : WhileStatement StatementUnion)
  | forStatement (s : ForStatement StatementUnion)
  | compoundStatement (s : CompoundStatement StatementUnion)

/-- Modelled from the spec: the hash table of `9cc.h`, a mapping from a name
(byte string) to a `LocalVariable`, kept as an association list with the most
recent binding first. -/
abbrev HashTable := List (List Char × LocalVariable)

/-- Modelled from the spec: `new_hash_table`, a fresh empty map. -/
def new_hash_table : HashTable := []

/-- Modelled from the spec: `hash_table_find`, the record stored under a key
that is byte-equal to `key`, or none (a null pointer). -/
def hash_table_find : HashTable → List Char → Option LocalVariable
  | [], _ => none
  | (k, v) :: rest, key => if k = key then some v else hash_table_find rest key

/-- Modelled from the spec: `hash_table_store`, which binds `key` to `value`. -/
def hash_table_store (table : HashTable) (key : List Char) (value : LocalVariable) :
    HashTable :=
  (key, value) :: table

/-- Modelled from the spec: `new_string`, a copy of the first `length` bytes at
`string`. -/
def new_string (string : List Char) (length : Nat) : List Char :=
  string.take length

/-- Modelled from the spec: `new_list_node(payload, current)` links a new cell
holding `payload` behind the last cell `current`; on the list built so far this
appends `payload`. -/
def new_list_node {α : Type} (payload : α) (current : List α) : List α :=
  current ++ [payload]

/-- The C library `strlen` on a string literal. -/
def strlen (s : String) : Nat := s.data.length

/-- The C library `memcmp`: zero exactly when the first `n` bytes agree. -/
def memcmp (a b : List Char) (n : Nat) : Int :=
  if a.take n = b.take n then 0 else 1

/-! ## Parser state -/

/-- The globals of `parse.c`: the cursor `token` (the tokens from the current
one on; the empty list is a null pointer), the symbol table and the running
offset counter, an `int` of 32 bits. -/
structure State where
  token : List Token
  localVariableTable : HashTable
  currentOffset : Int

/-- Ways a call does not return a value: `error_at` was called (with the
operator `expect` wanted, or for a missing number), the null token pointer was
dereferenced, or the fuel of the model ran out. -/
inductive Error
  | not_op (op : String)
  | not_number
  | null_token
  | out_of_fuel
  deriving DecidableEq, Repr

/-- A C function over the globals: from a state, an error or a result and the
state it leaves. -/
def Parser (α : Type) : Type := State → Except Error (α × State)

/-- Return without touching the globals. -/
def Parser.pure {α : Type} (a : α) : Parser α := fun st => .ok (a, st)

/-- Sequencing: run `f`, then `g` on its result from the state `f` left. -/
def Parser.bind {α β : Type} (f : Parser α) (g : α → Parser β) : Parser β := fun st =>
  match f st with
  | .ok (a, st1) => g a st1
  | .error e => .error e

instance : Monad Parser where
  pure := Parser.pure
  bind := Parser.bind

/-- Abort with an error. -/
def Parser.fail {α : Type} (e : Error) : Parser α := fun _ => .error e

/-! ## Token cursor -/

/-- Source: `at_eof`. -/
def at_eof : Parser Bool := fun st =>
  match st.token with
  | [] => .error .null_token
  | token :: _ => .ok (decide (token.kind = .TOKEN_EOF), st)

/-- Source: `consume`. -/
def consume (op : String) : Parser Bool := fun st =>
  match st.token with
  | [] => .error .null_token
  | token :: next =>
    if token.kind ≠ .TOKEN_RESERVED ∨ strlen op ≠ token.length ∨
        memcmp token.string op.data token.length ≠ 0 then
      .ok (false, st)
    else
      .ok (true, { st with token := next })

/-- Source: `consume_identifier`. -/
def consume_identifier : Parser (Option Token) := fun st =>
  match st.token with
  | [] => .error .null_token
  | token :: next =>
    if token.kind ≠ .TOKEN_IDENTIFIER then
      .ok (none, st)
    else
      .ok (some token, { st with token := next })

/-- Source: `expect`. -/
def expect (op : String) : Parser Unit := fun st =>
  match st.token with
  | [] => .error .null_token
  | token :: next =>
    if token.kind ≠ .TOKEN_RESERVED ∨ strlen op ≠ token.length ∨
        memcmp token.string op.data token.length ≠ 0 then
      .error (.not_op op)
    else
      .ok ((), { st with token := next })

/-- Source: `expect_number`. -/
def expect_number : Parser Int := fun st =>
  match st.token with
  | [] => .error .null_token
  | token :: next =>
    if token.kind ≠ .TOKEN_NUMBER then
      .error .not_number
    else
      .ok (token.value, { st with token := next })

/-! ## Node constructors -/

/-- The value an `int` of 32 bits holds after an arithmetic result `x`: the
number congruent to `x` modulo `2^32` between `-2^31` and `2^31 - 1`.  An
addition that leaves this range wraps around, as the compiled code does. -/
def int_wrap (x : Int) : Int := (x + 2147483648) % 4294967296 - 2147483648

/-- Source: `new_local_variable`; `currentOffset += 8` is an addition of
`int`. -/
def new_local_variable (token : Token) : Parser LocalVariable := fun st =>
  let name := new_string token.string token.length
  let currentOffset := int_wrap (st.currentOffset + 8)
  let localVariable : LocalVariable := { name := name, offset := currentOffset }
  .ok (localVariable,
    { st with
      currentOffset := currentOffset
      localVariableTable := hash_table_store st.localVariableTable name localVariable })

/-- Source: `new_function_call`; `calloc` leaves the argument list null. -/
def new_function_call (token : Token) : FunctionCall Node :=
  { name := new_string token.string token.length, arguments := [] }

/-- Source: `new_node`. -/
def new_node (kind : NodeKind) (lhs rhs : Node) : Node := .binary kind lhs rhs

/-- Source: `new_node_num`. -/
def new_node_num (val : Int) : Node := .num val

/-- Source: `new_node_lvar`. -/
def new_node_lvar (token : Token) : Parser Node := fun st =>
  match hash_table_find st.localVariableTable (new_string token.string token.length) with
  | some localVariable => .ok (.lvar localVariable.offset, st)
  | none =>
    match new_local_variable token st with
    | .ok (localVariable, st1) => .ok (.lvar localVariable.offset, st1)
    | .error e => .error e

/-- Source: `new_node_function`. -/
def new_node_function (token : Token) : Node := .func (new_function_call token)

/-- Source: the assignment `function->functionCall->arguments = ...` of
`primary`. -/
def set_arguments (function : Node) (arguments : List Node) : Node :=
  match function with
  | .func functionCall => .func { functionCall with arguments := arguments }
  | node => node

/-- The value of `head.next` for a local `ListNode head` that the function
did not initialise, once the list `list` has been linked behind it by
`new_list_node`: the list when a cell was linked (which wrote `head.next`),
and an indeterminate pointer, `none`, when no cell was. -/
def uninitialised_head_next {α : Type} (list : List α) : Option (List α) :=
  match list with
  | [] => none
  | payload :: rest => some (payload :: rest)

/-! ## Expressions -/

/-- Source: the `for (;;)` loop of `argument`. -/
def argument_loop (expression : Parser Node) : Nat → List Node → Parser (List Node)
  | 0, _ => Parser.fail .out_of_fuel
  | fuel + 1, list => do
    if ← consume "," then
      let node ← expression
      argument_loop expression fuel (new_list_node node list)
    else
      return list

/-- Source: `argument`.  Its local `head` is not initialised, but the first
`new_list_node` writes `head.next` before it is read. -/
def argument (expression : Parser Node) (fuel : Nat) : Parser (List Node) := do
  let node ← expression
  argument_loop expression fuel (new_list_node node [])

/-- Source: `primary`. -/
def primary (expression : Parser Node) (fuel : Nat) : Parser Node := do
  if ← consume "(" then
    let node ← expression
    expect ")"
    return node
  else
    match ← consume_identifier with
    | some identifier =>
      if ← consume "(" then
        if !(← consume ")") then
          let arguments ← argument expression fuel
          expect ")"
          return set_arguments (new_node_function identifier) arguments
        else
          return new_node_function identifier
      else
        new_node_lvar identifier
    | none =>
      let value ← expect_number
      return new_node_num value

/-- Source: `unary`. -/
def unary (expression : Parser Node) (fuel : Nat) : Parser Node := do
  if ← consume "+" then
    primary expression fuel
  else if ← consume "-" then
    let node ← primary expression fuel
    return new_node .NODE_SUB (new_node_num 0) node
  else
    primary expression fuel

/-- Source: the `for (;;)` loop of `multiply`. -/
def multiply_loop (expression : Parser Node) (fuel : Nat) : Nat → Node → Parser Node
  | 0, _ => Parser.fail .out_of_fuel
  | n + 1, node => do
    if ← consume "*" then
      let rhs ← unary expression fuel
      multiply_loop expression fuel n (new_node .NODE_MUL node rhs)
    else if ← consume "/" then
      let rhs ← unary expression fuel
      multiply_loop expression fuel n (new_node .NODE_DIV node rhs)
    else
      return node

/-- Source: `multiply`. -/
def multiply (expression : Parser Node) (fuel : Nat) : Parser Node := do
  let node ← unary expression fuel
  multiply_loop expression fuel fuel node

/-- Source: the `for (;;)` loop of `add`. -/
def add_loop (expression : Parser Node) (fuel : Nat) : Nat → Node → Parser Node
  | 0, _ => Parser.fail .out_of_fuel
  | n + 1, node => do
    if ← consume "+" then
      let rhs ← multiply expression fuel
      add_loop expression fuel n (new_node .NODE_ADD node rhs)
    else if ← consume "-" then
      let rhs ← multiply expression fuel
      add_loop expression fuel n (new_node .NODE_SUB node rhs)
    else
      return node

/-- Source: `add`. -/
def add (expression : Parser Node) (fuel : Nat) : Parser Node := do
  let node ← multiply expression fuel
  add_loop expression fuel fuel node

/-- Source: the `for (;;)` loop of `relational`. -/
def relational_loop (expression : Parser Node) (fuel : Nat) : Nat → Node → Parser Node
  | 0, _ => Parser.fail .out_of_fuel
  | n + 1, node => do
    if ← consume "<" then
      let rhs ← add expression fuel
      relational_loop expression fuel n (new_node .NODE_LT node rhs)
    else if ← consume "<=" then
      let rhs ← add expression fuel
      relational_loop expression fuel n (new_node .NODE_LE node rhs)
    else if ← consume ">" then
      let lhs ← add expression fuel
      relational_loop expression fuel n (new_node .NODE_LT lhs node)
    else if ← consume ">=" then
      let lhs ← add expression fuel
      relational_loop expression fuel n (new_node .NODE_LE lhs node)
    else
      return node

/-- Source: `relational`. -/
def relational (expression : Parser Node) (fuel : Nat) : Parser Node := do
  let node ← add expression fuel
  relational_loop expression fuel fuel node

/-- Source: the `for (;;)` loop of `equality`. -/
def equality_loop (expression : Parser Node) (fuel : Nat) : Nat → Node → Parser Node
  | 0, _ => Parser.fail .out_of_fuel
  | n + 1, node => do
    if ← consume "==" then
      let rhs ← relational expression fuel
      equality_loop expression fuel n (new_node .NODE_EQ node rhs)
    else if ← consume "!=" then
      let rhs ← relational expression fuel
      equality_loop expression fuel n (new_node .NODE_NE node rhs)
    else
      return node

/-- Source: `equality`. -/
def equality (expression : Parser Node) (fuel : Nat) : Parser Node := do
  let node ← relational expression fuel
  equality_loop expression fuel fuel node

/-- Source: the `for (;;)` loop of `assign`. -/
def assign_loop (expression : Parser Node) (fuel : Nat) : Nat → Node → Parser Node
  | 0, _ => Parser.fail .out_of_fuel
  | n + 1, node => do
    if ← consume "=" then
      let rhs ← equality expression fuel
      assign_loop expression fuel n (new_node .NODE_ASSIGN node rhs)
    else
      return node

/-- Source: `assign`. -/
def assign (expression : Parser Node) (fuel : Nat) : Parser Node := do
  let node ← equality expression fuel
  assign_loop expression fuel fuel node

/-- Source: `expression`, which closes the recursion of the expression
functions: with fuel `n + 1` the nested calls of `expression` have fuel `n`. -/
def expression : Nat → Parser Node
  | 0 => Parser.fail .out_of_fuel
  | fuel + 1 => assign (expression fuel) fuel

/-! ## Statements -/

/-- Source: `expression_statement`. -/
def expression_statement (fuel : Nat) : Parser ExpressionStatement := do
  let node ← expression fuel
  expect ";"
  return { node := node }

/-- Source: `return_statement`. -/
def return_statement (fuel : Nat) : Parser (Option ReturnStatement) := do
  if !(← consume "return") then
    return none
  else
    let node ← expression fuel
    expect ";"
    return some { node := node }

/-- Source: `if_statement`.  The condition `!consume("if") || !consume("(")`
evaluates its second operand only when the first `consume` succeeded. -/
def if_statement (statement : Parser StatementUnion) (fuel : Nat) :
    Parser (Option (IfStatement StatementUnion)) := do
  if !(← consume "if") then
    return none
  else if !(← consume "(") then
    return none
  else
    let condition ← expression fuel
    expect ")"
    let thenStatement ← statement
    if ← consume "else" then
      let elseStatement ← statement
      return some
        { condition := condition, thenStatement := thenStatement,
          elseStatement := some elseStatement }
    else
      return some
        { condition := condition, thenStatement := thenStatement, elseStatement := none }

/-- Source: `while_statement`. -/
def while_statement (statement : Parser StatementUnion) (fuel : Nat) :
    Parser (Option (WhileStatement StatementUnion)) := do
  if !(← consume "while") then
    return none
  else if !(← consume "(") then
    return none
  else
    let condition ← expression fuel
    expect ")"
    let body ← statement
    return some { condition := condition, statement := body }

/-- Source: `for_statement`. -/
def for_statement (statement : Parser StatementUnion) (fuel : Nat) :
    Parser (Option (ForStatement StatementUnion)) := do
  if !(← consume "for") then
    return none
  else if !(← consume "(") then
    return none
  else
    let initialization ← expression fuel
    expect ";"
    let condition ← expression fuel
    expect ";"
    let afterthought ← expression fuel
    expect ")"
    let body ← statement
    return some
      { initialization := initialization, condition := condition,
        afterthought := afterthought, statement := body }

/-- Source: the `while (!consume("}"))` loop of `compound_statement`. -/
def compound_statement_loop (statement : Parser StatementUnion) :
    Nat → List StatementUnion → Parser (List StatementUnion)
  | 0, _ => Parser.fail .out_of_fuel
  | n + 1, node => do
    if !(← consume "\x7d") then
      let s ← statement
      compound_statement_loop statement n (new_list_node s node)
    else
      return node

/-- Source: `compound_statement`.  Unlike `program`, it does not set
`head.next = NULL` before the loop, so after a loop that linked no cell
`result->statementHead = head.next` copies an indeterminate pointer. -/
def compound_statement (statement : Parser StatementUnion) (fuel : Nat) :
    Parser (Option (CompoundStatement StatementUnion)) := do
  if !(← consume "\x7b") then
    return none
  else
    let list ← compound_statement_loop statement fuel []
    return some { statementHead := uninitialised_head_next list }

/-- Source: `statement`, which closes the recursion of the statement
recognisers: with fuel `n + 1` the nested calls of `statement` have fuel
`n`. -/
def statement : Nat → Parser StatementUnion
  | 0 => Parser.fail .out_of_fuel
  | fuel + 1 => do
    match ← return_statement fuel with
    | some returnPattern => return .returnStatement returnPattern
    | none =>
    match ← if_statement (statement fuel) fuel with
    | some ifPattern => return .ifStatement ifPattern
    | none =>
    match ← while_statement (statement fuel) fuel with
    | some whilePattern => return .whileStatement whilePattern
    | none =>
    match ← for_statement (statement fuel) fuel with
    | some forPattern => return .forStatement forPattern
    | none =>
    match ← compound_statement (statement fuel) fuel with
    | some compoundPattern => return .compoundStatement compoundPattern
    | none =>
    let expressionPattern ← expression_statement fuel
    return .expressionStatement expressionPattern

/-- Source: the `while (!at_eof())` loop of `program`. -/
def program_loop (fuel : Nat) : Nat → List StatementUnion → Parser (List StatementUnion)
  | 0, _ => Parser.fail .out_of_fuel
  | n + 1, current => do
    if !(← at_eof) then
      let s ← statement fuel
      program_loop fuel n (new_list_node s current)
    else
      return current

/-- Source: the two assignments that open `program`. -/
def program_reset : Parser Unit := fun st =>
  .ok ((), { st with localVariableTable := new_hash_table, currentOffset := 0 })

/-- Source: `program`. -/
def program (fuel : Nat) : Parser (List StatementUnion) := do
  program_reset
  program_loop fuel fuel []

/-- Source: the assignment `token = head` of `parse`. -/
def set_token (head : List Token) : Parser Unit := fun st =>
  .ok ((), { st with token := head })

/-- Source: `parse`. -/
def parse (fuel : Nat) (head : List Token) : Parser (List StatementUnion) := do
  set_token head
  program fuel

/-! ## Token streams of the examples -/

/-- A reserved token whose lexeme is `s`. -/
def reserved (s : String) : Token :=
  { kind := .TOKEN_RESERVED, string := s.data, length := s.data.length, value := 0 }

/-- An identifier token whose lexeme is `s`. -/
def ident (s : String) : Token :=
  { kind := .TOKEN_IDENTIFIER, string := s.data, length := s.data.length, value := 0 }

/-- A number token of value `v`. -/
def number (v : Int) : Token :=
  { kind := .TOKEN_NUMBER, string := [], length := 0, value := v }

/-- The end-of-input sentinel. -/
def eof : Token :=
  { kind := .TOKEN_EOF, string := [], length := 0, value := 0 }

/-- The token of kind `kind` and length `length` that a tokenizer cuts at the
start of `source`: its `string` is the source text from the token on. -/
def token_at (kind : TokenKind) (source : String) (length : Nat) : Token :=
  { kind := kind, string := source.data, length := length, value := 0 }

/-- The token stream of `a = 1; b = a + 2;`. -/
def tokens_two_assignments : List Token :=
  [ident "a", reserved "=", number 1, reserved ";",
   ident "b", reserved "=", ident "a", reserved "+", number 2, reserved ";", eof]

/-- The token stream of `{ a = 1; } b = a;`, where `a` is first used inside a
compound statement and used again after it. -/
def tokens_block_then_use : List Token :=
  [reserved "\x7b", ident "a", reserved "=", number 1, reserved ";", reserved "\x7d",
   ident "b", reserved "=", ident "a", reserved ";", eof]

/-- The state before the first call of `parse`: null cursor, no table, zero
counter. -/
def State.initial : State :=
  { token := [], localVariableTable := [], currentOffset := 0 }

/-! ## Properties of parsers -/

/-- A predicate `G` on parsers that holds of the operations on the cursor and
of the end of the fuel, and is kept by sequencing.  The identifier branch of `primary` is one block: after
`consume_identifier` the continuation either takes the `(` of a call or makes
the LVAR node. -/
structure Closed (G : (α : Type) → Parser α → Prop) : Prop where
  pure : ∀ (α : Type) (a : α), G α (pure a)
  bind : ∀ (α β : Type) (f : Parser α) (g : α → Parser β),
    G α f → (∀ a, G β (g a)) → G β (f >>= g)
  fail : ∀ (α : Type), G α (Parser.fail .out_of_fuel)
  at_eof : G Bool at_eof
  consume : ∀ op, G Bool (consume op)
  expect : ∀ op, G Unit (expect op)
  expect_number : G Int expect_number
  identifier : ∀ (k : Option Token → Parser Node), G Node (k none) →
    (∀ t, ∃ call, k (some t) = (Azcc.consume "(" >>= fun b =>
        if b = true then call else new_node_lvar t) ∧ G Node call) →
    G Node (consume_identifier >>= k)

/-- The test of `consume` and `expect` read positively: the token is reserved
and its lexeme, the first `length` bytes at `string`, has the length and the
bytes of `op`. -/
def Token.is_op (token : Token) (op : String) : Prop :=
  token.kind = .TOKEN_RESERVED ∧ token.length = op.data.length ∧
    token.string.take token.length = op.data

instance (token : Token) (op : String) : Decidable (token.is_op op) := by
  unfold Token.is_op
  infer_instance

/-- The lexeme of a token: the bytes `new_string` copies from it. -/
def Token.lexeme (token : Token) : List Char := new_string token.string token.length

/-- Whether the token list starts with a `(` that `consume` would take. -/
def starts_call : List Token → Bool
  | [] => false
  | token :: _ => decide (token.is_op "(")

/-- The variable names of a token stream in the order they occur: the lexemes
of the identifier tokens that are not immediately followed by `(`. -/
def variable_names : List Token → List (List Char)
  | [] => []
  | token :: next =>
    if token.kind = .TOKEN_IDENTIFIER ∧ starts_call next = false then
      token.lexeme :: variable_names next
    else
      variable_names next

/-- The distinct members of a list in the order of their first occurrence. -/
def first_uses : List (List Char) → List (List Char)
  | [] => []
  | name :: rest => name :: (first_uses rest).filter (fun other => other ≠ name)

/-- The table and counter reached from `(table, offset)` when the given names
are referenced one after the other, each reference allocating a slot, as
`new_local_variable` does, unless the name is already bound. -/
def allocate : List (List Char) → HashTable × Int → HashTable × Int
  | [], p => p
  | name :: rest, (table, offset) =>
    match hash_table_find table name with
    | some _ => allocate rest (table, offset)
    | none =>
      allocate rest
        (hash_table_store table name { name := name, offset := int_wrap (offset + 8) },
          int_wrap (offset + 8))

/-- The table and counter a state is heading for: those reached once the
variable names still ahead of the cursor have been referenced. -/
def pending (st : State) : HashTable × Int :=
  allocate (variable_names st.token) (st.localVariableTable, st.currentOffset)

/-- The table whose names were first referenced in the order `names.reverse`:
the name referenced `i`-th (from 1) is bound to the `int` that `i` additions of
8 to 0 give, which is `8 * i` while that is in the range of `int`. -/
def table_of_reversed : List (List Char) → HashTable
  | [] => []
  | name :: older =>
    (name, { name := name, offset := int_wrap (8 * ((older.length : Int) + 1)) }) ::
      table_of_reversed older

/-- Every successful run of `f` relates the state before to the state after by
`R`. -/
def Preserves (R : State → State → Prop) (α : Type) (f : Parser α) : Prop :=
  ∀ st a st', f st = .ok (a, st') → R st st'

/-- Table `T'` keeps every binding of table `T`. -/
def Extends (T T' : HashTable) : Prop :=
  ∀ key v, hash_table_find T key = some v → hash_table_find T' key = some v

/-- The upstream contract on the token list: it ends in a token of kind EOF,
the end-of-input sentinel, and no token before the last has that kind. -/
def eof_terminated (head : List Token) : Prop :=
  ∃ body sentinel, head = body ++ [sentinel] ∧ sentinel.kind = .TOKEN_EOF ∧
    ∀ token ∈ body, token.kind ≠ .TOKEN_EOF

/-! ## Operators and binding levels -/

/-- The binary operators the expression functions of `parse.c` consume. -/
inductive Op
  | mul
  | div
  | add
  | sub
  | lt
  | le
  | gt
  | ge
  | eq
  | ne
  | assign
  deriving DecidableEq, Repr

/-- The lexeme of the reserved token of an operator. -/
def Op.lexeme : Op → String
  | .mul => "*"
  | .div => "/"
  | .add => "+"
  | .sub => "-"
  | .lt => "<"
  | .le => "<="
  | .gt => ">"
  | .ge => ">="
  | .eq => "=="
  | .ne => "!="
  | .assign => "="

/-- The binding level of an operator, from the function whose loop consumes
it: 4 for `multiply`, 3 for `add`, 2 for `relational`, 1 for `equality`, 0 for
`assign`. -/
def Op.level : Op → Nat
  | .mul => 4
  | .div => 4
  | .add => 3
  | .sub => 3
  | .lt => 2
  | .le => 2
  | .gt => 2
  | .ge => 2
  | .eq => 1
  | .ne => 1
  | .assign => 0

/-- The node kind an operator is turned into; `>` and `>=` become LT and
LE. -/
def Op.kind : Op → NodeKind
  | .mul => .NODE_MUL
  | .div => .NODE_DIV
  | .add => .NODE_ADD
  | .sub => .NODE_SUB
  | .lt => .NODE_LT
  | .le => .NODE_LE
  | .gt => .NODE_LT
  | .ge => .NODE_LE
  | .eq => .NODE_EQ
  | .ne => .NODE_NE
  | .assign => .NODE_ASSIGN

/-- The node the loop of the operator's level makes from the node of the left
operand and the node of the right operand it has just parsed: `new_node(kind,
left, right)`, with the operands exchanged for `>` and `>=`. -/
def Op.build (op : Op) (left right : Node) : Node :=
  match op with
  | .gt => new_node op.kind right left
  | .ge => new_node op.kind right left
  | _ => new_node op.kind left right

/-- The expression function of a binding level; above level 4 it is
`unary`. -/
def at_level (expression : Parser Node) (fuel : Nat) : Nat → Parser Node
  | 0 => assign expression fuel
  | 1 => equality expression fuel
  | 2 => relational expression fuel
  | 3 => add expression fuel
  | 4 => multiply expression fuel
  | _ => unary expression fuel

/-- The loop of the expression function of a binding level. -/
def level_loop (expression : Parser Node) (fuel : Nat) : Nat → Nat → Node → Parser Node
  | 0 => assign_loop expression fuel
  | 1 => equality_loop expression fuel
  | 2 => relational_loop expression fuel
  | 3 => add_loop expression fuel
  | _ => multiply_loop expression fuel

/-- No operator of level `k` or above has the lexeme of the token: the loops of
these levels stop in front of it. -/
def stops_above (token : Token) (k : Nat) : Prop :=
  ∀ op : Op, k ≤ op.level → ¬ token.is_op op.lexeme

/-- The tokens `primary` can start with: `(`, an identifier or a number. -/
def starts_primary (token : Token) : Prop :=
  token.is_op "(" ∨ token.kind = .TOKEN_IDENTIFIER ∨ token.kind = .TOKEN_NUMBER

/-- The tokens `unary`, and with it every expression, can start with: those of
`primary` and the signs `+` and `-`. -/
def starts_expression (token : Token) : Prop :=
  starts_primary token ∨ token.is_op "+" ∨ token.is_op "-"

/-- The node `primary` makes of a number token or of an identifier token that no
`(` follows, with the table and counter it leaves, from table `T` and counter
`o`. -/
def atom (token : Token) (T : HashTable) (o : Int) : Node × HashTable × Int :=
  if token.kind = .TOKEN_NUMBER then
    (new_node_num token.value, T, o)
  else
    match hash_table_find T token.lexeme with
    | some localVariable => (.lvar localVariable.offset, T, o)
    | none =>
      (.lvar (int_wrap (o + 8)),
        hash_table_store T token.lexeme { name := token.lexeme, offset := int_wrap (o + 8) },
        int_wrap (o + 8))

mutual
/-- The node with every LVAR offset replaced by 0: what is left is the node
kinds, the children, the NUM values and the names of the called functions. -/
def Node.erase_offsets : Node → Node
  | .binary kind lhs rhs => .binary kind (Node.erase_offsets lhs) (Node.erase_offsets rhs)
  | .num val => .num val
  | .lvar _ => .lvar 0
  | .func functionCall => .func (FunctionCall.erase_offsets functionCall)
/-- The call record with the LVAR offsets of its arguments erased. -/
def FunctionCall.erase_offsets : FunctionCall Node → FunctionCall Node
  | ⟨name, arguments⟩ => ⟨name, erase_offsets_list arguments⟩
/-- The list of nodes with the LVAR offsets erased. -/
def erase_offsets_list : List Node → List Node
  | [] => []
  | node :: rest => Node.erase_offsets node :: erase_offsets_list rest
end

/-- Two nodes are the same up to LVAR offsets. -/
def same_shape (a b : Node) : Prop := a.erase_offsets = b.erase_offsets

/-- Two lists of nodes are the same up to LVAR offsets. -/
def same_shape_list (a b : List Node) : Prop := erase_offsets_list a = erase_offsets_list b

/-- Two tokens the parser cannot tell apart: it reads of a token its kind, its
length, the first `length` bytes at `string` and, of a number, its value.  The
tokens of one lexeme in two source texts are alike; their `string` fields
differ behind the lexeme. -/
def Token.alike (t t' : Token) : Prop :=
  t.kind = t'.kind ∧ t.length = t'.length ∧
    t.string.take t.length = t'.string.take t'.length ∧
    (t.kind = .TOKEN_NUMBER → t.value = t'.value)

/-- Two results of `consume_identifier` that hold tokens alike. -/
def alike_option : Option Token → Option Token → Prop
  | some t, some t' => t.alike t'
  | none, none => True
  | _, _ => False

/-- Two token lists that a run cannot tell apart before it reaches their end:
they start with parts `C`, `C'` of tokens alike one by one and go on with
reserved tokens that match none of the operators in `S` (or `C` is not empty,
and the run stops inside it). -/
def Boundary (S : String → Prop) (x y : List Token) : Prop :=
  ∃ (C C' : List Token) (t t' : Token) (r r' : List Token),
    x = C ++ t :: r ∧ y = C' ++ t' :: r' ∧ List.Forall₂ Token.alike C C' ∧
    (C = [] → t.kind = .TOKEN_RESERVED ∧ t'.kind = .TOKEN_RESERVED ∧
      ∀ op, S op → ¬ t.is_op op ∧ ¬ t'.is_op op)

/-- A successful run of `f` that consumes the tokens `A` depends on the bytes
behind the lexemes of `A`, on what follows `A`, and on the table, only up to
`rel`: from any table, `f'` consumes any tokens `A'` alike those of `A` one by
one, in front of any token list that `Boundary S` relates to what followed
`A`, and returns a value related by `rel`. -/
def Local {α : Type} (rel : α → α → Prop) (S : String → Prop) (f f' : Parser α) : Prop :=
  ∀ (st : State) (a : α) (st' : State), f st = .ok (a, st') →
    st'.token <:+ st.token ∧
    ∀ (A A' y : List Token) (T2 : HashTable) (o2 : Int),
      st.token = A ++ st'.token → List.Forall₂ Token.alike A A' →
      Boundary S st'.token y →
      ∃ (a' : α) (T2' : HashTable) (o2' : Int),
        f' { token := A' ++ y, localVariableTable := T2, currentOffset := o2 }
          = .ok (a', { token := y, localVariableTable := T2', currentOffset := o2' }) ∧
        rel a a'

/-- The operators every expression function may test at its right end. -/
def base_operators (S : String → Prop) : Prop :=
  S "(" ∧ S ")" ∧ S "," ∧ S "+" ∧ S "-"

/-- A set `S` of operator lexemes that holds everything the expression
function of level `k` may test at its right end. -/
def covers (S : String → Prop) (k : Nat) : Prop :=
  base_operators S ∧ ∀ op : Op, k ≤ op.level → S op.lexeme

/-- Every lexeme. -/
def every_operator : String → Prop := fun _ => True

/-- The lexemes `add` and the functions it calls may test at their right
end. -/
def add_operators : String → Prop :=
  fun op => op ∈ ["(", ")", ",", "+", "-", "*", "/"]

/-- The value a call returned, without the state it left; none when the call
aborted. -/
def returned {α : Type} (r : Except Error (α × State)) : Option α :=
  match r with
  | .ok (a, _) => some a
  | .error _ => none

/-- The runs of `E` over the arguments of a call, which commas separate: from
state `st` they return the nodes `nodes`, one per argument in source order, and
leave state `st'`. -/
def argument_runs (E : Parser Node) : List Node → State → State → Prop
  | [], _, _ => False
  | [node], st, st' => E st = .ok (node, st')
  | node :: next :: more, st, st' =>
    ∃ (s1 : State) (comma : Token) (rest : List Token),
      E st = .ok (node, s1) ∧ s1.token = comma :: rest ∧ comma.is_op "," ∧
        argument_runs E (next :: more) { s1 with token := rest } st'

mutual
/-- The offsets of the LVAR nodes of a node, from left to right. -/
def Node.offsets : Node → List Int
  | .binary _ lhs rhs => Node.offsets lhs ++ Node.offsets rhs
  | .num _ => []
  | .lvar offset => [offset]
  | .func functionCall => FunctionCall.offsets functionCall
/-- The offsets of the LVAR nodes in the arguments of a call. -/
def FunctionCall.offsets : FunctionCall Node → List Int
  | ⟨_, arguments⟩ => offsets_of_nodes arguments
/-- The offsets of the LVAR nodes of a list of nodes. -/
def offsets_of_nodes : List Node → List Int
  | [] => []
  | node :: rest => Node.offsets node ++ offsets_of_nodes rest
end

mutual
/-- The offsets of the LVAR nodes of a statement, in source order. -/
def StatementUnion.offsets : StatementUnion → List Int
  | .expressionStatement s => s.node.offsets
  | .returnStatement s => s.node.offsets
  | .ifStatement s => IfStatement.offsets s
  | .whileStatement s => WhileStatement.offsets s
  | .forStatement s => ForStatement.offsets s
  | .compoundStatement s => CompoundStatement.offsets s
/-- The offsets of the LVAR nodes of an `if` statement. -/
def IfStatement.offsets : IfStatement StatementUnion → List Int
  | ⟨condition, thenStatement, elseStatement⟩ =>
    condition.offsets ++ StatementUnion.offsets thenStatement
      ++ offsets_of_optional elseStatement
/-- The offsets of the LVAR nodes of a `while` statement. -/
def WhileStatement.offsets : WhileStatement StatementUnion → List Int
  | ⟨condition, statement⟩ => condition.offsets ++ StatementUnion.offsets statement
/-- The offsets of the LVAR nodes of a `for` statement. -/
def ForStatement.offsets : ForStatement StatementUnion → List Int
  | ⟨initialization, condition, afterthought, statement⟩ =>
    initialization.offsets ++ condition.offsets ++ afterthought.offsets
      ++ StatementUnion.offsets statement
/-- The offsets of the LVAR nodes of a compound statement. -/
def CompoundStatement.offsets : CompoundStatement StatementUnion → List Int
  | ⟨statementHead⟩ => offsets_of_head statementHead
/-- The offsets of the LVAR nodes of an else-branch, if there is one. -/
def offsets_of_optional : Option StatementUnion → List Int
  | none => []
  | some s => StatementUnion.offsets s
/-- The offsets of the LVAR nodes of the body of a compound statement. -/
def offsets_of_head : Option (List StatementUnion) → List Int
  | none => []
  | some list => offsets_of_statements list
/-- The offsets of the LVAR nodes of a list of statements. -/
def offsets_of_statements : List StatementUnion → List Int
  | [] => []
  | s :: rest => StatementUnion.offsets s ++ offsets_of_statements rest
end

/-- A token list whose last token has kind EOF. -/
def ends_in_eof (tokens : List Token) : Prop :=
  ∃ body sentinel, tokens = body ++ [sentinel] ∧ sentinel.kind = .TOKEN_EOF

/-- From a cursor on a list that ends in EOF, `f` never dereferences a null
token pointer, and when it returns the cursor is on a list that ends in EOF
again. -/
def Guarded (α : Type) (f : Parser α) : Prop :=
  ∀ st, ends_in_eof st.token →
    f st ≠ .error .null_token ∧ ∀ a st', f st = .ok (a, st') → ends_in_eof st'.token

/-- On a cursor of at most `n` tokens `f` does not run out of fuel, and when it
returns it leaves no more tokens in front of the cursor than it found. -/
def Finishes {α : Type} (n : Nat) (f : Parser α) : Prop :=
  ∀ st, st.token.length ≤ n →
    f st ≠ .error .out_of_fuel ∧
    ∀ a st', f st = .ok (a, st') → st'.token.length ≤ st.token.length

/-- Every run of `f` that returns has moved the cursor forward by at least one
token. -/
def Advances {α : Type} (f : Parser α) : Prop :=
  ∀ st a st', f st = .ok (a, st') → st'.token.length < st.token.length

/-- Whatever `f` does short of running out of fuel, `f'` does as well: `f'` is
`f` with more fuel. -/
def Refines {α : Type} (f f' : Parser α) : Prop :=
  ∀ st, f st ≠ .error .out_of_fuel → f' st = f st

/-- The offset function `ρ` gives every name the offset the table binds it
to; names the table does not bind are free. -/
def Agrees (ρ : List Char → Int) (T : HashTable) : Prop :=
  ∀ key v, hash_table_find T key = some v → ρ key = v.offset

mutual
/-- `Reads ρ tokens node`: the node is an expression tree over exactly the
tokens `tokens`, in their order.  A number token is the node NUM of its value;
an identifier token that is not called is the node LVAR whose offset is what
`ρ` gives the lexeme of that token; an identifier followed by a parenthesised
argument list is the node FUNC of its lexeme and the argument nodes; a binary
operator token between the tokens of its operands is the node its loop builds
of their nodes (`Op.build`: for `>` and `>=` the operands exchanged); a sign in
front is what `unary` makes of it; parentheses leave the node alone.  The
binding levels of the operators are not part of the relation. -/
inductive Reads (ρ : List Char → Int) : List Token → Node → Prop
  | number (t : Token) : t.kind = .TOKEN_NUMBER → Reads ρ [t] (.num t.value)
  | reference (t : Token) : t.kind = .TOKEN_IDENTIFIER → Reads ρ [t] (.lvar (ρ t.lexeme))
  | parenthesis (o c : Token) (ts : List Token) (node : Node) :
    o.is_op "(" → c.is_op ")" → Reads ρ ts node → Reads ρ (o :: (ts ++ [c])) node
  | call_empty (t o c : Token) :
    t.kind = .TOKEN_IDENTIFIER → o.is_op "(" → c.is_op ")" →
    Reads ρ [t, o, c] (.func { name := t.lexeme, arguments := [] })
  | call (t o c : Token) (ts : List Token) (nodes : List Node) :
    t.kind = .TOKEN_IDENTIFIER → o.is_op "(" → c.is_op ")" → ReadsArguments ρ ts nodes →
    Reads ρ (t :: o :: (ts ++ [c])) (.func { name := t.lexeme, arguments := nodes })
  | plus (s : Token) (ts : List Token) (node : Node) :
    s.is_op "+" → Reads ρ ts node → Reads ρ (s :: ts) node
  | minus (s : Token) (ts : List Token) (node : Node) :
    s.is_op "-" → Reads ρ ts node → Reads ρ (s :: ts) (.binary .NODE_SUB (.num 0) node)
  | binary (op : Op) (t : Token) (l r : List Token) (left right : Node) :
    t.is_op op.lexeme → Reads ρ l left → Reads ρ r right →
    Reads ρ (l ++ t :: r) (op.build left right)
/-- `ReadsArguments ρ tokens nodes`: the nodes are the arguments, in source
order, that the comma-separated tokens `tokens` read as. -/
inductive ReadsArguments (ρ : List Char → Int) : List Token → List Node → Prop
  | first (ts : List Token) (node : Node) : Reads ρ ts node → ReadsArguments ρ ts [node]
  | next (ts : List Token) (comma : Token) (ts2 : List Token) (nodes : List Node)
      (node : Node) :
    ReadsArguments ρ ts nodes → comma.is_op "," → Reads ρ ts2 node →
    ReadsArguments ρ (ts ++ comma :: ts2) (nodes ++ [node])
end

mutual
/-- `ReadsStatement ρ tokens s`: the statement `s` is a statement tree over
exactly the tokens `tokens`, in their order, whose expressions read their
tokens by `Reads ρ`.  A keyword `if`, `while` or `for` in front of a statement
may have been dropped (what the recognisers do with a keyword that no `(`
follows), and the body of a compound statement is stored as
`compound_statement` stores it. -/
inductive ReadsStatement (ρ : List Char → Int) : List Token → StatementUnion → Prop
  | expression (ts : List Token) (semicolon : Token) (node : Node) :
    semicolon.is_op ";" → Reads ρ ts node →
    ReadsStatement ρ (ts ++ [semicolon]) (.expressionStatement { node := node })
  | returning (kw : Token) (ts : List Token) (semicolon : Token) (node : Node) :
    kw.is_op "return" → semicolon.is_op ";" → Reads ρ ts node →
    ReadsStatement ρ (kw :: (ts ++ [semicolon])) (.returnStatement { node := node })
  | conditional (kw o c : Token) (tc ts : List Token) (condition : Node)
      (s : StatementUnion) :
    kw.is_op "if" → o.is_op "(" → c.is_op ")" → Reads ρ tc condition →
    ReadsStatement ρ ts s →
    ReadsStatement ρ (kw :: o :: (tc ++ c :: ts))
      (.ifStatement { condition := condition, thenStatement := s, elseStatement := none })
  | conditional_else (kw o c e : Token) (tc ts te : List Token) (condition : Node)
      (s s2 : StatementUnion) :
    kw.is_op "if" → o.is_op "(" → c.is_op ")" → e.is_op "else" → Reads ρ tc condition →
    ReadsStatement ρ ts s → ReadsStatement ρ te s2 →
    ReadsStatement ρ (kw :: o :: (tc ++ c :: (ts ++ e :: te)))
      (.ifStatement { condition := condition, thenStatement := s, elseStatement := some s2 })
  | while_loop (kw o c : Token) (tc ts : List Token) (condition : Node)
      (s : StatementUnion) :
    kw.is_op "while" → o.is_op "(" → c.is_op ")" → Reads ρ tc condition →
    ReadsStatement ρ ts s →
    ReadsStatement ρ (kw :: o :: (tc ++ c :: ts))
      (.whileStatement { condition := condition, statement := s })
  | for_loop (kw o s1 s2 c : Token) (t1 t2 t3 ts : List Token) (n1 n2 n3 : Node)
      (s : StatementUnion) :
    kw.is_op "for" → o.is_op "(" → s1.is_op ";" → s2.is_op ";" → c.is_op ")" →
    Reads ρ t1 n1 → Reads ρ t2 n2 → Reads ρ t3 n3 → ReadsStatement ρ ts s →
    ReadsStatement ρ (kw :: o :: (t1 ++ s1 :: (t2 ++ s2 :: (t3 ++ c :: ts))))
      (.forStatement
        { initialization := n1, condition := n2, afterthought := n3, statement := s })
  | compound (o c : Token) (ts : List Token) (list : List StatementUnion) :
    o.is_op "\x7b" → c.is_op "\x7d" → ReadsStatements ρ ts list →
    ReadsStatement ρ (o :: (ts ++ [c]))
      (.compoundStatement { statementHead := uninitialised_head_next list })
  | keyword_dropped (kw : Token) (ts : List Token) (s : StatementUnion) :
    kw.is_op "if" ∨ kw.is_op "while" ∨ kw.is_op "for" → ReadsStatement ρ ts s →
    ReadsStatement ρ (kw :: ts) s
/-- `ReadsStatements ρ tokens list`: the statements of `list`, in source
order, read the tokens `tokens` one after the other. -/
inductive ReadsStatements (ρ : List Char → Int) : List Token → List StatementUnion → Prop
  | empty : ReadsStatements ρ [] []
  | more (ts ts2 : List Token) (list : List StatementUnion) (s : StatementUnion) :
    ReadsStatements ρ ts list → ReadsStatement ρ ts2 s →
    ReadsStatements ρ (ts ++ ts2) (list ++ [s])
end

/-- A successful run of `f` only adds bindings to the table, and the tokens
`consumed` it moved the cursor over and the value it returned satisfy `P ρ` for
every offset function `ρ` that agrees with the table the run left. -/
def Reading {α : Type} (P : (List Char → Int) → List Token → α → Prop) (f : Parser α) :
    Prop :=
  ∀ st a st', f st = .ok (a, st') →
    Extends st.localVariableTable st'.localVariableTable ∧
    ∃ consumed, st.token = consumed ++ st'.token ∧
      ∀ ρ, Agrees ρ st'.localVariableTable → P ρ consumed a

/-- The tokens a statement recogniser that declined has moved the cursor over:
none, or the one keyword `if`, `while` or `for`. -/
def dropped_keyword (consumed : List Token) : Prop :=
  consumed = [] ∨
    ∃ kw, consumed = [kw] ∧ (kw.is_op "if" ∨ kw.is_op "while" ∨ kw.is_op "for")

/-- What a statement recogniser returns: when it declined, nothing but a
dropped keyword was consumed; otherwise the statement `wrap` makes of its
result reads the tokens consumed. -/
def reads_option {α : Type} (wrap : α → StatementUnion) (ρ : List Char → Int)
    (consumed : List Token) : Option α → Prop
  | none => dropped_keyword consumed
  | some x => ReadsStatement ρ consumed (wrap x)

/-- The offset the table binds a name to; 0 for a name it does not bind. -/
def bound_offset (T : HashTable) (name : List Char) : Int :=
  match hash_table_find T name with
  | some v => v.offset
  | none => 0

/-- The place (from 0) of the first occurrence of `name` in `names`; the
length of `names` when there is none. -/
def index_of (name : List Char) : List (List Char) → Nat
  | [] => 0
  | other :: rest => if other = name then 0 else index_of name rest + 1

/-- The offset of a name in first-use order: 8 times the place (from 1) of the
name among the distinct names of `names` in order of first occurrence. -/
def first_use_offset (names : List (List Char)) (name : List Char) : Int :=
  8 * ((index_of name (first_uses names) : Int) + 1)

/-! ## Every parser function satisfies a closed predicate -/

variable {G : (α : Type) → Parser α → Prop}

theorem Closed.argument_loop (C : Closed G) {E : Parser Node} (hE : G Node E) :
    ∀ (n : Nat) (list : List Node), G (List Node) (argument_loop E n list) := by
  intro n
  induction n with
  | zero => intro list; exact C.fail _
  | succ n ih =>
    intro list
    unfold Azcc.argument_loop
    repeat' first
      | exact C.consume _
      | exact hE
      | exact ih _
      | apply C.bind
      | apply C.pure
      | intro _
      | split

theorem Closed.argument (C : Closed G) {E : Parser Node} (hE : G Node E) (fuel : Nat) :
    G (List Node) (argument E fuel) := by
  unfold Azcc.argument
  exact C.bind _ _ _ _ hE fun _ => C.argument_loop hE _ _

theorem Closed.primary (C : Closed G) {E : Parser Node} (hE : G Node E) (fuel : Nat) :
    G Node (primary E fuel) := by
  unfold Azcc.primary
  refine C.bind _ _ _ _ (C.consume _) fun b => ?_
  split
  · exact C.bind _ _ _ _ hE fun _ => C.bind _ _ _ _ (C.expect _) fun _ => C.pure _ _
  · refine C.identifier _ ?_ fun t => ⟨_, rfl, ?_⟩
    · exact C.bind _ _ _ _ C.expect_number fun _ => C.pure _ _
    · refine C.bind _ _ _ _ (C.consume _) fun b => ?_
      split
      · exact C.bind _ _ _ _ (C.argument hE _) fun _ =>
          C.bind _ _ _ _ (C.expect _) fun _ => C.pure _ _
      · exact C.pure _ _

theorem Closed.unary (C : Closed G) {E : Parser Node} (hE : G Node E) (fuel : Nat) :
    G Node (unary E fuel) := by
  unfold Azcc.unary
  repeat' first
    | exact C.consume _
    | exact C.primary hE _
    | apply C.bind
    | apply C.pure
    | intro _
    | split

theorem Closed.multiply_loop (C : Closed G) {E : Parser Node} (hE : G Node E) (fuel : Nat) :
    ∀ (n : Nat) (node : Node), G Node (multiply_loop E fuel n node) := by
  intro n
  induction n with
  | zero => intro node; exact C.fail _
  | succ n ih =>
    intro node
    unfold Azcc.multiply_loop
    repeat' first
      | exact C.consume _
      | exact C.unary hE _
      | exact ih _
      | apply C.bind
      | apply C.pure
      | intro _
      | split

theorem Closed.multiply (C : Closed G) {E : Parser Node} (hE : G Node E) (fuel : Nat) :
    G Node (multiply E fuel) := by
  unfold Azcc.multiply
  exact C.bind _ _ _ _ (C.unary hE _) fun _ => C.multiply_loop hE _ _ _

theorem Closed.add_loop (C : Closed G) {E : Parser Node} (hE : G Node E) (fuel : Nat) :
    ∀ (n : Nat) (node : Node), G Node (add_loop E fuel n node) := by
  intro n
  induction n with
  | zero => intro node; exact C.fail _
  | succ n ih =>
    intro node
    unfold Azcc.add_loop
    repeat' first
      | exact C.consume _
      | exact C.multiply hE _
      | exact ih _
      | apply C.bind
      | apply C.pure
      | intro _
      | split

theorem Closed.add (C : Closed G) {E : Parser Node} (hE : G Node E) (fuel : Nat) :
    G Node (add E fuel) := by
  unfold Azcc.add
  exact C.bind _ _ _ _ (C.multiply hE _) fun _ => C.add_loop hE _ _ _

theorem Closed.relational_loop (C : Closed G) {E : Parser Node} (hE : G Node E)
    (fuel : Nat) : ∀ (n : Nat) (node : Node), G Node (relational_loop E fuel n node) := by
  intro n
  induction n with
  | zero => intro node; exact C.fail _
  | succ n ih =>
    intro node
    unfold Azcc.relational_loop
    repeat' first
      | exact C.consume _
      | exact C.add hE _
      | exact ih _
      | apply C.bind
      | apply C.pure
      | intro _
      | split

theorem Closed.relational (C : Closed G) {E : Parser Node} (hE : G Node E) (fuel : Nat) :
    G Node (relational E fuel) := by
  unfold Azcc.relational
  exact C.bind _ _ _ _ (C.add hE _) fun _ => C.relational_loop hE _ _ _

theorem Closed.equality_loop (C : Closed G) {E : Parser Node} (hE : G Node E)
    (fuel : Nat) : ∀ (n : Nat) (node : Node), G Node (equality_loop E fuel n node) := by
  intro n
  induction n with
  | zero => intro node; exact C.fail _
  | succ n ih =>
    intro node
    unfold Azcc.equality_loop
    repeat' first
      | exact C.consume _
      | exact C.relational hE _
      | exact ih _
      | apply C.bind
      | apply C.pure
      | intro _
      | split

theorem Closed.equality (C : Closed G) {E : Parser Node} (hE : G Node E) (fuel : Nat) :
    G Node (equality E fuel) := by
  unfold Azcc.equality
  exact C.bind _ _ _ _ (C.relational hE _) fun _ => C.equality_loop hE _ _ _

theorem Closed.assign_loop (C : Closed G) {E : Parser Node} (hE : G Node E)
    (fuel : Nat) : ∀ (n : Nat) (node : Node), G Node (assign_loop E fuel n node) := by
  intro n
  induction n with
  | zero => intro node; exact C.fail _
  | succ n ih =>
    intro node
    unfold Azcc.assign_loop
    repeat' first
      | exact C.consume _
      | exact C.equality hE _
      | exact ih _
      | apply C.bind
      | apply C.pure
      | intro _
      | split

theorem Closed.assign (C : Closed G) {E : Parser Node} (hE : G Node E) (fuel : Nat) :
    G Node (assign E fuel) := by
  unfold Azcc.assign
  exact C.bind _ _ _ _ (C.equality hE _) fun _ => C.assign_loop hE _ _ _

theorem Closed.expression (C : Closed G) : ∀ fuel : Nat, G Node (expression fuel) := by
  intro fuel
  induction fuel with
  | zero => exact C.fail _
  | succ n ih => exact C.assign ih n

theorem Closed.expression_statement (C : Closed G) (fuel : Nat) :
    G ExpressionStatement (expression_statement fuel) := by
  unfold Azcc.expression_statement
  exact C.bind _ _ _ _ (C.expression _) fun _ => C.bind _ _ _ _ (C.expect _) fun _ => C.pure _ _

theorem Closed.return_statement (C : Closed G) (fuel : Nat) :
    G (Option ReturnStatement) (return_statement fuel) := by
  unfold Azcc.return_statement
  repeat' first
    | exact C.consume _
    | exact C.expect _
    | exact C.expression _
    | apply C.bind
    | apply C.pure
    | intro _
    | split

theorem Closed.if_statement (C : Closed G) {S : Parser StatementUnion}
    (hS : G StatementUnion S) (fuel : Nat) :
    G (Option (IfStatement StatementUnion)) (if_statement S fuel) := by
  unfold Azcc.if_statement
  repeat' first
    | exact C.consume _
    | exact C.expect _
    | exact C.expression _
    | exact hS
    | apply C.bind
    | apply C.pure
    | intro _
    | split

theorem Closed.while_statement (C : Closed G) {S : Parser StatementUnion}
    (hS : G StatementUnion S) (fuel : Nat) :
    G (Option (WhileStatement StatementUnion)) (while_statement S fuel) := by
  unfold Azcc.while_statement
  repeat' first
    | exact C.consume _
    | exact C.expect _
    | exact C.expression _
    | exact hS
    | apply C.bind
    | apply C.pure
    | intro _
    | split

theorem Closed.for_statement (C : Closed G) {S : Parser StatementUnion}
    (hS : G StatementUnion S) (fuel : Nat) :
    G (Option (ForStatement StatementUnion)) (for_statement S fuel) := by
  unfold Azcc.for_statement
  repeat' first
    | exact C.consume _
    | exact C.expect _
    | exact C.expression _
    | exact hS
    | apply C.bind
    | apply C.pure
    | intro _
    | split

theorem Closed.compound_statement_loop (C : Closed G) {S : Parser StatementUnion}
    (hS : G StatementUnion S) :
    ∀ (n : Nat) (node : List StatementUnion),
      G (List StatementUnion) (compound_statement_loop S n node) := by
  intro n
  induction n with
  | zero => intro node; exact C.fail _
  | succ n ih =>
    intro node
    unfold Azcc.compound_statement_loop
    repeat' first
      | exact C.consume _
      | exact hS
      | exact ih _
      | apply C.bind
      | apply C.pure
      | intro _
      | split

theorem Closed.compound_statement (C : Closed G) {S : Parser StatementUnion}
    (hS : G StatementUnion S) (fuel : Nat) :
    G (Option (CompoundStatement StatementUnion)) (compound_statement S fuel) := by
  unfold Azcc.compound_statement
  repeat' first
    | exact C.consume _
    | exact C.compound_statement_loop hS _ _
    | apply C.bind
    | apply C.pure
    | intro _
    | split

theorem Closed.statement (C : Closed G) : ∀ fuel : Nat, G StatementUnion (statement fuel) := by
  intro fuel
  induction fuel with
  | zero => exact C.fail _
  | succ n ih =>
    unfold Azcc.statement
    repeat' first
      | exact C.return_statement _
      | exact C.if_statement ih _
      | exact C.while_statement ih _
      | exact C.for_statement ih _
      | exact C.compound_statement ih _
      | exact C.expression_statement _
      | apply C.bind
      | apply C.pure
      | intro _
      | split

theorem Closed.program_loop (C : Closed G) (fuel : Nat) :
    ∀ (n : Nat) (current : List StatementUnion),
      G (List StatementUnion) (program_loop fuel n current) := by
  intro n
  induction n with
  | zero => intro current; exact C.fail _
  | succ n ih =>
    intro current
    unfold Azcc.program_loop
    repeat' first
      | exact C.at_eof
      | exact C.statement _
      | exact ih _
      | apply C.bind
      | apply C.pure
      | intro _
      | split

/-! ## What a successful cursor operation tells -/

theorem bind_ok {α β : Type} {f : Parser α} {g : α → Parser β} {st st' : State} {b : β} :
    (f >>= g) st = .ok (b, st') ↔ ∃ a s1, f st = .ok (a, s1) ∧ g a s1 = .ok (b, st') := by
  show Parser.bind f g st = _ ↔ _
  unfold Parser.bind
  cases h : f st with
  | error e => simp
  | ok p =>
    obtain ⟨a, s1⟩ := p
    constructor
    · intro hg
      exact ⟨a, s1, rfl, hg⟩
    · rintro ⟨a', s1', heq, hg⟩
      cases heq
      exact hg

theorem pure_ok {α : Type} {a b : α} {st st' : State} :
    (pure a : Parser α) st = .ok (b, st') ↔ b = a ∧ st' = st := by
  show Parser.pure a st = _ ↔ _
  unfold Parser.pure
  simp [eq_comm]

theorem memcmp_eq_zero (a b : List Char) (n : Nat) :
    memcmp a b n = 0 ↔ a.take n = b.take n := by
  unfold memcmp
  split <;> simp [*]

theorem is_op_iff (token : Token) (op : String) :
    token.is_op op ↔ ¬ (token.kind ≠ .TOKEN_RESERVED ∨ strlen op ≠ token.length ∨
      memcmp token.string op.data token.length ≠ 0) := by
  unfold Token.is_op strlen
  rw [not_or, not_or, not_not, not_not, not_not, memcmp_eq_zero]
  constructor
  · rintro ⟨h1, h2, h3⟩
    refine ⟨h1, h2.symm, ?_⟩
    rw [h3, h2, List.take_length]
  · rintro ⟨h1, h2, h3⟩
    refine ⟨h1, h2.symm, ?_⟩
    rw [h3, ← h2, List.take_length]

theorem consume_eq (op : String) (st : State) :
    consume op st = match st.token with
      | [] => .error .null_token
      | token :: next =>
        if token.is_op op then .ok (true, { st with token := next }) else .ok (false, st) := by
  unfold consume
  cases st.token with
  | nil => rfl
  | cons token next =>
    simp only [is_op_iff]
    by_cases h : token.kind ≠ .TOKEN_RESERVED ∨ strlen op ≠ token.length ∨
      memcmp token.string op.data token.length ≠ 0
    · simp only [h, if_true, not_true, if_false]
    · simp only [h, if_false, not_false_eq_true, if_true]

theorem expect_eq (op : String) (st : State) :
    expect op st = match st.token with
      | [] => .error .null_token
      | token :: next =>
        if token.is_op op then .ok ((), { st with token := next }) else .error (.not_op op) := by
  unfold expect
  cases st.token with
  | nil => rfl
  | cons token next =>
    simp only [is_op_iff]
    by_cases h : token.kind ≠ .TOKEN_RESERVED ∨ strlen op ≠ token.length ∨
      memcmp token.string op.data token.length ≠ 0
    · simp only [h, if_true, not_true, if_false]
    · simp only [h, if_false, not_false_eq_true, if_true]

theorem consume_ok {op : String} {st st' : State} {b : Bool}
    (h : consume op st = .ok (b, st')) :
    ∃ token next, st.token = token :: next ∧
      ((token.is_op op ∧ b = true ∧ st' = { st with token := next }) ∨
        (¬ token.is_op op ∧ b = false ∧ st' = st)) := by
  rw [consume_eq] at h
  cases hs : st.token with
  | nil => simp [hs] at h
  | cons token next =>
    refine ⟨token, next, rfl, ?_⟩
    simp only [hs] at h
    by_cases hop : token.is_op op
    · simp only [hop, if_true, Except.ok.injEq, Prod.mk.injEq] at h
      exact Or.inl ⟨hop, h.1.symm, by rw [← h.2]⟩
    · simp only [hop, if_false, Except.ok.injEq, Prod.mk.injEq] at h
      exact Or.inr ⟨hop, h.1.symm, h.2.symm⟩

theorem expect_ok {op : String} {st st' : State} {u : Unit}
    (h : expect op st = .ok (u, st')) :
    ∃ token next, st.token = token :: next ∧ token.is_op op ∧
      st' = { st with token := next } := by
  rw [expect_eq] at h
  cases hs : st.token with
  | nil => simp [hs] at h
  | cons token next =>
    refine ⟨token, next, rfl, ?_⟩
    simp only [hs] at h
    by_cases hop : token.is_op op
    · simp only [hop, if_true, Except.ok.injEq, Prod.mk.injEq] at h
      exact ⟨hop, by rw [← h.2]⟩
    · simp [hop] at h

theorem expect_number_ok {st st' : State} {v : Int}
    (h : expect_number st = .ok (v, st')) :
    ∃ token next, st.token = token :: next ∧ token.kind = .TOKEN_NUMBER ∧
      v = token.value ∧ st' = { st with token := next } := by
  unfold expect_number at h
  cases hs : st.token with
  | nil => simp [hs] at h
  | cons token next =>
    refine ⟨token, next, rfl, ?_⟩
    simp only [hs] at h
    by_cases hk : token.kind = .TOKEN_NUMBER
    · simp only [hk, ne_eq, not_true_eq_false, if_false, Except.ok.injEq, Prod.mk.injEq] at h
      exact ⟨hk, h.1.symm, by rw [← h.2]⟩
    · simp [hk] at h

theorem consume_identifier_ok {st st' : State} {r : Option Token}
    (h : consume_identifier st = .ok (r, st')) :
    ∃ token next, st.token = token :: next ∧
      ((token.kind = .TOKEN_IDENTIFIER ∧ r = some token ∧ st' = { st with token := next }) ∨
        (token.kind ≠ .TOKEN_IDENTIFIER ∧ r = none ∧ st' = st)) := by
  unfold consume_identifier at h
  cases hs : st.token with
  | nil => simp [hs] at h
  | cons token next =>
    refine ⟨token, next, rfl, ?_⟩
    simp only [hs] at h
    by_cases hk : token.kind = .TOKEN_IDENTIFIER
    · simp only [hk, ne_eq, not_true_eq_false, if_false, Except.ok.injEq, Prod.mk.injEq] at h
      exact Or.inl ⟨hk, h.1.symm, by rw [← h.2]⟩
    · simp only [ne_eq, hk, not_false_eq_true, if_true, Except.ok.injEq, Prod.mk.injEq] at h
      exact Or.inr ⟨hk, h.1.symm, h.2.symm⟩

theorem at_eof_ok {st st' : State} {b : Bool} (h : at_eof st = .ok (b, st')) :
    ∃ token next, st.token = token :: next ∧ b = decide (token.kind = .TOKEN_EOF) ∧
      st' = st := by
  unfold at_eof at h
  cases hs : st.token with
  | nil => simp [hs] at h
  | cons token next =>
    refine ⟨token, next, rfl, ?_⟩
    simp only [hs, Except.ok.injEq, Prod.mk.injEq] at h
    exact ⟨h.1.symm, h.2.symm⟩

/-! ## Closed predicates from state relations -/

theorem new_node_lvar_ok {token : Token} {st st' : State} {node : Node}
    (h : new_node_lvar token st = .ok (node, st')) :
    (∃ v, hash_table_find st.localVariableTable token.lexeme = some v ∧
        node = .lvar v.offset ∧ st' = st) ∨
      (hash_table_find st.localVariableTable token.lexeme = none ∧
        node = .lvar (int_wrap (st.currentOffset + 8)) ∧
        st' = { st with
          currentOffset := int_wrap (st.currentOffset + 8)
          localVariableTable := hash_table_store st.localVariableTable token.lexeme
            { name := token.lexeme, offset := int_wrap (st.currentOffset + 8) } }) := by
  unfold new_node_lvar at h
  show (∃ v, hash_table_find st.localVariableTable (new_string token.string token.length)
      = some v ∧ _) ∨ (hash_table_find st.localVariableTable
      (new_string token.string token.length) = none ∧ _)
  cases hf : hash_table_find st.localVariableTable (new_string token.string token.length) with
  | some v =>
    simp only [hf, Except.ok.injEq, Prod.mk.injEq] at h
    exact Or.inl ⟨v, rfl, h.1.symm, h.2.symm⟩
  | none =>
    simp only [hf, new_local_variable, Except.ok.injEq, Prod.mk.injEq] at h
    exact Or.inr ⟨rfl, h.1.symm, h.2.symm⟩

theorem Preserves.closed {R : State → State → Prop} (hrefl : ∀ s, R s s)
    (htrans : ∀ a b c, R a b → R b c → R a c)
    (hadv : ∀ (st : State) (token : Token) (next : List Token), st.token = token :: next →
      token.kind ≠ .TOKEN_IDENTIFIER → R st { st with token := next })
    (hcall : ∀ (st : State) (token paren : Token) (next : List Token),
      st.token = token :: paren :: next → token.kind = .TOKEN_IDENTIFIER →
      paren.is_op "(" → R st { st with token := next })
    (hlvar : ∀ (st : State) (token : Token) (next : List Token) (node : Node) (s2 : State),
      st.token = token :: next → token.kind = .TOKEN_IDENTIFIER → starts_call next = false →
      new_node_lvar token { st with token := next } = .ok (node, s2) → R st s2) :
    Closed (Preserves R) where
  pure := by
    intro α a st b st' h
    rw [pure_ok] at h
    rw [h.2]
    exact hrefl st
  bind := by
    intro α β f g hf hg st b st' h
    obtain ⟨a, s1, h1, h2⟩ := bind_ok.mp h
    exact htrans _ _ _ (hf _ _ _ h1) (hg a _ _ _ h2)
  fail := by
    intro α st a st' h
    simp [Parser.fail] at h
  at_eof := by
    intro st b st' h
    obtain ⟨_, _, _, _, rfl⟩ := at_eof_ok h
    exact hrefl _
  consume := by
    intro op st b st' h
    obtain ⟨token, next, hs, ⟨hop, _, rfl⟩ | ⟨_, _, rfl⟩⟩ := consume_ok h
    · exact hadv st token next hs (by rw [hop.1]; decide)
    · exact hrefl _
  expect := by
    intro op st b st' h
    obtain ⟨token, next, hs, hop, rfl⟩ := expect_ok h
    exact hadv st token next hs (by rw [hop.1]; decide)
  expect_number := by
    intro st b st' h
    obtain ⟨token, next, hs, hk, _, rfl⟩ := expect_number_ok h
    exact hadv st token next hs (by rw [hk]; decide)
  identifier := by
    intro k hnone hsome st a st' h
    obtain ⟨r, s1, h1, h2⟩ := bind_ok.mp h
    obtain ⟨token, next, hs, ⟨hk, rfl, rfl⟩ | ⟨_, rfl, rfl⟩⟩ := consume_identifier_ok h1
    · obtain ⟨call, hcalleq, hcallG⟩ := hsome token
      rw [hcalleq] at h2
      obtain ⟨b, s2, h3, h4⟩ := bind_ok.mp h2
      obtain ⟨paren, next2, hs2, ⟨hop, rfl, rfl⟩ | ⟨hop, rfl, rfl⟩⟩ := consume_ok h3
      · simp only [if_true] at h4
        have hs2' : next = paren :: next2 := hs2
        refine htrans _ _ _ (hcall st token paren next2 (by rw [hs, hs2']) hk hop) ?_
        exact hcallG _ _ _ h4
      · simp only [Bool.false_eq_true, if_false] at h4
        have hs2' : next = paren :: next2 := hs2
        exact hlvar st token next a st' hs hk (by simp [hs2', starts_call, hop]) h4
    · exact hnone _ _ _ h2

theorem closed_of_primitives {G : (α : Type) → Parser α → Prop}
    (hpure : ∀ (α : Type) (a : α), G α (pure a))
    (hbind : ∀ (α β : Type) (f : Parser α) (g : α → Parser β),
      G α f → (∀ a, G β (g a)) → G β (f >>= g))
    (hfail : ∀ (α : Type), G α (Parser.fail .out_of_fuel))
    (hat_eof : G Bool at_eof) (hconsume : ∀ op, G Bool (consume op))
    (hexpect : ∀ op, G Unit (expect op)) (hexpect_number : G Int expect_number)
    (hconsume_identifier : G (Option Token) consume_identifier)
    (hnew_node_lvar : ∀ t, G Node (new_node_lvar t)) : Closed G where
  pure := hpure
  bind := hbind
  fail := hfail
  at_eof := hat_eof
  consume := hconsume
  expect := hexpect
  expect_number := hexpect_number
  identifier := by
    intro k hnone hsome
    refine hbind _ _ _ _ hconsume_identifier fun r => ?_
    cases r with
    | none => exact hnone
    | some t =>
      obtain ⟨call, hcalleq, hcallG⟩ := hsome t
      rw [hcalleq]
      refine hbind _ _ _ _ (hconsume _) fun b => ?_
      split
      · exact hcallG
      · exact hnew_node_lvar t

/-! ## Allocation in first-use order -/

theorem mem_first_uses (names : List (List Char)) (n : List Char) :
    n ∈ first_uses names ↔ n ∈ names := by
  induction names with
  | nil => simp [first_uses]
  | cons a rest ih =>
    simp only [first_uses, List.mem_cons, List.mem_filter, ih, decide_eq_true_eq]
    by_cases h : n = a <;> simp [h]

theorem nodup_first_uses (names : List (List Char)) : (first_uses names).Nodup := by
  induction names with
  | nil => simp [first_uses]
  | cons a rest ih =>
    simp only [first_uses, List.nodup_cons, List.mem_filter, decide_eq_true_eq]
    exact ⟨fun h => h.2 rfl, ih.filter _⟩

theorem find_table_of_reversed_none (R : List (List Char)) (key : List Char) :
    hash_table_find (table_of_reversed R) key = none ↔ key ∉ R := by
  induction R with
  | nil => simp [table_of_reversed, hash_table_find]
  | cons a older ih =>
    simp only [table_of_reversed, hash_table_find, List.mem_cons, not_or]
    by_cases h : a = key
    · simp [h]
    · simp [h, ih, Ne.symm h]

theorem find_table_of_reversed (L : List (List Char)) (hL : L.Nodup) (i : Nat)
    (hi : i < L.length) :
    hash_table_find (table_of_reversed L.reverse) (L.get ⟨i, hi⟩)
      = some { name := L.get ⟨i, hi⟩, offset := int_wrap (8 * ((i : Int) + 1)) } := by
  induction L using List.reverseRecOn generalizing i with
  | nil => simp at hi
  | append_singleton l a ih =>
    rw [List.nodup_append] at hL
    obtain ⟨hl, _, hdisj⟩ := hL
    simp only [List.reverse_append, List.reverse_cons, List.reverse_nil, List.nil_append,
      List.singleton_append, table_of_reversed, hash_table_find, List.length_reverse]
    by_cases hlt : i < l.length
    · have hget : (l ++ [a]).get ⟨i, hi⟩ = l.get ⟨i, hlt⟩ := by
        simp [List.getElem_append_left, hlt]
      rw [hget]
      have hne : a ≠ l.get ⟨i, hlt⟩ := by
        intro h
        exact hdisj (List.get_mem l i hlt) (by rw [← h]; simp) 
      simp only [hne, if_false]
      exact ih hl i hlt
    · have hi' : i = l.length := by
        simp only [List.length_append, List.length_singleton] at hi
        omega
      subst hi'
      have hget : (l ++ [a]).get ⟨l.length, hi⟩ = a := by simp
      rw [hget]
      simp

theorem int_wrap_of_fits {x : Int} (h0 : -2147483648 ≤ x) (h1 : x ≤ 2147483647) :
    int_wrap x = x := by
  unfold int_wrap
  omega

/-- At the upper end of the range of `int` the addition wraps around: with the
counter at 2147483640 a new variable gets the offset -2147483648. -/
theorem new_local_variable_wraps :
    new_node_lvar (ident "x")
        { token := [], localVariableTable := [], currentOffset := 2147483640 }
      = .ok (.lvar (-2147483648),
          { token := [],
            localVariableTable := [("x".data, { name := "x".data, offset := -2147483648 })],
            currentOffset := -2147483648 }) := by
  rfl

theorem int_wrap_add (a b : Int) : int_wrap (int_wrap a + b) = int_wrap (a + b) := by
  unfold int_wrap
  omega

theorem allocate_table_of (names : List (List Char)) :
    ∀ L : List (List Char),
      allocate names (table_of_reversed L.reverse, int_wrap (8 * (L.length : Int)))
        = (table_of_reversed (L ++ (first_uses names).filter (fun n => n ∉ L)).reverse,
            int_wrap
              (8 * ((L ++ (first_uses names).filter (fun n => n ∉ L)).length : Int))) := by
  induction names with
  | nil => intro L; simp [allocate, first_uses]
  | cons a rest ih =>
    intro L
    unfold allocate
    by_cases ha : a ∈ L
    · have hfind : ∃ v, hash_table_find (table_of_reversed L.reverse) a = some v := by
        cases hf : hash_table_find (table_of_reversed L.reverse) a with
        | none =>
          rw [find_table_of_reversed_none] at hf
          exact absurd (List.mem_reverse.mpr ha) hf
        | some v => exact ⟨v, rfl⟩
      obtain ⟨v, hv⟩ := hfind
      simp only [hv]
      rw [ih L]
      have hfil : (first_uses (a :: rest)).filter (fun n => n ∉ L)
          = (first_uses rest).filter (fun n => n ∉ L) := by
        simp only [first_uses, List.filter_cons, ha, not_true_eq_false, decide_False,
          Bool.false_eq_true, if_false, List.filter_filter]
        apply List.filter_congr
        intro x _
        by_cases hx : x = a
        · subst hx; simp [ha]
        · simp [hx]
      rw [hfil]
    · have hf : hash_table_find (table_of_reversed L.reverse) a = none := by
        rw [find_table_of_reversed_none]
        simpa using ha
      simp only [hf]
      have hw : int_wrap (int_wrap (8 * (L.length : Int)) + 8)
          = int_wrap (8 * ((L.length : Int) + 1)) := by
        rw [int_wrap_add, mul_add, mul_one]
      have hstore : (hash_table_store (table_of_reversed L.reverse) a
          { name := a, offset := int_wrap (int_wrap (8 * (L.length : Int)) + 8) },
          int_wrap (int_wrap (8 * (L.length : Int)) + 8))
          = (table_of_reversed (L ++ [a]).reverse,
              int_wrap (8 * ((L ++ [a]).length : Int))) := by
        rw [hw]
        simp only [hash_table_store, List.reverse_append, List.reverse_cons, List.reverse_nil,
          List.nil_append, List.singleton_append, table_of_reversed, List.length_reverse,
          List.length_append, List.length_singleton, Nat.cast_add, Nat.cast_one]
      rw [hstore, ih (L ++ [a])]
      have hfil : (first_uses (a :: rest)).filter (fun n => n ∉ L)
          = a :: (first_uses rest).filter (fun n => n ∉ L ++ [a]) := by
        simp only [first_uses, List.filter_cons, ha, not_false_eq_true, decide_True,
          if_true, List.filter_filter, List.cons.injEq, true_and]
        apply List.filter_congr
        intro x _
        by_cases hx : x = a
        · subst hx; simp
        · simp [hx]
      rw [hfil]
      simp

theorem allocate_from_empty (names : List (List Char)) :
    allocate names ([], 0)
      = (table_of_reversed (first_uses names).reverse,
          int_wrap (8 * ((first_uses names).length : Int))) := by
  have h := allocate_table_of names []
  have h0 : int_wrap (8 * (([] : List (List Char)).length : Int)) = 0 := by decide
  rw [h0] at h
  simpa [table_of_reversed] using h

theorem variable_names_cons_other (token : Token) (next : List Token)
    (h : token.kind ≠ .TOKEN_IDENTIFIER) :
    variable_names (token :: next) = variable_names next := by
  simp [variable_names, h]

theorem variable_names_cons_call (token : Token) (next : List Token)
    (h : starts_call next = true) :
    variable_names (token :: next) = variable_names next := by
  simp [variable_names, h]

theorem variable_names_cons_lvar (token : Token) (next : List Token)
    (hk : token.kind = .TOKEN_IDENTIFIER) (h : starts_call next = false) :
    variable_names (token :: next) = token.lexeme :: variable_names next := by
  simp [variable_names, hk, h]

/-- The cursor only moves forward: what is left is a suffix of what was. -/
theorem cursor_suffix_closed :
    Closed (Preserves fun st st' => st'.token <:+ st.token) := by
  refine Preserves.closed (fun s => List.suffix_refl _) (fun a b c h1 h2 => h2.trans h1)
    ?_ ?_ ?_
  · intro st token next hs _
    show next <:+ st.token
    rw [hs]
    exact List.suffix_cons _ _
  · intro st token paren next hs _ _
    show next <:+ st.token
    rw [hs]
    exact (List.suffix_cons _ _).trans (List.suffix_cons _ _)
  · intro st token next node s2 hs _ _ h
    have h3 : s2.token = next := by
      rcases new_node_lvar_ok h with ⟨v, _, _, rfl⟩ | ⟨_, _, rfl⟩ <;> rfl
    rw [h3, hs]
    exact List.suffix_cons _ _

/-- The table and counter a run is heading for never change. -/
theorem pending_closed : Closed (Preserves fun st st' => pending st = pending st') := by
  refine Preserves.closed (fun s => rfl) (fun a b c h1 h2 => h1.trans h2) ?_ ?_ ?_
  · intro st token next hs hk
    simp only [pending, hs, variable_names_cons_other token next hk]
  · intro st token paren next hs hk hop
    have h1 : variable_names (token :: paren :: next) = variable_names (paren :: next) :=
      variable_names_cons_call token _ (by simp [starts_call, hop])
    have h2 : variable_names (paren :: next) = variable_names next :=
      variable_names_cons_other paren next (by rw [hop.1]; decide)
    simp only [pending, hs, h1, h2]
  · intro st token next node s2 hs hk hcall h
    simp only [pending, hs, variable_names_cons_lvar token next hk hcall]
    rcases new_node_lvar_ok h with ⟨v, hv, _, rfl⟩ | ⟨hv, _, rfl⟩
    · simp only [allocate]
      simp only [] at hv
      rw [hv]
    · simp only [allocate]
      simp only [] at hv
      rw [hv]

/-! ## The end of an accepted parse -/

theorem Extends.refl (T : HashTable) : Extends T T := fun _ _ h => h

theorem Extends.trans {T1 T2 T3 : HashTable} (h1 : Extends T1 T2) (h2 : Extends T2 T3) :
    Extends T1 T3 := fun key v h => h2 key v (h1 key v h)

/-- When the loop of `program` returns, the cursor is on a token of kind EOF. -/
theorem program_loop_stops_at_eof (fuel : Nat) :
    ∀ (n : Nat) (current : List StatementUnion) (st : State) (ast : List StatementUnion)
      (st' : State), program_loop fuel n current st = .ok (ast, st') →
      ∃ token next, st'.token = token :: next ∧ token.kind = .TOKEN_EOF := by
  intro n
  induction n with
  | zero =>
    intro current st ast st' h
    simp [program_loop, Parser.fail] at h
  | succ n ih =>
    intro current st ast st' h
    unfold program_loop at h
    obtain ⟨b, s1, h1, h2⟩ := bind_ok.mp h
    obtain ⟨token, next, hs, rfl, rfl⟩ := at_eof_ok h1
    by_cases hk : token.kind = .TOKEN_EOF
    · simp only [hk, decide_True, Bool.not_true, Bool.false_eq_true, if_false] at h2
      obtain ⟨_, rfl⟩ := pure_ok.mp h2
      exact ⟨token, next, hs, hk⟩
    · simp only [hk, decide_False, Bool.not_false, if_true] at h2
      obtain ⟨s, s2, _, h4⟩ := bind_ok.mp h2
      exact ih _ _ _ _ h4

/-- The run of `parse` is the run of the loop of `program` from the reset
state. -/
theorem parse_ok {fuel : Nat} {head : List Token} {st st' : State}
    {ast : List StatementUnion} (h : parse fuel head st = .ok (ast, st')) :
    program_loop fuel fuel []
      { token := head, localVariableTable := [], currentOffset := 0 } = .ok (ast, st') := by
  unfold parse program at h
  obtain ⟨_, s1, h1, h2⟩ := bind_ok.mp h
  obtain ⟨_, s2, h3, h4⟩ := bind_ok.mp h2
  simp only [set_token, Except.ok.injEq, Prod.mk.injEq, true_and] at h1
  subst h1
  simp only [program_reset, new_hash_table, Except.ok.injEq, Prod.mk.injEq, true_and] at h3
  subst h3
  exact h4

/-- On an EOF-terminated stream the only suffix that starts with a token of
kind EOF is the sentinel alone. -/
theorem suffix_at_eof {head rest : List Token} {token : Token}
    (hwf : eof_terminated head) (hsuf : (token :: rest) <:+ head)
    (hk : token.kind = .TOKEN_EOF) :
    ∃ body, head = body ++ [token] ∧ rest = [] ∧ ∀ t ∈ body, t.kind ≠ .TOKEN_EOF := by
  obtain ⟨body, sentinel, rfl, hs, hbody⟩ := hwf
  obtain ⟨pre, hpre⟩ := hsuf
  rcases List.eq_nil_or_concat rest with rfl | ⟨r, last, rfl⟩
  · have h2 : pre ++ [token] = body ++ [sentinel] := hpre
    obtain ⟨h3, h4⟩ := List.append_inj' h2 rfl
    simp only [List.cons.injEq, and_true] at h4
    subst h3 h4
    exact ⟨pre, rfl, rfl, hbody⟩
  · exfalso
    have h2 : (pre ++ token :: r) ++ [last] = body ++ [sentinel] := by
      rw [← hpre]; simp
    obtain ⟨h3, _⟩ := List.append_inj' h2 rfl
    exact hbody token (by rw [← h3]; simp) hk

theorem variable_names_sentinel (token : Token) (hk : token.kind = .TOKEN_EOF) :
    variable_names [token] = [] := by
  simp [variable_names, hk]

/-- An accepted parse of an EOF-terminated stream ends on the sentinel. -/
theorem parse_final_cursor {fuel : Nat} {head : List Token} {st st' : State}
    {ast : List StatementUnion} (hwf : eof_terminated head)
    (h : parse fuel head st = .ok (ast, st')) :
    ∃ body sentinel, head = body ++ [sentinel] ∧ st'.token = [sentinel] ∧
      sentinel.kind = .TOKEN_EOF ∧ ∀ t ∈ body, t.kind ≠ .TOKEN_EOF := by
  have hloop := parse_ok h
  obtain ⟨token, next, hs, hk⟩ := program_loop_stops_at_eof _ _ _ _ _ _ hloop
  have hsuf : st'.token <:+ head := cursor_suffix_closed.program_loop fuel fuel [] _ _ _ hloop
  rw [hs] at hsuf
  obtain ⟨body, hhead, hnext, hbody⟩ := suffix_at_eof hwf hsuf hk
  subst hnext
  exact ⟨body, token, hhead, hs, hk, hbody⟩

/-- Where an accepted parse of an EOF-terminated stream ends: on the sentinel,
with the table and counter that referencing the variable names of the stream in
order gives. -/
theorem parse_final_state {fuel : Nat} {head : List Token} {st st' : State}
    {ast : List StatementUnion} (hwf : eof_terminated head)
    (h : parse fuel head st = .ok (ast, st')) :
    (∃ body sentinel, head = body ++ [sentinel] ∧ st'.token = [sentinel] ∧
      sentinel.kind = .TOKEN_EOF) ∧
    st'.localVariableTable = table_of_reversed (first_uses (variable_names head)).reverse ∧
    st'.currentOffset = int_wrap (8 * ((first_uses (variable_names head)).length : Int)) := by
  have hloop := parse_ok h
  obtain ⟨body, token, hhead, hs, hk, _⟩ := parse_final_cursor hwf h
  have hpend := pending_closed.program_loop fuel fuel [] _ _ _ hloop
  simp only [pending, hs, variable_names_sentinel token hk, allocate,
    allocate_from_empty] at hpend
  simp only [Prod.mk.injEq] at hpend
  exact ⟨⟨body, token, hhead, hs, hk⟩, hpend.1.symm, hpend.2.symm⟩

/-! ## Evaluation of the operator loops -/

theorem bind_apply {α β : Type} (f : Parser α) (g : α → Parser β) (st : State) :
    (f >>= g) st = match f st with
      | .ok (a, st1) => g a st1
      | .error e => .error e := rfl

theorem pure_apply {α : Type} (a : α) (st : State) :
    (pure a : Parser α) st = .ok (a, st) := rfl

theorem is_op_unique {token : Token} {a b : String} (ha : token.is_op a)
    (hb : token.is_op b) : a = b :=
  String.ext (by rw [← ha.2.2, ← hb.2.2])

theorem is_op_iff_eq {token : Token} {a : String} (ha : token.is_op a) (b : String) :
    token.is_op b ↔ a = b :=
  ⟨fun hb => is_op_unique ha hb, fun h => h ▸ ha⟩

theorem not_is_op_of_kind {token : Token} (h : token.kind ≠ .TOKEN_RESERVED) (op : String) :
    ¬ token.is_op op := fun hop => h hop.1

theorem consume_hit {op : String} {st : State} {token : Token} {next : List Token}
    (hs : st.token = token :: next) (hop : token.is_op op) :
    consume op st = .ok (true, { st with token := next }) := by
  rw [consume_eq]
  simp [hs, hop]

theorem consume_miss {op : String} {st : State} {token : Token} {next : List Token}
    (hs : st.token = token :: next) (hop : ¬ token.is_op op) :
    consume op st = .ok (false, st) := by
  rw [consume_eq]
  simp [hs, hop]

theorem expect_hit {op : String} {st : State} {token : Token} {next : List Token}
    (hs : st.token = token :: next) (hop : token.is_op op) :
    expect op st = .ok ((), { st with token := next }) := by
  rw [expect_eq]
  simp [hs, hop]

theorem at_level_eq (E : Parser Node) (fuel k : Nat) (hk : k ≤ 4) :
    at_level E fuel k = (at_level E fuel (k + 1) >>= level_loop E fuel k fuel) := by
  interval_cases k <;> rfl

theorem level_loop_step (E : Parser Node) (fuel : Nat) (op : Op) (n : Nat) (node rhs : Node)
    (st st2 : State) (token : Token) (next : List Token) (hs : st.token = token :: next)
    (hop : token.is_op op.lexeme)
    (hrhs : at_level E fuel (op.level + 1) { st with token := next } = .ok (rhs, st2)) :
    level_loop E fuel op.level (n + 1) node st
      = level_loop E fuel op.level n (op.build node rhs) st2 := by
  cases op <;>
    simp only [Op.level, Op.lexeme, at_level, level_loop] at hop hrhs ⊢
  case mul =>
    rw [multiply_loop, bind_apply, consume_hit hs hop]
    simp only [if_true, bind_apply, hrhs]
    rfl
  case div =>
    rw [multiply_loop, bind_apply, consume_miss hs (by rw [is_op_iff_eq hop]; decide)]
    simp only [Bool.false_eq_true, if_false, bind_apply, consume_hit hs hop, if_true, hrhs]
    rfl
  case add =>
    rw [add_loop, bind_apply, consume_hit hs hop]
    simp only [if_true, bind_apply, hrhs]
    rfl
  case sub =>
    rw [add_loop, bind_apply, consume_miss hs (by rw [is_op_iff_eq hop]; decide)]
    simp only [Bool.false_eq_true, if_false, bind_apply, consume_hit hs hop, if_true, hrhs]
    rfl
  case lt =>
    rw [relational_loop, bind_apply, consume_hit hs hop]
    simp only [if_true, bind_apply, hrhs]
    rfl
  case le =>
    rw [relational_loop, bind_apply, consume_miss hs (by rw [is_op_iff_eq hop]; decide)]
    simp only [Bool.false_eq_true, if_false, bind_apply, consume_hit hs hop, if_true, hrhs]
    rfl
  case gt =>
    rw [relational_loop, bind_apply, consume_miss hs (by rw [is_op_iff_eq hop]; decide)]
    simp only [Bool.false_eq_true, if_false, bind_apply,
      consume_miss hs (show ¬ token.is_op "<=" by rw [is_op_iff_eq hop]; decide),
      consume_hit hs hop, if_true, hrhs]
    rfl
  case ge =>
    rw [relational_loop, bind_apply, consume_miss hs (by rw [is_op_iff_eq hop]; decide)]
    simp only [Bool.false_eq_true, if_false, bind_apply,
      consume_miss hs (show ¬ token.is_op "<=" by rw [is_op_iff_eq hop]; decide),
      consume_miss hs (show ¬ token.is_op ">" by rw [is_op_iff_eq hop]; decide),
      consume_hit hs hop, if_true, hrhs]
    rfl
  case eq =>
    rw [equality_loop, bind_apply, consume_hit hs hop]
    simp only [if_true, bind_apply, hrhs]
    rfl
  case ne =>
    rw [equality_loop, bind_apply, consume_miss hs (by rw [is_op_iff_eq hop]; decide)]
    simp only [Bool.false_eq_true, if_false, bind_apply, consume_hit hs hop, if_true, hrhs]
    rfl
  case assign =>
    rw [assign_loop, bind_apply, consume_hit hs hop]
    simp only [if_true, bind_apply, hrhs]
    rfl

theorem level_loop_stop (E : Parser Node) (fuel k n : Nat) (node : Node) (st : State)
    (token : Token) (next : List Token) (hk : k ≤ 4) (hs : st.token = token :: next)
    (hstop : ∀ op : Op, op.level = k → ¬ token.is_op op.lexeme) :
    level_loop E fuel k (n + 1) node st = .ok (node, st) := by
  interval_cases k <;> simp only [level_loop]
  · rw [assign_loop, bind_apply, consume_miss hs (show ¬ token.is_op "=" from hstop .assign rfl)]
    rfl
  · rw [equality_loop, bind_apply, consume_miss hs (show ¬ token.is_op "==" from hstop .eq rfl)]
    simp only [Bool.false_eq_true, if_false, bind_apply,
      consume_miss hs (show ¬ token.is_op "!=" from hstop .ne rfl)]
    rfl
  · rw [relational_loop, bind_apply, consume_miss hs (show ¬ token.is_op "<" from hstop .lt rfl)]
    simp only [Bool.false_eq_true, if_false, bind_apply,
      consume_miss hs (show ¬ token.is_op "<=" from hstop .le rfl),
      consume_miss hs (show ¬ token.is_op ">" from hstop .gt rfl),
      consume_miss hs (show ¬ token.is_op ">=" from hstop .ge rfl)]
    rfl
  · rw [add_loop, bind_apply, consume_miss hs (show ¬ token.is_op "+" from hstop .add rfl)]
    simp only [Bool.false_eq_true, if_false, bind_apply,
      consume_miss hs (show ¬ token.is_op "-" from hstop .sub rfl)]
    rfl
  · rw [multiply_loop, bind_apply, consume_miss hs (show ¬ token.is_op "*" from hstop .mul rfl)]
    simp only [Bool.false_eq_true, if_false, bind_apply,
      consume_miss hs (show ¬ token.is_op "/" from hstop .div rfl)]
    rfl

theorem Op.lexeme_injective {a b : Op} (h : a.lexeme = b.lexeme) : a = b := by
  cases a <;> cases b <;> first | rfl | exact absurd h (by decide)

theorem stops_above_mono {token : Token} {j k : Nat} (h : stops_above token j) (hjk : j ≤ k) :
    stops_above token k := fun op hop => h op (le_trans hjk hop)

theorem stops_above_of_is_op {token : Token} {op : Op} (h : token.is_op op.lexeme) :
    stops_above token (op.level + 1) := by
  intro op' hlevel hop'
  have heq := Op.lexeme_injective (is_op_unique h hop')
  subst heq
  omega

theorem stops_above_of_semicolon {token : Token} (h : token.is_op ";") :
    stops_above token 0 := by
  intro op _ hop
  have heq := is_op_unique h hop
  cases op <;> exact absurd heq (by decide)

theorem not_is_op_of_level_ne {token : Token} {op : Op} (h : token.is_op op.lexeme)
    {k : Nat} (hk : op.level ≠ k) :
    ∀ op' : Op, op'.level = k → ¬ token.is_op op'.lexeme := by
  intro op' hlevel hop'
  have heq := Op.lexeme_injective (is_op_unique h hop')
  subst heq
  exact hk hlevel

theorem starts_primary_not_op {token : Token} (h : starts_primary token) {op : String}
    (hne : "(" ≠ op) : ¬ token.is_op op := by
  rcases h with h | h | h
  · rw [is_op_iff_eq h]
    exact hne
  · exact not_is_op_of_kind (by rw [h]; decide) op
  · exact not_is_op_of_kind (by rw [h]; decide) op

theorem starts_primary_not_eof {token : Token} (h : starts_primary token) :
    token.kind ≠ .TOKEN_EOF := by
  rcases h with h | h | h
  · rw [h.1]; decide
  · rw [h]; decide
  · rw [h]; decide

theorem starts_expression_not_op {token : Token} (h : starts_expression token) {op : String}
    (h1 : "(" ≠ op) (h2 : "+" ≠ op) (h3 : "-" ≠ op) : ¬ token.is_op op := by
  rcases h with h | h | h
  · exact starts_primary_not_op h h1
  · rw [is_op_iff_eq h]
    exact h2
  · rw [is_op_iff_eq h]
    exact h3

theorem starts_expression_not_eof {token : Token} (h : starts_expression token) :
    token.kind ≠ .TOKEN_EOF := by
  rcases h with h | h | h
  · exact starts_primary_not_eof h
  · rw [h.1]; decide
  · rw [h.1]; decide

theorem primary_first_token {E : Parser Node} {fuel : Nat} {st st' : State} {node : Node}
    (h : primary E fuel st = .ok (node, st')) :
    ∃ token next, st.token = token :: next ∧ starts_primary token := by
  unfold primary at h
  obtain ⟨b, s1, h1, h2⟩ := bind_ok.mp h
  obtain ⟨token, next, hs, ⟨hop, rfl, rfl⟩ | ⟨hop, rfl, rfl⟩⟩ := consume_ok h1
  · exact ⟨token, next, hs, Or.inl hop⟩
  · refine ⟨token, next, hs, ?_⟩
    simp only [Bool.false_eq_true, if_false] at h2
    obtain ⟨r, s2, h3, h4⟩ := bind_ok.mp h2
    obtain ⟨token2, next2, hs2, ⟨hk, rfl, rfl⟩ | ⟨hk, rfl, rfl⟩⟩ :=
      consume_identifier_ok h3
    · rw [hs] at hs2
      cases hs2
      exact Or.inr (Or.inl hk)
    · obtain ⟨v, s3, h5, _⟩ := bind_ok.mp h4
      obtain ⟨token3, next3, hs3, hk3, _, _⟩ := expect_number_ok h5
      rw [hs] at hs3
      cases hs3
      exact Or.inr (Or.inr hk3)

theorem unary_of_primary {E : Parser Node} {fuel : Nat} {st st' : State} {node : Node}
    (h : primary E fuel st = .ok (node, st')) : unary E fuel st = .ok (node, st') := by
  obtain ⟨token, next, hs, hstart⟩ := primary_first_token h
  rw [unary, bind_apply, consume_miss hs (starts_primary_not_op hstart (by decide))]
  simp only [Bool.false_eq_true, if_false, bind_apply,
    consume_miss hs (starts_primary_not_op hstart (show "(" ≠ "-" by decide))]
  exact h

theorem at_level_unary (E : Parser Node) (fuel k : Nat) (hk : 5 ≤ k) :
    at_level E fuel k = unary E fuel := by
  obtain ⟨j, rfl⟩ := Nat.exists_eq_add_of_le hk
  rw [Nat.add_comm]
  rfl

/-- A level that stops in front of the next token hands the node of the level
above through. -/
theorem level_lift {E : Parser Node} {fuel k : Nat} {st s1 : State} {x : Node}
    {token : Token} {next : List Token} (hfuel : 0 < fuel) (hk : k ≤ 4)
    (h : at_level E fuel (k + 1) st = .ok (x, s1)) (hs : s1.token = token :: next)
    (hstop : ∀ op : Op, op.level = k → ¬ token.is_op op.lexeme) :
    at_level E fuel k st = .ok (x, s1) := by
  obtain ⟨n, rfl⟩ := Nat.exists_eq_add_of_lt hfuel
  rw [at_level_eq E _ k hk, bind_apply, h]
  simp only [Nat.zero_add]
  exact level_loop_stop E _ k n x s1 token next hk hs hstop

/-- A node parsed at level `k` is the result of every lower level down to `j`
when no operator of the levels from `j` up follows. -/
theorem level_descend {E : Parser Node} {fuel : Nat} {st s1 : State} {x : Node}
    {token : Token} {next : List Token} (hfuel : 0 < fuel) (hs : s1.token = token :: next) :
    ∀ (d j : Nat), j + d ≤ 5 → stops_above token j →
      at_level E fuel (j + d) st = .ok (x, s1) → at_level E fuel j st = .ok (x, s1) := by
  intro d
  induction d with
  | zero => intro j _ _ h; exact h
  | succ d ih =>
    intro j hj hstop h
    have h1 : at_level E fuel (j + 1) st = .ok (x, s1) :=
      ih (j + 1) (by omega) (stops_above_mono hstop (by omega))
        (by rw [show j + 1 + d = j + (d + 1) by omega]; exact h)
    exact level_lift hfuel (by omega) h1 hs (fun op hop => hstop op (by omega))

/-- An operand of `primary` followed by a token that is no operator of level
`k` or above is what the function of level `k` parses. -/
theorem level_operand {E : Parser Node} {fuel : Nat} {st s1 : State} {x : Node}
    {token : Token} {next : List Token} (hfuel : 0 < fuel)
    (h : primary E fuel st = .ok (x, s1)) (hs : s1.token = token :: next) (k : Nat)
    (hstop : stops_above token k) : at_level E fuel k st = .ok (x, s1) := by
  by_cases hk : 5 ≤ k
  · rw [at_level_unary E fuel k hk]
    exact unary_of_primary h
  · have h5 : at_level E fuel (k + (5 - k)) st = .ok (x, s1) := by
      rw [at_level_unary E fuel _ (by omega)]
      exact unary_of_primary h
    exact level_descend hfuel hs (5 - k) k (by omega) hstop h5

/-- One application of a binary operator: left operand of the level above, the
operator, right operand of the level above, and then a token that is no
operator of this level. -/
theorem level_binary {E : Parser Node} {fuel : Nat} {op : Op} {st s1 s2 : State}
    {x y : Node} {t1 t2 : Token} {r1 r2 : List Token} (hfuel : 2 ≤ fuel)
    (hx : at_level E fuel (op.level + 1) st = .ok (x, s1)) (hs1 : s1.token = t1 :: r1)
    (hop : t1.is_op op.lexeme)
    (hy : at_level E fuel (op.level + 1) { s1 with token := r1 } = .ok (y, s2))
    (hs2 : s2.token = t2 :: r2)
    (hstop : ∀ op' : Op, op'.level = op.level → ¬ t2.is_op op'.lexeme) :
    at_level E fuel op.level st = .ok (op.build x y, s2) := by
  have hlevel : op.level ≤ 4 := by cases op <;> simp [Op.level]
  have key : ∀ c : Nat, 2 ≤ c →
      level_loop E fuel op.level c x s1 = .ok (op.build x y, s2) := by
    intro c hc
    obtain ⟨n, rfl⟩ := Nat.exists_eq_add_of_le hc
    rw [show 2 + n = (n + 1) + 1 by omega,
      level_loop_step E _ op (n + 1) x y s1 s2 t1 r1 hs1 hop hy]
    exact level_loop_stop E _ _ n _ s2 t2 r2 hlevel hs2 hstop
  rw [at_level_eq E _ _ hlevel, bind_apply, hx]
  exact key fuel hfuel

/-! ## Evaluation of statements and programs -/

theorem return_statement_declines {fuel : Nat} {st : State} {token : Token}
    {next : List Token} (hs : st.token = token :: next) (h : ¬ token.is_op "return") :
    return_statement fuel st = .ok (none, st) := by
  rw [return_statement, bind_apply, consume_miss hs h]
  rfl

theorem if_statement_declines {S : Parser StatementUnion} {fuel : Nat} {st : State}
    {token : Token} {next : List Token} (hs : st.token = token :: next)
    (h : ¬ token.is_op "if") : if_statement S fuel st = .ok (none, st) := by
  rw [if_statement, bind_apply, consume_miss hs h]
  rfl

theorem while_statement_declines {S : Parser StatementUnion} {fuel : Nat} {st : State}
    {token : Token} {next : List Token} (hs : st.token = token :: next)
    (h : ¬ token.is_op "while") : while_statement S fuel st = .ok (none, st) := by
  rw [while_statement, bind_apply, consume_miss hs h]
  rfl

theorem for_statement_declines {S : Parser StatementUnion} {fuel : Nat} {st : State}
    {token : Token} {next : List Token} (hs : st.token = token :: next)
    (h : ¬ token.is_op "for") : for_statement S fuel st = .ok (none, st) := by
  rw [for_statement, bind_apply, consume_miss hs h]
  rfl

theorem compound_statement_declines {S : Parser StatementUnion} {fuel : Nat} {st : State}
    {token : Token} {next : List Token} (hs : st.token = token :: next)
    (h : ¬ token.is_op "\x7b") : compound_statement S fuel st = .ok (none, st) := by
  rw [compound_statement, bind_apply, consume_miss hs h]
  rfl

/-- A statement that starts like an expression is an expression statement. -/
theorem statement_of_expression {fuel : Nat} {st s1 : State} {x : Node}
    {token semicolon : Token} {next rest : List Token} (hs : st.token = token :: next)
    (hstart : starts_expression token) (hx : expression fuel st = .ok (x, s1))
    (hs1 : s1.token = semicolon :: rest) (hsemi : semicolon.is_op ";") :
    statement (fuel + 1) st
      = .ok (.expressionStatement { node := x }, { s1 with token := rest }) := by
  rw [statement]
  simp only [bind_apply,
    return_statement_declines hs
      (starts_expression_not_op hstart (show "(" ≠ "return" by decide) (by decide)
        (by decide)),
    if_statement_declines hs
      (starts_expression_not_op hstart (show "(" ≠ "if" by decide) (by decide) (by decide)),
    while_statement_declines hs
      (starts_expression_not_op hstart (show "(" ≠ "while" by decide) (by decide)
        (by decide)),
    for_statement_declines hs
      (starts_expression_not_op hstart (show "(" ≠ "for" by decide) (by decide) (by decide)),
    compound_statement_declines hs
      (starts_expression_not_op hstart (show "(" ≠ "\x7b" by decide) (by decide)
        (by decide)),
    expression_statement, hx, expect_hit hs1 hsemi]
  rfl

/-- A program of one statement: the statement is parsed from the reset state
and the sentinel follows it. -/
theorem parse_of_one_statement {F : Nat} {head : List Token} {st s1 : State}
    {S : StatementUnion} {token sentinel : Token} {next rest : List Token} (hF : 2 ≤ F)
    (hhead : head = token :: next) (hk : token.kind ≠ .TOKEN_EOF)
    (hS : statement F { token := head, localVariableTable := [], currentOffset := 0 }
      = .ok (S, s1))
    (hs1 : s1.token = sentinel :: rest) (he : sentinel.kind = .TOKEN_EOF) :
    parse F head st = .ok ([S], s1) := by
  have key : ∀ c : Nat, 2 ≤ c →
      program_loop F c [] { token := head, localVariableTable := [], currentOffset := 0 }
        = .ok ([S], s1) := by
    intro c hc
    obtain ⟨n, rfl⟩ := Nat.exists_eq_add_of_le hc
    rw [show 2 + n = (n + 1) + 1 by omega, program_loop, bind_apply]
    simp only [at_eof, hhead, hk, decide_False, Bool.not_false, if_true, bind_apply]
    rw [← hhead, hS]
    simp only [program_loop, bind_apply, at_eof, hs1, he, decide_True, Bool.not_true,
      Bool.false_eq_true, if_false]
    rfl
  rw [parse, bind_apply]
  simp only [set_token, program, bind_apply, program_reset, new_hash_table]
  exact key F hF

/-! ## Programs of one expression statement -/

/-- A program of one expression statement: the expression is parsed by
`assign` from the reset state, then `;` and the sentinel follow. -/
theorem parse_of_expression {fuel : Nat} {head : List Token} {st sc : State} {x : Node}
    {token semicolon sentinel : Token} {next rest : List Token}
    (hhead : head = token :: next) (hstart : starts_expression token)
    (hx : at_level (expression fuel) fuel 0
      { token := head, localVariableTable := [], currentOffset := 0 } = .ok (x, sc))
    (hsc : sc.token = semicolon :: sentinel :: rest) (hsemi : semicolon.is_op ";")
    (he : sentinel.kind = .TOKEN_EOF) :
    parse (fuel + 2) head st
      = .ok ([.expressionStatement { node := x }], { sc with token := sentinel :: rest }) := by
  have hexpr : expression (fuel + 1)
      { token := head, localVariableTable := [], currentOffset := 0 } = .ok (x, sc) := hx
  have hstmt : statement (fuel + 1 + 1)
      { token := head, localVariableTable := [], currentOffset := 0 }
      = .ok (.expressionStatement { node := x }, { sc with token := sentinel :: rest }) :=
    statement_of_expression hhead hstart hexpr hsc hsemi
  exact parse_of_one_statement (show 2 ≤ fuel + 2 by omega) hhead
    (starts_expression_not_eof hstart) hstmt rfl he

/-! ## Operands that are single tokens, and relational operators -/

theorem primary_atom (E : Parser Node) (fuel : Nat) (token after : Token)
    (next : List Token) (T : HashTable) (o : Int)
    (hk : token.kind = .TOKEN_NUMBER ∨ token.kind = .TOKEN_IDENTIFIER)
    (hafter : ¬ after.is_op "(") :
    primary E fuel { token := token :: after :: next, localVariableTable := T,
                     currentOffset := o }
      = .ok ((atom token T o).1,
          { token := after :: next, localVariableTable := (atom token T o).2.1,
            currentOffset := (atom token T o).2.2 }) := by
  have hnot : ∀ op, ¬ token.is_op op := by
    intro op
    rcases hk with hk | hk <;> exact not_is_op_of_kind (by rw [hk]; decide) op
  rw [primary, bind_apply, consume_miss rfl (hnot _)]
  simp only [Bool.false_eq_true, if_false, bind_apply]
  rcases hk with hk | hk
  · simp only [consume_identifier, hk, ne_eq, reduceCtorEq, not_false_eq_true, if_true,
      bind_apply, expect_number, not_true_eq_false, if_false, atom]
    rfl
  · simp only [consume_identifier, hk, ne_eq, not_true_eq_false, if_false, bind_apply]
    have hcur : (State.mk (after :: next) T o).token = after :: next := rfl
    rw [consume_miss hcur hafter]
    simp only [Bool.false_eq_true, if_false, atom, hk, reduceCtorEq, new_node_lvar,
      Token.lexeme, new_local_variable]
    cases hash_table_find T (new_string token.string token.length) <;> rfl

theorem operator_not_paren {token : Token} {op : Op} (h : token.is_op op.lexeme) :
    ¬ token.is_op "(" := by
  rw [is_op_iff_eq h]
  cases op <;> decide

/-- The parse of `a op b ; EOF` for number or variable tokens `a`, `b`. -/
theorem parse_binary_atoms (op : Op) (fuel : Nat) (hfuel : 2 ≤ fuel)
    (a b top semicolon sentinel : Token) (st : State)
    (ha : a.kind = .TOKEN_NUMBER ∨ a.kind = .TOKEN_IDENTIFIER)
    (hb : b.kind = .TOKEN_NUMBER ∨ b.kind = .TOKEN_IDENTIFIER)
    (htop : top.is_op op.lexeme) (hsemi : semicolon.is_op ";")
    (he : sentinel.kind = .TOKEN_EOF) :
    returned (parse (fuel + 2) [a, top, b, semicolon, sentinel] st)
      = some [.expressionStatement
          { node := op.build (atom a [] 0).1
              (atom b (atom a [] 0).2.1 (atom a [] 0).2.2).1 }] := by
  have hstop := stops_above_of_semicolon hsemi
  have hpa := primary_atom (expression fuel) fuel a top [b, semicolon, sentinel] [] 0 ha
    (operator_not_paren htop)
  have hpb := primary_atom (expression fuel) fuel b semicolon [sentinel]
    (atom a [] 0).2.1 (atom a [] 0).2.2 hb
    (show ¬ semicolon.is_op "(" by rw [is_op_iff_eq hsemi]; decide)
  have hx := level_operand (show 0 < fuel by omega) hpa rfl (op.level + 1)
    (stops_above_of_is_op htop)
  have hy := level_operand (show 0 < fuel by omega) hpb rfl (op.level + 1)
    (stops_above_mono hstop (Nat.zero_le _))
  have hbin := level_binary hfuel hx rfl htop hy rfl
    (fun op' _ => hstop op' (Nat.zero_le _))
  have hbin' : at_level (expression fuel) fuel (0 + op.level)
      { token := [a, top, b, semicolon, sentinel], localVariableTable := [],
        currentOffset := 0 }
      = .ok (op.build (atom a [] 0).1 (atom b (atom a [] 0).2.1 (atom a [] 0).2.2).1,
          { token := [semicolon, sentinel],
            localVariableTable := (atom b (atom a [] 0).2.1 (atom a [] 0).2.2).2.1,
            currentOffset := (atom b (atom a [] 0).2.1 (atom a [] 0).2.2).2.2 }) := by
    rw [Nat.zero_add]
    exact hbin
  have hlevel : op.level ≤ 4 := by cases op <;> simp [Op.level]
  have hzero := level_descend (show 0 < fuel by omega) rfl op.level 0 (by omega) hstop hbin'
  have hstart : starts_primary a := by
    rcases ha with ha | ha
    · exact Or.inr (Or.inr ha)
    · exact Or.inr (Or.inl ha)
  rw [parse_of_expression rfl (Or.inl hstart) hzero rfl hsemi he]
  rfl

theorem unary_first_token {E : Parser Node} {fuel : Nat} {st st' : State} {node : Node}
    (h : unary E fuel st = .ok (node, st')) :
    ∃ token next, st.token = token :: next ∧ starts_expression token := by
  unfold unary at h
  obtain ⟨b, s1, h1, h2⟩ := bind_ok.mp h
  obtain ⟨token, next, hs, ⟨hop, rfl, rfl⟩ | ⟨hop, rfl, rfl⟩⟩ := consume_ok h1
  · exact ⟨token, next, hs, Or.inr (Or.inl hop)⟩
  · simp only [Bool.false_eq_true, if_false] at h2
    obtain ⟨b2, s2, h3, h4⟩ := bind_ok.mp h2
    obtain ⟨token2, next2, hs2, ⟨hop2, rfl, rfl⟩ | ⟨hop2, rfl, rfl⟩⟩ := consume_ok h3
    · exact ⟨token2, next2, hs2, Or.inr (Or.inr hop2)⟩
    · simp only [Bool.false_eq_true, if_false] at h4
      obtain ⟨token3, next3, hs3, hstart⟩ := primary_first_token h4
      exact ⟨token3, next3, hs3, Or.inl hstart⟩

theorem add_first_token {E : Parser Node} {fuel : Nat} {st st' : State} {node : Node}
    (h : add E fuel st = .ok (node, st')) :
    ∃ token next, st.token = token :: next ∧ starts_expression token := by
  unfold add at h
  obtain ⟨a, s1, h1, _⟩ := bind_ok.mp h
  unfold multiply at h1
  obtain ⟨b, s2, h2, _⟩ := bind_ok.mp h1
  exact unary_first_token h2

/-- The parse of `x op y ; EOF` for a relational operator `op` and operands
that `add` parses one after the other. -/
theorem parse_relational (op : Op) (hlevel : op.level = 2) (fuel : Nat) (hfuel : 2 ≤ fuel)
    (head : List Token) (st sx sy : State) (x y : Node) (top semicolon sentinel : Token)
    (rx rest : List Token)
    (hx : add (expression fuel) fuel
      { token := head, localVariableTable := [], currentOffset := 0 } = .ok (x, sx))
    (hsx : sx.token = top :: rx) (htop : top.is_op op.lexeme)
    (hy : add (expression fuel) fuel { sx with token := rx } = .ok (y, sy))
    (hsy : sy.token = semicolon :: sentinel :: rest) (hsemi : semicolon.is_op ";")
    (he : sentinel.kind = .TOKEN_EOF) :
    parse (fuel + 2) head st
      = .ok ([.expressionStatement { node := op.build x y }],
          { sy with token := sentinel :: rest }) := by
  have hstop := stops_above_of_semicolon hsemi
  have hx' : at_level (expression fuel) fuel (op.level + 1)
      { token := head, localVariableTable := [], currentOffset := 0 } = .ok (x, sx) := by
    rw [hlevel]
    exact hx
  have hy' : at_level (expression fuel) fuel (op.level + 1) { sx with token := rx }
      = .ok (y, sy) := by
    rw [hlevel]
    exact hy
  have hbin := level_binary hfuel hx' hsx htop hy' hsy
    (fun op' _ => hstop op' (Nat.zero_le _))
  have hbin' : at_level (expression fuel) fuel (0 + op.level)
      { token := head, localVariableTable := [], currentOffset := 0 }
      = .ok (op.build x y, sy) := by
    rw [Nat.zero_add]
    exact hbin
  have hzero := level_descend (show 0 < fuel by omega) hsy op.level 0 (by omega) hstop hbin'
  obtain ⟨token, next, hhead, hstart⟩ := add_first_token hx
  exact parse_of_expression hhead hstart hzero hsy hsemi he

/-! ## Operands exchanged: locality of the expression functions -/

theorem alike_refl (t : Token) : t.alike t := ⟨rfl, rfl, rfl, fun _ => rfl⟩

theorem alike_list_refl (A : List Token) : List.Forall₂ Token.alike A A := by
  induction A with
  | nil => exact .nil
  | cons t A ih => exact .cons (alike_refl t) ih

theorem alike_option_refl (r : Option Token) : alike_option r r := by
  cases r with
  | none => exact trivial
  | some t => exact alike_refl t

theorem alike_is_op {t t' : Token} (h : t.alike t') (op : String) :
    t.is_op op ↔ t'.is_op op := by
  obtain ⟨hk, hl, hs, _⟩ := h
  unfold Token.is_op
  rw [hs, hk, hl]

theorem alike_lexeme {t t' : Token} (h : t.alike t') :
    new_string t.string t.length = new_string t'.string t'.length := h.2.2.1

/-- Tokens alike those of an appended list split as the list does. -/
theorem alike_split {A1 A2 A' : List Token} (h : List.Forall₂ Token.alike (A1 ++ A2) A') :
    ∃ A1' A2', A' = A1' ++ A2' ∧ List.Forall₂ Token.alike A1 A1' ∧
      List.Forall₂ Token.alike A2 A2' := by
  induction A1 generalizing A' with
  | nil => exact ⟨[], A', rfl, .nil, h⟩
  | cons a A1 ih =>
    rw [List.cons_append] at h
    cases h with
    | cons ha hrest =>
      obtain ⟨A1', A2', rfl, h1, h2⟩ := ih hrest
      exact ⟨_ :: A1', A2', rfl, .cons ha h1, h2⟩

theorem alike_nil {A' : List Token} (h : List.Forall₂ Token.alike [] A') : A' = [] := by
  cases h
  rfl

theorem alike_singleton {token : Token} {A' : List Token}
    (h : List.Forall₂ Token.alike [token] A') : ∃ token', A' = [token'] ∧ token.alike token' := by
  cases h with
  | cons ha hrest =>
    cases hrest
    exact ⟨_, rfl, ha⟩

theorem Boundary.append {S S' : String → Prop} {x y : List Token} (h : Boundary S x y)
    {A A' : List Token} (hA : List.Forall₂ Token.alike A A')
    (hS : A ≠ [] ∨ ∀ op, S' op → S op) :
    Boundary S' (A ++ x) (A' ++ y) := by
  obtain ⟨C, C', t, t', r, r', hx, hy, hCC, hC⟩ := h
  refine ⟨A ++ C, A' ++ C', t, t', r, r', by rw [hx, List.append_assoc],
    by rw [hy, List.append_assoc], List.rel_append hA hCC, fun hnil => ?_⟩
  obtain ⟨hA0, hC'⟩ := List.append_eq_nil.mp hnil
  rcases hS with hne | hsub
  · exact absurd hA0 hne
  · obtain ⟨h1, h2, h3⟩ := hC hC'
    exact ⟨h1, h2, fun op hop => h3 op (hsub op hop)⟩

theorem Boundary.head {S : String → Prop} {token : Token} {next y : List Token}
    (h : Boundary S (token :: next) y) :
    ∃ token' next', y = token' :: next' ∧
      (token.kind = .TOKEN_IDENTIFIER ↔ token'.kind = .TOKEN_IDENTIFIER) ∧
      (token.kind = .TOKEN_NUMBER ↔ token'.kind = .TOKEN_NUMBER) ∧
      ∀ op, S op → (token.is_op op ↔ token'.is_op op) := by
  obtain ⟨C, C', t, t', r, r', hx, hy, hCC, hC⟩ := h
  cases hCC with
  | nil =>
    obtain ⟨h1, h2, h3⟩ := hC rfl
    simp only [List.nil_append, List.cons.injEq] at hx
    obtain ⟨rfl, rfl⟩ := hx
    refine ⟨t', r', hy, ?_, ?_, fun op hop => ?_⟩
    · rw [h1, h2]
    · rw [h1, h2]
    · exact ⟨fun h => absurd h (h3 op hop).1, fun h => absurd h (h3 op hop).2⟩
  | cons hc hrest =>
    simp only [List.cons_append, List.cons.injEq] at hx
    obtain ⟨rfl, _⟩ := hx
    refine ⟨_, _, hy, ?_, ?_, fun op _ => alike_is_op hc op⟩
    · rw [hc.1]
    · rw [hc.1]

/-- The consumed parts of two consecutive runs. -/
theorem split_consumed {x mid full A : List Token} (h1 : mid <:+ full) (h2 : x <:+ mid)
    (hA : full = A ++ x) : ∃ A1 A2, full = A1 ++ mid ∧ mid = A2 ++ x ∧ A = A1 ++ A2 := by
  obtain ⟨A1, h1⟩ := h1
  obtain ⟨A2, h2⟩ := h2
  refine ⟨A1, A2, h1.symm, h2.symm, ?_⟩
  have h3 : A ++ x = (A1 ++ A2) ++ x := by
    rw [← hA, List.append_assoc, h2, h1]
  exact List.append_cancel_right h3

theorem nil_of_eq_append {A x : List Token} (h : x = A ++ x) : A = [] := by
  have h2 := congrArg List.length h
  simp only [List.length_append] at h2
  exact List.length_eq_zero.mp (by omega)

theorem singleton_of_cons_eq_append {A next : List Token} {token : Token}
    (h : token :: next = A ++ next) : A = [token] := by
  have h3 : [token] ++ next = A ++ next := h
  exact (List.append_cancel_right h3).symm

theorem local_pure {α : Type} {rel : α → α → Prop} (S : String → Prop) {a a' : α}
    (h : rel a a') : Local rel S (pure a) (pure a') := by
  intro st b st' hrun
  obtain ⟨rfl, rfl⟩ := pure_ok.mp hrun
  refine ⟨List.suffix_refl _, fun A A' y T2 o2 hA hAA _ => ?_⟩
  have hnil : A = [] := nil_of_eq_append hA
  subst hnil
  rw [alike_nil hAA]
  exact ⟨a', T2, o2, rfl, h⟩

theorem local_fail {α : Type} (rel : α → α → Prop) (S : String → Prop) (e : Error)
    (f' : Parser α) : Local rel S (Parser.fail e) f' := by
  intro st a st' h
  simp [Parser.fail] at h

theorem local_bind {α β : Type} {relf : α → α → Prop} {rel : β → β → Prop}
    {S : String → Prop} {f f' : Parser α} {g g' : α → Parser β} (hrefl : ∀ a, relf a a)
    (hf : Local relf S f f') (hg : ∀ a a', relf a a' → Local rel S (g a) (g' a')) :
    Local rel S (f >>= g) (f' >>= g') := by
  intro st b st' h
  obtain ⟨a, s1, h1, h2⟩ := bind_ok.mp h
  obtain ⟨hsuf1, hloc1⟩ := hf st a s1 h1
  have hsuf2 : st'.token <:+ s1.token := ((hg a a (hrefl a)) s1 b st' h2).1
  refine ⟨hsuf2.trans hsuf1, fun A A' y T2 o2 hA hAA hB => ?_⟩
  obtain ⟨A1, A2, hfull, hmid, rfl⟩ := split_consumed hsuf1 hsuf2 hA
  obtain ⟨A1', A2', rfl, hAA1, hAA2⟩ := alike_split hAA
  obtain ⟨a', T3, o3, hrun1, hrel⟩ := hloc1 A1 A1' (A2' ++ y) T2 o2 hfull hAA1
    (by rw [hmid]; exact hB.append hAA2 (Or.inr fun _ h => h))
  obtain ⟨b', T4, o4, hrun2, hrel2⟩ :=
    ((hg a a' hrel) s1 b st' h2).2 A2 A2' y T3 o3 hmid hAA2 hB
  refine ⟨b', T4, o4, ?_, hrel2⟩
  rw [List.append_assoc]
  exact bind_ok.mpr ⟨a', _, hrun1, hrun2⟩

/-- Sequencing when the second run always consumes a token: the first run then
stops inside the consumed part, whatever operators it tests there. -/
theorem local_bind_progress {α β : Type} {relf : α → α → Prop} {rel : β → β → Prop}
    {S S1 : String → Prop} {f f' : Parser α} {g g' : α → Parser β}
    (hrefl : ∀ a, relf a a) (hf : Local relf S1 f f')
    (hg : ∀ a a', relf a a' → Local rel S (g a) (g' a'))
    (hprogress : ∀ a s b s', g a s = .ok (b, s') → s'.token ≠ s.token) :
    Local rel S (f >>= g) (f' >>= g') := by
  intro st b st' h
  obtain ⟨a, s1, h1, h2⟩ := bind_ok.mp h
  obtain ⟨hsuf1, hloc1⟩ := hf st a s1 h1
  have hsuf2 : st'.token <:+ s1.token := ((hg a a (hrefl a)) s1 b st' h2).1
  refine ⟨hsuf2.trans hsuf1, fun A A' y T2 o2 hA hAA hB => ?_⟩
  obtain ⟨A1, A2, hfull, hmid, rfl⟩ := split_consumed hsuf1 hsuf2 hA
  obtain ⟨A1', A2', rfl, hAA1, hAA2⟩ := alike_split hAA
  have hA2 : A2 ≠ [] := by
    intro hnil
    rw [hnil, List.nil_append] at hmid
    exact hprogress a s1 b st' h2 hmid.symm
  obtain ⟨a', T3, o3, hrun1, hrel⟩ := hloc1 A1 A1' (A2' ++ y) T2 o2 hfull hAA1
    (by rw [hmid]; exact hB.append hAA2 (Or.inl hA2))
  obtain ⟨b', T4, o4, hrun2, hrel2⟩ :=
    ((hg a a' hrel) s1 b st' h2).2 A2 A2' y T3 o3 hmid hAA2 hB
  refine ⟨b', T4, o4, ?_, hrel2⟩
  rw [List.append_assoc]
  exact bind_ok.mpr ⟨a', _, hrun1, hrun2⟩

theorem local_consume {S : String → Prop} {op : String} (hop : S op) :
    Local Eq S (consume op) (consume op) := by
  intro st b st' h
  obtain ⟨token, next, hs, ⟨hmatch, rfl, rfl⟩ | ⟨hmatch, rfl, rfl⟩⟩ := consume_ok h
  · refine ⟨by rw [hs]; exact List.suffix_cons _ _, fun A A' y T2 o2 hA hAA _ => ?_⟩
    have hA1 : A = [token] := singleton_of_cons_eq_append (by rw [← hs]; exact hA)
    subst hA1
    obtain ⟨token', rfl, halike⟩ := alike_singleton hAA
    exact ⟨true, T2, o2, consume_hit rfl ((alike_is_op halike op).mp hmatch), rfl⟩
  · refine ⟨List.suffix_refl _, fun A A' y T2 o2 hA hAA hB => ?_⟩
    have hnil : A = [] := nil_of_eq_append hA
    subst hnil
    rw [alike_nil hAA]
    rw [hs] at hB
    obtain ⟨token', next', hy, _, _, hops⟩ := hB.head
    refine ⟨false, T2, o2, ?_, rfl⟩
    rw [List.nil_append, hy]
    exact consume_miss rfl (fun h' => hmatch ((hops op hop).mpr h'))

theorem local_expect (S : String → Prop) (op : String) :
    Local Eq S (expect op) (expect op) := by
  intro st b st' h
  obtain ⟨token, next, hs, hmatch, rfl⟩ := expect_ok h
  refine ⟨by rw [hs]; exact List.suffix_cons _ _, fun A A' y T2 o2 hA hAA _ => ?_⟩
  have hA1 : A = [token] := singleton_of_cons_eq_append (by rw [← hs]; exact hA)
  subst hA1
  obtain ⟨token', rfl, halike⟩ := alike_singleton hAA
  exact ⟨(), T2, o2, expect_hit rfl ((alike_is_op halike op).mp hmatch), rfl⟩

theorem local_expect_number (S : String → Prop) :
    Local Eq S expect_number expect_number := by
  intro st b st' h
  obtain ⟨token, next, hs, hk, rfl, rfl⟩ := expect_number_ok h
  refine ⟨by rw [hs]; exact List.suffix_cons _ _, fun A A' y T2 o2 hA hAA _ => ?_⟩
  have hA1 : A = [token] := singleton_of_cons_eq_append (by rw [← hs]; exact hA)
  subst hA1
  obtain ⟨token', rfl, halike⟩ := alike_singleton hAA
  have hk' : token'.kind = .TOKEN_NUMBER := by rw [← halike.1]; exact hk
  refine ⟨token'.value, T2, o2, ?_, halike.2.2.2 hk⟩
  simp [Azcc.expect_number, hk']

theorem local_consume_identifier (S : String → Prop) :
    Local alike_option S consume_identifier consume_identifier := by
  intro st b st' h
  obtain ⟨token, next, hs, ⟨hk, rfl, rfl⟩ | ⟨hk, rfl, rfl⟩⟩ := consume_identifier_ok h
  · refine ⟨by rw [hs]; exact List.suffix_cons _ _, fun A A' y T2 o2 hA hAA _ => ?_⟩
    have hA1 : A = [token] := singleton_of_cons_eq_append (by rw [← hs]; exact hA)
    subst hA1
    obtain ⟨token', rfl, halike⟩ := alike_singleton hAA
    have hk' : token'.kind = .TOKEN_IDENTIFIER := by rw [← halike.1]; exact hk
    refine ⟨some token', T2, o2, ?_, halike⟩
    simp [Azcc.consume_identifier, hk']
  · refine ⟨List.suffix_refl _, fun A A' y T2 o2 hA hAA hB => ?_⟩
    have hnil : A = [] := nil_of_eq_append hA
    subst hnil
    rw [alike_nil hAA]
    rw [hs] at hB
    obtain ⟨token', next', hy, hid, _, _⟩ := hB.head
    refine ⟨none, T2, o2, ?_, trivial⟩
    have hk' : token'.kind ≠ .TOKEN_IDENTIFIER := fun h' => hk (hid.mpr h')
    rw [List.nil_append, hy]
    simp [Azcc.consume_identifier, hk']

theorem local_new_node_lvar (S : String → Prop) (token token' : Token) :
    Local same_shape S (new_node_lvar token) (new_node_lvar token') := by
  intro st node st' h
  have htok : st'.token = st.token := by
    rcases new_node_lvar_ok h with ⟨v, _, _, rfl⟩ | ⟨_, _, rfl⟩ <;> rfl
  have hnode : ∃ o, node = .lvar o := by
    rcases new_node_lvar_ok h with ⟨v, _, rfl, _⟩ | ⟨_, rfl, _⟩ <;> exact ⟨_, rfl⟩
  obtain ⟨o, rfl⟩ := hnode
  refine ⟨by rw [htok], fun A A' y T2 o2 hA hAA _ => ?_⟩
  have hnil : A = [] := nil_of_eq_append (htok.trans hA)
  subst hnil
  rw [alike_nil hAA, List.nil_append]
  cases hf : hash_table_find T2 (new_string token'.string token'.length) with
  | some v =>
    exact ⟨.lvar v.offset, T2, o2, by simp [Azcc.new_node_lvar, hf], rfl⟩
  | none =>
    refine ⟨.lvar (int_wrap (o2 + 8)),
      hash_table_store T2 (new_string token'.string token'.length)
        { name := new_string token'.string token'.length, offset := int_wrap (o2 + 8) },
      int_wrap (o2 + 8), ?_, rfl⟩
    simp [Azcc.new_node_lvar, hf, new_local_variable]

theorem same_shape_refl (a : Node) : same_shape a a := rfl

theorem same_shape_list_refl (a : List Node) : same_shape_list a a := rfl

theorem same_shape_new_node (kind : NodeKind) {l l' r r' : Node} (hl : same_shape l l')
    (hr : same_shape r r') : same_shape (new_node kind l r) (new_node kind l' r') := by
  unfold same_shape at hl hr ⊢
  simp only [new_node, Node.erase_offsets, hl, hr]

theorem same_shape_new_list_node {a a' : Node} {l l' : List Node} (ha : same_shape a a')
    (hl : same_shape_list l l') :
    same_shape_list (new_list_node a l) (new_list_node a' l') := by
  unfold same_shape at ha
  unfold same_shape_list at hl ⊢
  unfold new_list_node
  have happ : ∀ x y : List Node,
      erase_offsets_list (x ++ y) = erase_offsets_list x ++ erase_offsets_list y := by
    intro x y
    induction x with
    | nil => simp [erase_offsets_list]
    | cons n rest ih => simp [erase_offsets_list, ih]
  rw [happ, happ, hl]
  simp [erase_offsets_list, ha]

theorem same_shape_new_node_function {token token' : Token} (halike : token.alike token') :
    same_shape (new_node_function token) (new_node_function token') := by
  unfold same_shape
  simp only [new_node_function, new_function_call, alike_lexeme halike]

theorem same_shape_set_arguments {token token' : Token} (halike : token.alike token')
    {l l' : List Node} (hl : same_shape_list l l') :
    same_shape (set_arguments (new_node_function token) l)
      (set_arguments (new_node_function token') l') := by
  unfold same_shape_list at hl
  unfold same_shape
  simp only [set_arguments, new_node_function, new_function_call, Node.erase_offsets,
    FunctionCall.erase_offsets, hl, alike_lexeme halike]

theorem expect_progress {α : Type} (op : String) (k : Unit → Parser α)
    (hk : ∀ u s a s', k u s = .ok (a, s') → s'.token <:+ s.token) :
    ∀ s a s', (expect op >>= k) s = .ok (a, s') → s'.token ≠ s.token := by
  intro s a s' h heq
  obtain ⟨u, s1, h1, h2⟩ := bind_ok.mp h
  obtain ⟨token, next, hs, _, rfl⟩ := expect_ok h1
  have hsuf := hk u _ a s' h2
  have hlen := hsuf.length_le
  rw [heq, hs] at hlen
  simp at hlen

theorem local_argument_loop {E : Parser Node} (hE : Local same_shape every_operator E E) :
    ∀ (n : Nat) (list list' : List Node), same_shape_list list list' →
      Local same_shape_list every_operator (argument_loop E n list)
        (argument_loop E n list') := by
  intro n
  induction n with
  | zero => intro list list' _; exact local_fail _ _ _ _
  | succ n ih =>
    intro list list' hl
    unfold Azcc.argument_loop
    refine local_bind (fun _ => rfl) (local_consume trivial) ?_
    rintro b _ rfl
    cases b
    · exact local_pure _ hl
    · exact local_bind same_shape_refl hE
        (fun node node' hn => ih _ _ (same_shape_new_list_node hn hl))

theorem local_argument {E : Parser Node} (hE : Local same_shape every_operator E E)
    (fuel : Nat) :
    Local same_shape_list every_operator (argument E fuel) (argument E fuel) := by
  unfold Azcc.argument
  exact local_bind same_shape_refl hE
    (fun node node' hn =>
      local_argument_loop hE fuel _ _ (same_shape_new_list_node hn (same_shape_list_refl [])))

theorem local_primary {E : Parser Node} {S : String → Prop} (hS : base_operators S)
    (hE : Local same_shape every_operator E E) (fuel : Nat) :
    Local same_shape S (primary E fuel) (primary E fuel) := by
  obtain ⟨hopen, hclose, _, _, _⟩ := hS
  unfold Azcc.primary
  refine local_bind (fun _ => rfl) (local_consume hopen) ?_
  rintro b _ rfl
  cases b
  · refine local_bind alike_option_refl (local_consume_identifier S) ?_
    intro r r' hr
    cases r with
    | none =>
      cases r' with
      | some identifier' => exact absurd hr id
      | none =>
        refine local_bind (fun _ => rfl) (local_expect_number S) ?_
        rintro v _ rfl
        exact local_pure _ (same_shape_refl _)
    | some identifier =>
      cases r' with
      | none => exact absurd hr id
      | some identifier' =>
      have halike : identifier.alike identifier' := hr
      refine local_bind (fun _ => rfl) (local_consume hopen) ?_
      rintro b _ rfl
      cases b
      · exact local_new_node_lvar S identifier identifier'
      · refine local_bind (fun _ => rfl) (local_consume hclose) ?_
        rintro b _ rfl
        cases b
        · refine local_bind_progress same_shape_list_refl (local_argument hE fuel) ?_ ?_
          · intro arguments arguments' hargs
            refine local_bind (fun _ => rfl) (local_expect S _) ?_
            rintro u _ rfl
            exact local_pure _ (same_shape_set_arguments halike hargs)
          · intro arguments
            exact expect_progress _ _ (fun u s a s' h => by
              obtain ⟨_, rfl⟩ := pure_ok.mp h
              exact List.suffix_refl _)
        · exact local_pure _ (same_shape_new_node_function halike)
  · refine local_bind_progress same_shape_refl hE ?_ ?_
    · intro node node' hn
      refine local_bind (fun _ => rfl) (local_expect S _) ?_
      rintro u _ rfl
      exact local_pure _ hn
    · intro node
      exact expect_progress _ _ (fun u s a s' h => by
        obtain ⟨_, rfl⟩ := pure_ok.mp h
        exact List.suffix_refl _)

theorem local_unary {E : Parser Node} {S : String → Prop} (hS : base_operators S)
    (hE : Local same_shape every_operator E E) (fuel : Nat) :
    Local same_shape S (unary E fuel) (unary E fuel) := by
  have hplus := hS.2.2.2.1
  have hminus := hS.2.2.2.2
  unfold Azcc.unary
  refine local_bind (fun _ => rfl) (local_consume hplus) ?_
  rintro b _ rfl
  cases b
  · refine local_bind (fun _ => rfl) (local_consume hminus) ?_
    rintro b _ rfl
    cases b
    · exact local_primary hS hE fuel
    · refine local_bind same_shape_refl (local_primary hS hE fuel) ?_
      intro node node' hn
      exact local_pure _ (same_shape_new_node _ (same_shape_refl _) hn)
  · exact local_primary hS hE fuel

theorem local_multiply_loop {E : Parser Node} {S : String → Prop} (hS : covers S 4)
    (hE : Local same_shape every_operator E E) (fuel : Nat) :
    ∀ (n : Nat) (node node' : Node), same_shape node node' →
      Local same_shape S (multiply_loop E fuel n node) (multiply_loop E fuel n node') := by
  intro n
  induction n with
  | zero => intro node node' _; exact local_fail _ _ _ _
  | succ n ih =>
    intro node node' hn
    unfold Azcc.multiply_loop
    refine local_bind (fun _ => rfl) (local_consume (hS.2 Op.mul (le_refl 4))) ?_
    rintro b _ rfl
    cases b
    · refine local_bind (fun _ => rfl) (local_consume (hS.2 Op.div (le_refl 4))) ?_
      rintro b _ rfl
      cases b
      · exact local_pure _ hn
      · exact local_bind same_shape_refl (local_unary hS.1 hE fuel)
          (fun rhs rhs' hr => ih _ _ (same_shape_new_node _ hn hr))
    · exact local_bind same_shape_refl (local_unary hS.1 hE fuel)
        (fun rhs rhs' hr => ih _ _ (same_shape_new_node _ hn hr))

theorem local_multiply {E : Parser Node} {S : String → Prop} (hS : covers S 4)
    (hE : Local same_shape every_operator E E) (fuel : Nat) :
    Local same_shape S (multiply E fuel) (multiply E fuel) := by
  unfold Azcc.multiply
  exact local_bind same_shape_refl (local_unary hS.1 hE fuel)
    (fun node node' hn => local_multiply_loop hS hE fuel fuel node node' hn)

theorem covers_mono {S : String → Prop} {j k : Nat} (h : covers S j) (hjk : j ≤ k) :
    covers S k := ⟨h.1, fun op hop => h.2 op (le_trans hjk hop)⟩

theorem local_add_loop {E : Parser Node} {S : String → Prop} (hS : covers S 3)
    (hE : Local same_shape every_operator E E) (fuel : Nat) :
    ∀ (n : Nat) (node node' : Node), same_shape node node' →
      Local same_shape S (add_loop E fuel n node) (add_loop E fuel n node') := by
  have hmul := local_multiply (covers_mono hS (show 3 ≤ 4 by decide)) hE fuel
  intro n
  induction n with
  | zero => intro node node' _; exact local_fail _ _ _ _
  | succ n ih =>
    intro node node' hn
    unfold Azcc.add_loop
    refine local_bind (fun _ => rfl) (local_consume (hS.2 Op.add (le_refl 3))) ?_
    rintro b _ rfl
    cases b
    · refine local_bind (fun _ => rfl) (local_consume (hS.2 Op.sub (le_refl 3))) ?_
      rintro b _ rfl
      cases b
      · exact local_pure _ hn
      · exact local_bind same_shape_refl hmul
          (fun rhs rhs' hr => ih _ _ (same_shape_new_node _ hn hr))
    · exact local_bind same_shape_refl hmul
        (fun rhs rhs' hr => ih _ _ (same_shape_new_node _ hn hr))

theorem local_add {E : Parser Node} {S : String → Prop} (hS : covers S 3)
    (hE : Local same_shape every_operator E E) (fuel : Nat) :
    Local same_shape S (add E fuel) (add E fuel) := by
  unfold Azcc.add
  exact local_bind same_shape_refl
    (local_multiply (covers_mono hS (show 3 ≤ 4 by decide)) hE fuel)
    (fun node node' hn => local_add_loop hS hE fuel fuel node node' hn)

theorem local_relational_loop {E : Parser Node} {S : String → Prop} (hS : covers S 2)
    (hE : Local same_shape every_operator E E) (fuel : Nat) :
    ∀ (n : Nat) (node node' : Node), same_shape node node' →
      Local same_shape S (relational_loop E fuel n node)
        (relational_loop E fuel n node') := by
  have hadd := local_add (covers_mono hS (show 2 ≤ 3 by decide)) hE fuel
  intro n
  induction n with
  | zero => intro node node' _; exact local_fail _ _ _ _
  | succ n ih =>
    intro node node' hn
    unfold Azcc.relational_loop
    refine local_bind (fun _ => rfl) (local_consume (hS.2 Op.lt (le_refl 2))) ?_
    rintro b _ rfl
    cases b
    · refine local_bind (fun _ => rfl) (local_consume (hS.2 Op.le (le_refl 2))) ?_
      rintro b _ rfl
      cases b
      · refine local_bind (fun _ => rfl) (local_consume (hS.2 Op.gt (le_refl 2))) ?_
        rintro b _ rfl
        cases b
        · refine local_bind (fun _ => rfl) (local_consume (hS.2 Op.ge (le_refl 2))) ?_
          rintro b _ rfl
          cases b
          · exact local_pure _ hn
          · exact local_bind same_shape_refl hadd
              (fun lhs lhs' hl => ih _ _ (same_shape_new_node _ hl hn))
        · exact local_bind same_shape_refl hadd
            (fun lhs lhs' hl => ih _ _ (same_shape_new_node _ hl hn))
      · exact local_bind same_shape_refl hadd
          (fun rhs rhs' hr => ih _ _ (same_shape_new_node _ hn hr))
    · exact local_bind same_shape_refl hadd
        (fun rhs rhs' hr => ih _ _ (same_shape_new_node _ hn hr))

theorem local_relational {E : Parser Node} {S : String → Prop} (hS : covers S 2)
    (hE : Local same_shape every_operator E E) (fuel : Nat) :
    Local same_shape S (relational E fuel) (relational E fuel) := by
  unfold Azcc.relational
  exact local_bind same_shape_refl
    (local_add (covers_mono hS (show 2 ≤ 3 by decide)) hE fuel)
    (fun node node' hn => local_relational_loop hS hE fuel fuel node node' hn)

theorem local_equality_loop {E : Parser Node} {S : String → Prop} (hS : covers S 1)
    (hE : Local same_shape every_operator E E) (fuel : Nat) :
    ∀ (n : Nat) (node node' : Node), same_shape node node' →
      Local same_shape S (equality_loop E fuel n node) (equality_loop E fuel n node') := by
  have hrel := local_relational (covers_mono hS (show 1 ≤ 2 by decide)) hE fuel
  intro n
  induction n with
  | zero => intro node node' _; exact local_fail _ _ _ _
  | succ n ih =>
    intro node node' hn
    unfold Azcc.equality_loop
    refine local_bind (fun _ => rfl) (local_consume (hS.2 Op.eq (le_refl 1))) ?_
    rintro b _ rfl
    cases b
    · refine local_bind (fun _ => rfl) (local_consume (hS.2 Op.ne (le_refl 1))) ?_
      rintro b _ rfl
      cases b
      · exact local_pure _ hn
      · exact local_bind same_shape_refl hrel
          (fun rhs rhs' hr => ih _ _ (same_shape_new_node _ hn hr))
    · exact local_bind same_shape_refl hrel
        (fun rhs rhs' hr => ih _ _ (same_shape_new_node _ hn hr))

theorem local_equality {E : Parser Node} {S : String → Prop} (hS : covers S 1)
    (hE : Local same_shape every_operator E E) (fuel : Nat) :
    Local same_shape S (equality E fuel) (equality E fuel) := by
  unfold Azcc.equality
  exact local_bind same_shape_refl
    (local_relational (covers_mono hS (show 1 ≤ 2 by decide)) hE fuel)
    (fun node node' hn => local_equality_loop hS hE fuel fuel node node' hn)

theorem local_assign_loop {E : Parser Node} {S : String → Prop} (hS : covers S 0)
    (hE : Local same_shape every_operator E E) (fuel : Nat) :
    ∀ (n : Nat) (node node' : Node), same_shape node node' →
      Local same_shape S (assign_loop E fuel n node) (assign_loop E fuel n node') := by
  have heq := local_equality (covers_mono hS (show 0 ≤ 1 by decide)) hE fuel
  intro n
  induction n with
  | zero => intro node node' _; exact local_fail _ _ _ _
  | succ n ih =>
    intro node node' hn
    unfold Azcc.assign_loop
    refine local_bind (fun _ => rfl) (local_consume (hS.2 Op.assign (le_refl 0))) ?_
    rintro b _ rfl
    cases b
    · exact local_pure _ hn
    · exact local_bind same_shape_refl heq
        (fun rhs rhs' hr => ih _ _ (same_shape_new_node _ hn hr))

theorem local_assign {E : Parser Node} {S : String → Prop} (hS : covers S 0)
    (hE : Local same_shape every_operator E E) (fuel : Nat) :
    Local same_shape S (assign E fuel) (assign E fuel) := by
  unfold Azcc.assign
  exact local_bind same_shape_refl
    (local_equality (covers_mono hS (show 0 ≤ 1 by decide)) hE fuel)
    (fun node node' hn => local_assign_loop hS hE fuel fuel node node' hn)

theorem covers_every_operator (k : Nat) : covers every_operator k :=
  ⟨⟨trivial, trivial, trivial, trivial, trivial⟩, fun _ _ => trivial⟩

theorem local_expression :
    ∀ fuel : Nat, Local same_shape every_operator (expression fuel) (expression fuel) := by
  intro fuel
  induction fuel with
  | zero => exact local_fail _ _ _ _
  | succ n ih => exact local_assign (covers_every_operator 0) ih n

theorem covers_add_operators : covers add_operators 3 := by
  refine ⟨⟨?_, ?_, ?_, ?_, ?_⟩, fun op hop => ?_⟩ <;> try (simp [add_operators])
  cases op <;> simp [Op.level] at hop <;> simp [add_operators, Op.lexeme]

/-- A relational operator or a semicolon ends an operand of `add`. -/
theorem boundary_add_operators {t t' : Token} {s s' : String} {r r' : List Token}
    (ht : t.is_op s) (ht' : t'.is_op s') (hs : ¬ add_operators s) (hs' : ¬ add_operators s') :
    Boundary add_operators (t :: r) (t' :: r') := by
  refine ⟨[], [], t, t', r, r', rfl, rfl, .nil,
    fun _ => ⟨ht.1, ht'.1, fun op hop => ⟨?_, ?_⟩⟩⟩
  · intro h
    rw [is_op_iff_eq ht] at h
    exact hs (h ▸ hop)
  · intro h
    rw [is_op_iff_eq ht'] at h
    exact hs' (h ▸ hop)

theorem not_add_operators_relational {op : Op} (h : op.level = 2) :
    ¬ add_operators op.lexeme := by
  cases op <;> simp [Op.level] at h <;> simp [add_operators, Op.lexeme]

theorem not_add_operators_semicolon : ¬ add_operators ";" := by
  simp [add_operators]

/-- Tokens alike give the same atom. -/
theorem atom_alike {t t' : Token} (h : t.alike t') (T : HashTable) (o : Int) :
    atom t' T o = atom t T o := by
  obtain ⟨hk, hl, hs, hv⟩ := h
  unfold atom Token.lexeme new_string
  rw [← hs, ← hk]
  by_cases hn : t.kind = .TOKEN_NUMBER
  · simp [hn, hv hn]
  · simp [hn]

/-- The operands of a relational operator exchanged: when `add` parses `A`
up to the operator and `B` up to the semicolon in `A op B ;`, it parses `B'` and
then `A'` in `B' op' A' ;` for any relational operator `op'` and any tokens
`A'`, `B'` alike those of `A`, `B`, from any table, to nodes of the same
shape. -/
theorem add_operands_exchanged (op op' : Op) (hop : op.level = 2) (hop' : op'.level = 2)
    (fuel : Nat) (A B A' B' after after' : List Token) (top top' semicolon semicolon' : Token)
    (sa sb : State) (na nb : Node) (T : HashTable) (o : Int)
    (hAA : List.Forall₂ Token.alike A A') (hBB : List.Forall₂ Token.alike B B')
    (htop : top.is_op op.lexeme) (htop' : top'.is_op op'.lexeme)
    (hsemi : semicolon.is_op ";") (hsemi' : semicolon'.is_op ";")
    (ha : add (expression fuel) fuel
        { token := A ++ top :: (B ++ semicolon :: after), localVariableTable := [],
          currentOffset := 0 } = .ok (na, sa))
    (hsa : sa.token = top :: (B ++ semicolon :: after))
    (hb : add (expression fuel) fuel { sa with token := B ++ semicolon :: after }
        = .ok (nb, sb))
    (hsb : sb.token = semicolon :: after) :
    ∃ (nb' na' : Node) (T1 T2 : HashTable) (o1 o2 : Int),
      add (expression fuel) fuel
          { token := B' ++ top' :: (A' ++ semicolon' :: after'), localVariableTable := T,
            currentOffset := o }
        = .ok (nb', { token := top' :: (A' ++ semicolon' :: after'), localVariableTable := T1,
                      currentOffset := o1 }) ∧
      add (expression fuel) fuel
          { token := A' ++ semicolon' :: after', localVariableTable := T1,
            currentOffset := o1 }
        = .ok (na', { token := semicolon' :: after', localVariableTable := T2,
                      currentOffset := o2 }) ∧
      same_shape na na' ∧ same_shape nb nb' := by
  have hloc := local_add covers_add_operators (local_expression fuel) fuel
  obtain ⟨nb', T1, o1, hrunb, hshapeb⟩ :=
    (hloc _ nb sb hb).2 B B' (top' :: (A' ++ semicolon' :: after')) T o
      (by rw [hsb]) hBB
      (by rw [hsb]
          exact boundary_add_operators hsemi htop' not_add_operators_semicolon
            (not_add_operators_relational hop'))
  obtain ⟨na', T2, o2, hruna, hshapea⟩ :=
    (hloc _ na sa ha).2 A A' (semicolon' :: after') T1 o1
      (by rw [hsa]) hAA
      (by rw [hsa]
          exact boundary_add_operators htop hsemi' (not_add_operators_relational hop)
            not_add_operators_semicolon)
  exact ⟨nb', na', T1, T2, o1, o2, hrunb, hruna, hshapea, hshapeb⟩

/-! ## Function calls -/

/-- The loop of `argument` appends the nodes of the arguments that follow. -/
theorem argument_loop_of_runs {E : Parser Node} {t : Token} {r : List Token} {st' : State}
    (hst' : st'.token = t :: r) (ht : ¬ t.is_op ",") :
    ∀ (more acc : List Node) (c : Nat) (s1 : State) (comma : Token) (rest : List Token),
      s1.token = comma :: rest → comma.is_op "," →
      argument_runs E more { s1 with token := rest } st' → more.length + 1 ≤ c →
      argument_loop E c acc s1 = .ok (acc ++ more, st') := by
  intro more
  induction more with
  | nil => intro acc c s1 comma rest _ _ hruns; exact absurd hruns id
  | cons node more ih =>
    intro acc c s1 comma rest hs1 hcomma hruns hc
    obtain ⟨c1, rfl⟩ : ∃ c1, c = c1 + 1 := ⟨c - 1, by simp at hc; omega⟩
    cases more with
    | nil =>
      have hE : E { s1 with token := rest } = .ok (node, st') := hruns
      obtain ⟨c2, rfl⟩ : ∃ c2, c1 = c2 + 1 := ⟨c1 - 1, by simp at hc; omega⟩
      rw [argument_loop, bind_apply, consume_hit hs1 hcomma]
      simp only [if_true, bind_apply, hE]
      rw [argument_loop, bind_apply, consume_miss hst' ht]
      rfl
    | cons next more =>
      obtain ⟨s2, comma2, rest2, hE, hs2, hcomma2, hruns2⟩ := hruns
      rw [argument_loop, bind_apply, consume_hit hs1 hcomma]
      simp only [if_true, bind_apply, hE]
      rw [ih (new_list_node node acc) c1 s2 comma2 rest2 hs2 hcomma2 hruns2
        (by simp at hc ⊢; omega)]
      simp [new_list_node]

/-- Source `argument`: the list of the nodes of the arguments, in source
order. -/
theorem argument_of_runs {E : Parser Node} {fuel : Nat} {t : Token} {r : List Token}
    {st st' : State} {nodes : List Node} (hruns : argument_runs E nodes st st')
    (hst' : st'.token = t :: r) (ht : ¬ t.is_op ",") (hfuel : nodes.length ≤ fuel) :
    argument E fuel st = .ok (nodes, st') := by
  cases nodes with
  | nil => exact absurd hruns id
  | cons node more =>
    cases more with
    | nil =>
      have hE : E st = .ok (node, st') := hruns
      obtain ⟨c, rfl⟩ : ∃ c, fuel = c + 1 := ⟨fuel - 1, by simp at hfuel; omega⟩
      rw [argument, bind_apply, hE]
      simp only []
      rw [argument_loop, bind_apply, consume_miss hst' ht]
      rfl
    | cons next more =>
      obtain ⟨s1, comma, rest, hE, hs1, hcomma, hruns1⟩ := hruns
      rw [argument, bind_apply, hE]
      simp only []
      rw [argument_loop_of_runs hst' ht (next :: more) _ fuel s1 comma rest hs1 hcomma hruns1
        (by simp at hfuel ⊢; omega)]
      simp [new_list_node]

/-! ## One turn of the loop of a level -/

/-- The loop of a level that finds one of its operators takes it, parses the
operand of the level above and goes on with the node built of both. -/
theorem level_loop_hit (E : Parser Node) (fuel : Nat) (op : Op) (n : Nat) (node : Node)
    (st : State) (token : Token) (next : List Token) (hs : st.token = token :: next)
    (hop : token.is_op op.lexeme) :
    level_loop E fuel op.level (n + 1) node st
      = (at_level E fuel (op.level + 1) >>= fun rhs =>
          level_loop E fuel op.level n (op.build node rhs)) { st with token := next } := by
  cases op <;>
    simp only [Op.level, Op.lexeme, at_level, level_loop] at hop ⊢
  case mul =>
    rw [multiply_loop, bind_apply, consume_hit hs hop]
    rfl
  case div =>
    rw [multiply_loop, bind_apply, consume_miss hs (by rw [is_op_iff_eq hop]; decide)]
    simp only [Bool.false_eq_true, if_false, bind_apply, consume_hit hs hop, if_true]
    rfl
  case add =>
    rw [add_loop, bind_apply, consume_hit hs hop]
    rfl
  case sub =>
    rw [add_loop, bind_apply, consume_miss hs (by rw [is_op_iff_eq hop]; decide)]
    simp only [Bool.false_eq_true, if_false, bind_apply, consume_hit hs hop, if_true]
    rfl
  case lt =>
    rw [relational_loop, bind_apply, consume_hit hs hop]
    rfl
  case le =>
    rw [relational_loop, bind_apply, consume_miss hs (by rw [is_op_iff_eq hop]; decide)]
    simp only [Bool.false_eq_true, if_false, bind_apply, consume_hit hs hop, if_true]
    rfl
  case gt =>
    rw [relational_loop, bind_apply, consume_miss hs (by rw [is_op_iff_eq hop]; decide)]
    simp only [Bool.false_eq_true, if_false, bind_apply,
      consume_miss hs (show ¬ token.is_op "<=" by rw [is_op_iff_eq hop]; decide),
      consume_hit hs hop, if_true]
    rfl
  case ge =>
    rw [relational_loop, bind_apply, consume_miss hs (by rw [is_op_iff_eq hop]; decide)]
    simp only [Bool.false_eq_true, if_false, bind_apply,
      consume_miss hs (show ¬ token.is_op "<=" by rw [is_op_iff_eq hop]; decide),
      consume_miss hs (show ¬ token.is_op ">" by rw [is_op_iff_eq hop]; decide),
      consume_hit hs hop, if_true]
    rfl
  case eq =>
    rw [equality_loop, bind_apply, consume_hit hs hop]
    rfl
  case ne =>
    rw [equality_loop, bind_apply, consume_miss hs (by rw [is_op_iff_eq hop]; decide)]
    simp only [Bool.false_eq_true, if_false, bind_apply, consume_hit hs hop, if_true]
    rfl
  case assign =>
    rw [assign_loop, bind_apply, consume_hit hs hop]
    rfl

theorem level_loop_zero (E : Parser Node) (fuel k : Nat) (node : Node) :
    level_loop E fuel k 0 node = Parser.fail .out_of_fuel := by
  unfold level_loop
  split <;> rfl

theorem level_loop_null (E : Parser Node) (fuel k n : Nat) (node : Node) (st : State)
    (hs : st.token = []) : level_loop E fuel k (n + 1) node st = .error .null_token := by
  have hc : ∀ op, consume op st = .error .null_token := fun op => by
    simp [Azcc.consume, hs]
  unfold level_loop
  split
  · rw [assign_loop, bind_apply, hc]
  · rw [equality_loop, bind_apply, hc]
  · rw [relational_loop, bind_apply, hc]
  · rw [add_loop, bind_apply, hc]
  · rw [multiply_loop, bind_apply, hc]

/-- What one turn of the loop of a level does. -/
theorem level_loop_cases (E : Parser Node) (fuel k n : Nat) (node : Node) (st : State)
    (hk : k ≤ 4) :
    (st.token = [] ∧ level_loop E fuel k (n + 1) node st = .error .null_token) ∨
    (∃ token next, st.token = token :: next ∧
      ((∃ op : Op, op.level = k ∧ token.is_op op.lexeme ∧
          level_loop E fuel k (n + 1) node st
            = (at_level E fuel (k + 1) >>= fun rhs =>
                level_loop E fuel k n (op.build node rhs)) { st with token := next }) ∨
        ((∀ op : Op, op.level = k → ¬ token.is_op op.lexeme) ∧
          level_loop E fuel k (n + 1) node st = .ok (node, st)))) := by
  cases hs : st.token with
  | nil => exact Or.inl ⟨rfl, level_loop_null E fuel k n node st hs⟩
  | cons token next =>
    refine Or.inr ⟨token, next, rfl, ?_⟩
    by_cases h : ∃ op : Op, op.level = k ∧ token.is_op op.lexeme
    · obtain ⟨op, rfl, hop⟩ := h
      exact Or.inl ⟨op, rfl, hop, level_loop_hit E fuel op n node st token next hs hop⟩
    · have hstop : ∀ op : Op, op.level = k → ¬ token.is_op op.lexeme :=
        fun op hl hop => h ⟨op, hl, hop⟩
      exact Or.inr ⟨hstop, level_loop_stop E fuel k n node st token next hk hs hstop⟩

/-! ## Every LVAR offset is a frame slot -/

/-- Every expression function starts on a token an expression can start
with. -/
theorem at_level_first_token {E : Parser Node} {fuel : Nat} :
    ∀ (d k : Nat), k + d = 5 → ∀ {st st' : State} {node : Node},
      at_level E fuel k st = .ok (node, st') →
      ∃ token next, st.token = token :: next ∧ starts_expression token := by
  intro d
  induction d with
  | zero =>
    intro k hk st st' node h
    rw [at_level_unary E fuel k (by omega)] at h
    exact unary_first_token h
  | succ d ih =>
    intro k hk st st' node h
    rw [at_level_eq E fuel k (by omega)] at h
    obtain ⟨a, s1, h1, _⟩ := bind_ok.mp h
    exact ih (k + 1) (by omega) h1

/-- Source `expression` starts on a token an expression can start with. -/
theorem expression_first_token {fuel : Nat} {st st' : State} {node : Node}
    (h : expression fuel st = .ok (node, st')) :
    ∃ token next, st.token = token :: next ∧ starts_expression token := by
  cases fuel with
  | zero => simp [expression, Parser.fail] at h
  | succ n => exact at_level_first_token 5 0 rfl (show at_level _ n 0 st = _ from h)

/-! ## Tokens no expression starts with -/

theorem bind_error {α β : Type} {f : Parser α} {g : α → Parser β} {st : State} {e : Error}
    (h : f st = .error e) : (f >>= g) st = .error e := by
  rw [bind_apply, h]

/-- On a token that is neither `(`, `+`, `-`, an identifier nor a number,
`unary` falls through to `expect_number`, which reports the error. -/
theorem unary_rejects {E : Parser Node} {fuel : Nat} {st : State} {token : Token}
    {next : List Token} (hs : st.token = token :: next) (h : ¬ starts_expression token) :
    unary E fuel st = .error .not_number := by
  have hplus : ¬ token.is_op "+" := fun hop => h (Or.inr (Or.inl hop))
  have hminus : ¬ token.is_op "-" := fun hop => h (Or.inr (Or.inr hop))
  have hparen : ¬ token.is_op "(" := fun hop => h (Or.inl (Or.inl hop))
  have hid : token.kind ≠ .TOKEN_IDENTIFIER := fun hk => h (Or.inl (Or.inr (Or.inl hk)))
  have hnum : token.kind ≠ .TOKEN_NUMBER := fun hk => h (Or.inl (Or.inr (Or.inr hk)))
  have hci : consume_identifier st = .ok (none, st) := by
    simp [Azcc.consume_identifier, hs, hid]
  have hen : expect_number st = .error .not_number := by
    simp [Azcc.expect_number, hs, hnum]
  rw [unary, bind_apply, consume_miss hs hplus]
  simp only [Bool.false_eq_true, if_false, bind_apply, consume_miss hs hminus]
  rw [primary, bind_apply, consume_miss hs hparen]
  simp only [Bool.false_eq_true, if_false, bind_apply, hci, hen]

theorem at_level_rejects {E : Parser Node} {fuel : Nat} {st : State} {token : Token}
    {next : List Token} (hs : st.token = token :: next) (h : ¬ starts_expression token) :
    ∀ (d k : Nat), k + d = 5 → at_level E fuel k st = .error .not_number := by
  intro d
  induction d with
  | zero =>
    intro k hk
    rw [at_level_unary E fuel k (by omega)]
    exact unary_rejects hs h
  | succ d ih =>
    intro k hk
    rw [at_level_eq E fuel k (by omega)]
    exact bind_error (ih (k + 1) (by omega))

/-- Source `expression` on a token no expression starts with: the error of
`expect_number`. -/
theorem expression_rejects {fuel : Nat} (hfuel : 0 < fuel) {st : State} {token : Token}
    {next : List Token} (hs : st.token = token :: next) (h : ¬ starts_expression token) :
    expression fuel st = .error .not_number := by
  obtain ⟨n, rfl⟩ : ∃ n, fuel = n + 1 := ⟨fuel - 1, by omega⟩
  exact at_level_rejects hs h 5 0 rfl

theorem not_starts_expression_of_is_op {token : Token} {op : String} (hop : token.is_op op)
    (h1 : op ≠ "(") (h2 : op ≠ "+") (h3 : op ≠ "-") : ¬ starts_expression token := by
  rintro ((hp | hk | hk) | hp | hp)
  · exact h1 (is_op_unique hop hp)
  · rw [hop.1] at hk
    exact absurd hk (by decide)
  · rw [hop.1] at hk
    exact absurd hk (by decide)
  · exact h2 (is_op_unique hop hp)
  · exact h3 (is_op_unique hop hp)

/-! ## The cursor stays in front of the end-of-input token -/

theorem ends_in_eof_cons {tokens : List Token} (h : ends_in_eof tokens) :
    ∃ token next, tokens = token :: next := by
  obtain ⟨body, sentinel, rfl, _⟩ := h
  cases body with
  | nil => exact ⟨sentinel, [], rfl⟩
  | cons token body => exact ⟨token, body ++ [sentinel], rfl⟩

/-- Behind a token that is not of kind EOF the list still ends in EOF. -/
theorem ends_in_eof_tail {token : Token} {next : List Token}
    (h : ends_in_eof (token :: next)) (hk : token.kind ≠ .TOKEN_EOF) : ends_in_eof next := by
  obtain ⟨body, sentinel, heq, hs⟩ := h
  cases body with
  | nil =>
    simp only [List.nil_append, List.cons.injEq] at heq
    rw [heq.1] at hk
    exact absurd hs hk
  | cons first body =>
    simp only [List.cons_append, List.cons.injEq] at heq
    exact ⟨body, sentinel, heq.2, hs⟩

theorem ends_in_eof_of_suffix {tokens rest : List Token} (h : ends_in_eof tokens)
    (hsuf : rest <:+ tokens) (hne : rest ≠ []) : ends_in_eof rest := by
  obtain ⟨body, sentinel, rfl, hs⟩ := h
  obtain ⟨front, hfront⟩ := hsuf
  obtain ⟨init, last, rfl⟩ : ∃ init last, rest = init ++ [last] :=
    ⟨rest.dropLast, rest.getLast hne, (List.dropLast_append_getLast hne).symm⟩
  rw [← List.append_assoc] at hfront
  have hlast := List.append_inj_right' hfront rfl
  simp only [List.cons.injEq, and_true] at hlast
  exact ⟨init, last, rfl, by rw [hlast]; exact hs⟩

theorem guarded_closed : Closed Guarded := by
  refine closed_of_primitives ?_ ?_ ?_ ?_ ?_ ?_ ?_ ?_ ?_
  · intro α a st hst
    refine ⟨by simp [pure_apply], fun b st' h => ?_⟩
    obtain ⟨_, rfl⟩ := pure_ok.mp h
    exact hst
  · intro α β f g hf hg st hst
    obtain ⟨hf1, hf2⟩ := hf st hst
    rw [bind_apply]
    cases hrun : f st with
    | error e =>
      rw [hrun] at hf1
      exact ⟨by simpa using hf1, fun b st' h => by simp at h⟩
    | ok p =>
      obtain ⟨a, s1⟩ := p
      exact hg a s1 (hf2 a s1 hrun)
  · intro α st _
    exact ⟨by simp [Parser.fail], fun a st' h => by simp [Parser.fail] at h⟩
  · intro st hst
    obtain ⟨token, next, hs⟩ := ends_in_eof_cons hst
    refine ⟨by simp [Azcc.at_eof, hs], fun b st' h => ?_⟩
    obtain ⟨_, _, _, _, rfl⟩ := at_eof_ok h
    exact hst
  · intro op st hst
    obtain ⟨token, next, hs⟩ := ends_in_eof_cons hst
    refine ⟨?_, fun b st' h => ?_⟩
    · rw [consume_eq]
      simp only [hs]
      split <;> simp
    · obtain ⟨token', next', hs', ⟨hop, _, rfl⟩ | ⟨_, _, rfl⟩⟩ := consume_ok h
      · rw [hs'] at hst
        exact ends_in_eof_tail hst (by rw [hop.1]; decide)
      · exact hst
  · intro op st hst
    obtain ⟨token, next, hs⟩ := ends_in_eof_cons hst
    refine ⟨?_, fun b st' h => ?_⟩
    · rw [expect_eq]
      simp only [hs]
      split <;> simp
    · obtain ⟨token', next', hs', hop, rfl⟩ := expect_ok h
      rw [hs'] at hst
      exact ends_in_eof_tail hst (by rw [hop.1]; decide)
  · intro st hst
    obtain ⟨token, next, hs⟩ := ends_in_eof_cons hst
    refine ⟨?_, fun b st' h => ?_⟩
    · simp only [Azcc.expect_number, hs]
      split <;> simp
    · obtain ⟨token', next', hs', hk, _, rfl⟩ := expect_number_ok h
      rw [hs'] at hst
      exact ends_in_eof_tail hst (by rw [hk]; decide)
  · intro st hst
    obtain ⟨token, next, hs⟩ := ends_in_eof_cons hst
    refine ⟨?_, fun b st' h => ?_⟩
    · simp only [Azcc.consume_identifier, hs]
      split <;> simp
    · obtain ⟨token', next', hs', ⟨hk, _, rfl⟩ | ⟨_, _, rfl⟩⟩ := consume_identifier_ok h
      · rw [hs'] at hst
        exact ends_in_eof_tail hst (by rw [hk]; decide)
      · exact hst
  · intro t st hst
    refine ⟨?_, fun node st' h => ?_⟩
    · unfold Azcc.new_node_lvar new_local_variable
      split <;> simp
    · rcases new_node_lvar_ok h with ⟨_, _, _, rfl⟩ | ⟨_, _, rfl⟩ <;> exact hst

/-! ## Termination: the fuel a token list needs -/

theorem finishes_pure {α : Type} (n : Nat) (a : α) : Finishes n (pure a : Parser α) := by
  intro st _
  refine ⟨by simp [pure_apply], fun b st' h => ?_⟩
  obtain ⟨_, rfl⟩ := pure_ok.mp h
  exact le_refl _

theorem finishes_bind {α β : Type} {n : Nat} {f : Parser α} {g : α → Parser β}
    (hf : Finishes n f) (hg : ∀ a, Finishes n (g a)) : Finishes n (f >>= g) := by
  intro st hst
  obtain ⟨hf1, hf2⟩ := hf st hst
  rw [bind_apply]
  cases hrun : f st with
  | error e =>
    rw [hrun] at hf1
    exact ⟨by simpa using hf1, fun b st' h => by simp at h⟩
  | ok p =>
    obtain ⟨a, s1⟩ := p
    have hlen := hf2 a s1 hrun
    obtain ⟨hg1, hg2⟩ := hg a s1 (le_trans hlen hst)
    exact ⟨hg1, fun b st' h => le_trans (hg2 b st' h) hlen⟩

/-- Sequencing behind a run that moves the cursor: what follows needs to finish
on shorter cursors only. -/
theorem finishes_bind_advances {α β : Type} {n : Nat} {f : Parser α} {g : α → Parser β}
    (hf : Finishes n f) (hadv : Advances f)
    (hg : ∀ a m, m + 1 ≤ n → Finishes m (g a)) : Finishes n (f >>= g) := by
  intro st hst
  obtain ⟨hf1, hf2⟩ := hf st hst
  rw [bind_apply]
  cases hrun : f st with
  | error e =>
    rw [hrun] at hf1
    exact ⟨by simpa using hf1, fun b st' h => by simp at h⟩
  | ok p =>
    obtain ⟨a, s1⟩ := p
    have hlen := hadv st a s1 hrun
    obtain ⟨hg1, hg2⟩ := hg a s1.token.length (by omega) s1 (le_refl _)
    exact ⟨hg1, fun b st' h => le_trans (hg2 b st' h) (le_of_lt hlen)⟩

theorem finishes_consume {α : Type} {n : Nat} (op : String) {g : Bool → Parser α}
    (htrue : ∀ m, m + 1 ≤ n → Finishes m (g true)) (hfalse : Finishes n (g false)) :
    Finishes n (consume op >>= g) := by
  intro st hst
  rw [bind_apply, consume_eq]
  cases hs : st.token with
  | nil => exact ⟨by simp, fun a st' h => by simp at h⟩
  | cons token next =>
    rw [hs] at hst
    simp only [List.length_cons] at hst ⊢
    by_cases hop : token.is_op op
    · simp only [hop, if_true]
      obtain ⟨h1, h2⟩ := htrue next.length hst { st with token := next } (le_refl _)
      exact ⟨h1, fun a st' h => le_trans (h2 a st' h) (Nat.le_succ _)⟩
    · simp only [hop, if_false]
      obtain ⟨h1, h2⟩ := hfalse st (by rw [hs]; exact hst)
      refine ⟨h1, fun a st' h => ?_⟩
      have := h2 a st' h
      rw [hs] at this
      exact this

theorem finishes_expect {α : Type} {n : Nat} (op : String) {g : Unit → Parser α}
    (hg : ∀ m, m + 1 ≤ n → Finishes m (g ())) : Finishes n (expect op >>= g) := by
  intro st hst
  rw [bind_apply, expect_eq]
  cases hs : st.token with
  | nil => exact ⟨by simp, fun a st' h => by simp at h⟩
  | cons token next =>
    rw [hs] at hst
    simp only [List.length_cons] at hst ⊢
    by_cases hop : token.is_op op
    · simp only [hop, if_true]
      obtain ⟨h1, h2⟩ := hg next.length hst { st with token := next } (le_refl _)
      exact ⟨h1, fun a st' h => le_trans (h2 a st' h) (Nat.le_succ _)⟩
    · simp only [hop, if_false]
      exact ⟨by simp, fun a st' h => by simp at h⟩

theorem finishes_expect_number {α : Type} {n : Nat} {g : Int → Parser α}
    (hg : ∀ v m, m + 1 ≤ n → Finishes m (g v)) : Finishes n (expect_number >>= g) := by
  intro st hst
  rw [bind_apply]
  unfold Azcc.expect_number
  cases hs : st.token with
  | nil => exact ⟨by simp, fun a st' h => by simp at h⟩
  | cons token next =>
    rw [hs] at hst
    simp only [List.length_cons] at hst ⊢
    by_cases hk : token.kind = .TOKEN_NUMBER
    · simp only [hk, ne_eq, not_true_eq_false, if_false]
      obtain ⟨h1, h2⟩ := hg token.value next.length hst { st with token := next } (le_refl _)
      exact ⟨h1, fun a st' h => le_trans (h2 a st' h) (Nat.le_succ _)⟩
    · simp only [ne_eq, hk, not_false_eq_true, if_true]
      exact ⟨by simp, fun a st' h => by simp at h⟩

theorem finishes_consume_identifier {α : Type} {n : Nat} {g : Option Token → Parser α}
    (hsome : ∀ t m, m + 1 ≤ n → Finishes m (g (some t))) (hnone : Finishes n (g none)) :
    Finishes n (consume_identifier >>= g) := by
  intro st hst
  rw [bind_apply]
  unfold Azcc.consume_identifier
  cases hs : st.token with
  | nil => exact ⟨by simp, fun a st' h => by simp at h⟩
  | cons token next =>
    rw [hs] at hst
    simp only [List.length_cons] at hst ⊢
    by_cases hk : token.kind = .TOKEN_IDENTIFIER
    · simp only [hk, ne_eq, not_true_eq_false, if_false]
      obtain ⟨h1, h2⟩ := hsome token next.length hst { st with token := next } (le_refl _)
      exact ⟨h1, fun a st' h => le_trans (h2 a st' h) (Nat.le_succ _)⟩
    · simp only [ne_eq, hk, not_false_eq_true, if_true]
      obtain ⟨h1, h2⟩ := hnone st (by rw [hs]; exact hst)
      refine ⟨h1, fun a st' h => ?_⟩
      have := h2 a st' h
      rw [hs] at this
      exact this

theorem finishes_at_eof (n : Nat) : Finishes n at_eof := by
  intro st _
  unfold Azcc.at_eof
  cases hs : st.token with
  | nil => exact ⟨by simp, fun a st' h => by simp at h⟩
  | cons token next =>
    refine ⟨by simp, fun a st' h => ?_⟩
    simp only [Except.ok.injEq, Prod.mk.injEq] at h
    rw [← h.2, hs]

theorem finishes_new_node_lvar (n : Nat) (token : Token) :
    Finishes n (new_node_lvar token) := by
  intro st _
  refine ⟨?_, fun node st' h => ?_⟩
  · unfold Azcc.new_node_lvar new_local_variable
    split <;> simp
  · rcases new_node_lvar_ok h with ⟨_, _, _, rfl⟩ | ⟨_, _, rfl⟩ <;> exact le_refl _

theorem finishes_argument_loop {E : Parser Node} {n : Nat}
    (hE : ∀ m, m + 1 ≤ n → Finishes m E) :
    ∀ (c m : Nat) (list : List Node), m + 1 ≤ n → m < c →
      Finishes m (argument_loop E c list) := by
  intro c
  induction c with
  | zero => intro m list _ hc; exact absurd hc (Nat.not_lt_zero m)
  | succ c ih =>
    intro m list hm hc
    unfold Azcc.argument_loop
    refine finishes_consume _ (fun m' hm' => ?_) (finishes_pure _ _)
    exact finishes_bind (hE m' (by omega)) fun node => ih m' _ (by omega) (by omega)

theorem finishes_argument {E : Parser Node} {n : Nat}
    (hE : ∀ m, m + 1 ≤ n → Finishes m E) (fuel m : Nat) (hm : m + 1 ≤ n)
    (hfuel : m < fuel) : Finishes m (argument E fuel) := by
  unfold Azcc.argument
  exact finishes_bind (hE m hm) fun node => finishes_argument_loop hE fuel m _ hm hfuel

theorem finishes_primary {E : Parser Node} {n : Nat}
    (hE : ∀ m, m + 1 ≤ n → Finishes m E) (fuel : Nat) (hfuel : n ≤ fuel) :
    Finishes n (primary E fuel) := by
  unfold Azcc.primary
  refine finishes_consume _ (fun m hm => ?_) ?_
  · exact finishes_bind (hE m hm) fun node =>
      finishes_expect _ fun m' _ => finishes_pure _ _
  · refine finishes_consume_identifier (fun identifier m hm => ?_) ?_
    · refine finishes_consume _ (fun m1 hm1 => ?_) (finishes_new_node_lvar _ _)
      refine finishes_consume _ (fun m2 hm2 => finishes_pure _ _) ?_
      exact finishes_bind (finishes_argument hE fuel m1 (by omega) (by omega))
        fun arguments => finishes_expect _ fun m' _ => finishes_pure _ _
    · exact finishes_expect_number fun v m _ => finishes_pure _ _

theorem finishes_unary {E : Parser Node} {n : Nat}
    (hE : ∀ m, m + 1 ≤ n → Finishes m E) (fuel : Nat) (hfuel : n ≤ fuel) :
    Finishes n (unary E fuel) := by
  have hbelow : ∀ m, m + 1 ≤ n → Finishes m (primary E fuel) := fun m hm =>
    finishes_primary (fun m' hm' => hE m' (by omega)) fuel (by omega)
  unfold Azcc.unary
  refine finishes_consume _ (fun m hm => hbelow m hm) ?_
  refine finishes_consume _ (fun m hm => ?_) (finishes_primary hE fuel hfuel)
  exact finishes_bind (hbelow m hm) fun node => finishes_pure _ _

/-- The loop of a level: every turn takes an operator token, so a counter above
the number of tokens is never used up. -/
theorem finishes_level_loop {E : Parser Node} {n : Nat} (fuel k : Nat) (hk : k ≤ 4)
    (hup : ∀ m, m ≤ n → Finishes m (at_level E fuel (k + 1))) :
    ∀ (c m : Nat) (node : Node), m ≤ n → m < c →
      Finishes m (level_loop E fuel k c node) := by
  intro c
  induction c with
  | zero => intro m node _ hc; exact absurd hc (Nat.not_lt_zero m)
  | succ c ih =>
    intro m node hm hc st hst
    rcases level_loop_cases E fuel k c node st hk with
      ⟨_, hnull⟩ | ⟨token, next, hs, ⟨op, hlevel, hop, hhit⟩ | ⟨_, hstop⟩⟩
    · rw [hnull]
      exact ⟨by simp, fun a st' h => by simp at h⟩
    · rw [hhit]
      rw [hs] at hst
      simp only [List.length_cons] at hst
      have hrest : Finishes next.length
          (at_level E fuel (k + 1) >>= fun rhs =>
            level_loop E fuel k c (op.build node rhs)) :=
        finishes_bind (hup _ (by omega)) fun rhs => ih _ _ (by omega) (by omega)
      obtain ⟨h1, h2⟩ := hrest { st with token := next } (le_refl _)
      refine ⟨h1, fun a st' h => ?_⟩
      rw [hs]
      exact le_trans (h2 a st' h) (Nat.le_succ _)
    · rw [hstop]
      refine ⟨by simp, fun a st' h => ?_⟩
      simp only [Except.ok.injEq, Prod.mk.injEq] at h
      rw [← h.2]

theorem finishes_at_level {E : Parser Node} {n : Nat}
    (hE : ∀ m, m + 1 ≤ n → Finishes m E) (fuel : Nat) (hfuel : n < fuel) :
    ∀ (d k : Nat), k + d = 5 → ∀ m, m ≤ n → Finishes m (at_level E fuel k) := by
  intro d
  induction d with
  | zero =>
    intro k hk m hm
    rw [at_level_unary E fuel k (by omega)]
    exact finishes_unary (fun m' hm' => hE m' (by omega)) fuel (by omega)
  | succ d ih =>
    intro k hk m hm
    rw [at_level_eq E fuel k (by omega)]
    exact finishes_bind (ih (k + 1) (by omega) m hm) fun node =>
      finishes_level_loop fuel k (by omega) (ih (k + 1) (by omega)) fuel m node hm
        (by omega)

/-- Source `expression`: fuel 2 above the number of tokens is never used
up. -/
theorem finishes_expression :
    ∀ (fuel n : Nat), n + 2 ≤ fuel → Finishes n (expression fuel) := by
  intro fuel
  induction fuel with
  | zero => intro n h; exact absurd h (by omega)
  | succ f ih =>
    intro n hn
    exact finishes_at_level (fun m hm => ih m (by omega)) f (by omega) 5 0 rfl n (le_refl _)

/-- A run that starts with `consume(op)` and returns has either taken the token
and moved the cursor, or is the run of what follows a failed test. -/
theorem consume_guard_advances {α : Type} {op : String} {g : Bool → Parser α}
    {st st' : State} {a : α} (h : (consume op >>= g) st = .ok (a, st'))
    (htrue : Preserves (fun st st' => st'.token <:+ st.token) α (g true)) :
    st'.token.length < st.token.length ∨ g false st = .ok (a, st') := by
  obtain ⟨b, s1, h1, h2⟩ := bind_ok.mp h
  obtain ⟨token, next, hs, ⟨_, rfl, rfl⟩ | ⟨_, rfl, rfl⟩⟩ := consume_ok h1
  · left
    have hsuf := (htrue _ _ _ h2).length_le
    rw [hs]
    simp only [List.length_cons]
    exact Nat.lt_succ_of_le hsuf
  · exact Or.inr h2

/-- A recogniser is `consume` of its leading token followed by the rest, and
declines when the test fails; the rest satisfies every closed predicate. -/
theorem guard_of_return_statement (C : Closed G) (fuel : Nat) :
    ∃ g : Bool → Parser (Option ReturnStatement),
      return_statement fuel = (consume "return" >>= g) ∧ G _ (g true) ∧
        g false = pure none := by
  refine ⟨_, rfl, ?_, rfl⟩
  dsimp only
  repeat' first
    | exact C.expression _
    | exact C.expect _
    | apply C.bind
    | apply C.pure
    | intro _

theorem guard_of_if_statement (C : Closed G) {S : Parser StatementUnion}
    (hS : G StatementUnion S) (fuel : Nat) :
    ∃ g : Bool → Parser (Option (IfStatement StatementUnion)),
      if_statement S fuel = (consume "if" >>= g) ∧ G _ (g true) ∧ g false = pure none := by
  refine ⟨_, rfl, ?_, rfl⟩
  dsimp only
  repeat' first
    | exact C.expression _
    | exact C.expect _
    | exact C.consume _
    | exact hS
    | apply C.bind
    | apply C.pure
    | intro _
    | split

theorem guard_of_while_statement (C : Closed G) {S : Parser StatementUnion}
    (hS : G StatementUnion S) (fuel : Nat) :
    ∃ g : Bool → Parser (Option (WhileStatement StatementUnion)),
      while_statement S fuel = (consume "while" >>= g) ∧ G _ (g true) ∧
        g false = pure none := by
  refine ⟨_, rfl, ?_, rfl⟩
  dsimp only
  repeat' first
    | exact C.expression _
    | exact C.expect _
    | exact C.consume _
    | exact hS
    | apply C.bind
    | apply C.pure
    | intro _
    | split

theorem guard_of_for_statement (C : Closed G) {S : Parser StatementUnion}
    (hS : G StatementUnion S) (fuel : Nat) :
    ∃ g : Bool → Parser (Option (ForStatement StatementUnion)),
      for_statement S fuel = (consume "for" >>= g) ∧ G _ (g true) ∧ g false = pure none := by
  refine ⟨_, rfl, ?_, rfl⟩
  dsimp only
  repeat' first
    | exact C.expression _
    | exact C.expect _
    | exact C.consume _
    | exact hS
    | apply C.bind
    | apply C.pure
    | intro _
    | split

theorem guard_of_compound_statement (C : Closed G) {S : Parser StatementUnion}
    (hS : G StatementUnion S) (fuel : Nat) :
    ∃ g : Bool → Parser (Option (CompoundStatement StatementUnion)),
      compound_statement S fuel = (consume "\x7b" >>= g) ∧ G _ (g true) ∧
        g false = pure none := by
  refine ⟨_, rfl, ?_, rfl⟩
  dsimp only
  repeat' first
    | exact C.compound_statement_loop hS _ _
    | apply C.bind
    | apply C.pure
    | intro _

theorem return_statement_some {fuel : Nat} {st st' : State} {x : ReturnStatement}
    (h : return_statement fuel st = .ok (some x, st')) :
    st'.token.length < st.token.length := by
  obtain ⟨g, hg, hG, hfalse⟩ := guard_of_return_statement cursor_suffix_closed fuel
  rw [hg] at h
  rcases consume_guard_advances h hG with hlt | hdecline
  · exact hlt
  · rw [hfalse] at hdecline
    simp [pure_apply] at hdecline

theorem if_statement_some {S : Parser StatementUnion}
    (hS : Preserves (fun st st' => st'.token <:+ st.token) StatementUnion S) {fuel : Nat}
    {st st' : State} {x : IfStatement StatementUnion}
    (h : if_statement S fuel st = .ok (some x, st')) :
    st'.token.length < st.token.length := by
  obtain ⟨g, hg, hG, hfalse⟩ := guard_of_if_statement cursor_suffix_closed hS fuel
  rw [hg] at h
  rcases consume_guard_advances h hG with hlt | hdecline
  · exact hlt
  · rw [hfalse] at hdecline
    simp [pure_apply] at hdecline

theorem while_statement_some {S : Parser StatementUnion}
    (hS : Preserves (fun st st' => st'.token <:+ st.token) StatementUnion S) {fuel : Nat}
    {st st' : State} {x : WhileStatement StatementUnion}
    (h : while_statement S fuel st = .ok (some x, st')) :
    st'.token.length < st.token.length := by
  obtain ⟨g, hg, hG, hfalse⟩ := guard_of_while_statement cursor_suffix_closed hS fuel
  rw [hg] at h
  rcases consume_guard_advances h hG with hlt | hdecline
  · exact hlt
  · rw [hfalse] at hdecline
    simp [pure_apply] at hdecline

theorem for_statement_some {S : Parser StatementUnion}
    (hS : Preserves (fun st st' => st'.token <:+ st.token) StatementUnion S) {fuel : Nat}
    {st st' : State} {x : ForStatement StatementUnion}
    (h : for_statement S fuel st = .ok (some x, st')) :
    st'.token.length < st.token.length := by
  obtain ⟨g, hg, hG, hfalse⟩ := guard_of_for_statement cursor_suffix_closed hS fuel
  rw [hg] at h
  rcases consume_guard_advances h hG with hlt | hdecline
  · exact hlt
  · rw [hfalse] at hdecline
    simp [pure_apply] at hdecline

theorem compound_statement_some {S : Parser StatementUnion}
    (hS : Preserves (fun st st' => st'.token <:+ st.token) StatementUnion S) {fuel : Nat}
    {st st' : State} {x : CompoundStatement StatementUnion}
    (h : compound_statement S fuel st = .ok (some x, st')) :
    st'.token.length < st.token.length := by
  obtain ⟨g, hg, hG, hfalse⟩ := guard_of_compound_statement cursor_suffix_closed hS fuel
  rw [hg] at h
  rcases consume_guard_advances h hG with hlt | hdecline
  · exact hlt
  · rw [hfalse] at hdecline
    simp [pure_apply] at hdecline

theorem expression_statement_advances (fuel : Nat) :
    Advances (expression_statement fuel) := by
  intro st a st' h
  unfold Azcc.expression_statement at h
  obtain ⟨node, s1, h1, h2⟩ := bind_ok.mp h
  obtain ⟨u, s2, h3, h4⟩ := bind_ok.mp h2
  obtain ⟨_, rfl⟩ := pure_ok.mp h4
  obtain ⟨token, next, hs, _, rfl⟩ := expect_ok h3
  have hsuf := (cursor_suffix_closed.expression fuel st node s1 h1).length_le
  rw [hs] at hsuf
  simp only [List.length_cons] at hsuf
  exact hsuf

/-- Source `statement`: every call that returns has moved the cursor forward by
at least one token. -/
theorem statement_advances : ∀ fuel : Nat, Advances (statement fuel) := by
  intro fuel
  cases fuel with
  | zero =>
    intro st a st' h
    simp [statement, Parser.fail] at h
  | succ n =>
    have C := cursor_suffix_closed
    have hS := C.statement n
    intro st a st' h
    unfold Azcc.statement at h
    obtain ⟨r1, s1, h1, h2⟩ := bind_ok.mp h
    have l1 := (C.return_statement n st r1 s1 h1).length_le
    cases r1 with
    | some returnPattern =>
      obtain ⟨_, rfl⟩ := pure_ok.mp h2
      exact return_statement_some h1
    | none =>
    obtain ⟨r2, s2, h3, h4⟩ := bind_ok.mp h2
    have l2 := (C.if_statement hS n s1 r2 s2 h3).length_le
    cases r2 with
    | some ifPattern =>
      obtain ⟨_, rfl⟩ := pure_ok.mp h4
      exact lt_of_lt_of_le (if_statement_some hS h3) l1
    | none =>
    obtain ⟨r3, s3, h5, h6⟩ := bind_ok.mp h4
    have l3 := (C.while_statement hS n s2 r3 s3 h5).length_le
    cases r3 with
    | some whilePattern =>
      obtain ⟨_, rfl⟩ := pure_ok.mp h6
      exact lt_of_lt_of_le (while_statement_some hS h5) (le_trans l2 l1)
    | none =>
    obtain ⟨r4, s4, h7, h8⟩ := bind_ok.mp h6
    have l4 := (C.for_statement hS n s3 r4 s4 h7).length_le
    cases r4 with
    | some forPattern =>
      obtain ⟨_, rfl⟩ := pure_ok.mp h8
      exact lt_of_lt_of_le (for_statement_some hS h7) (le_trans l3 (le_trans l2 l1))
    | none =>
    obtain ⟨r5, s5, h9, h10⟩ := bind_ok.mp h8
    have l5 := (C.compound_statement hS n s4 r5 s5 h9).length_le
    cases r5 with
    | some compoundPattern =>
      obtain ⟨_, rfl⟩ := pure_ok.mp h10
      exact lt_of_lt_of_le (compound_statement_some hS h9)
        (le_trans l4 (le_trans l3 (le_trans l2 l1)))
    | none =>
    obtain ⟨e, s6, h11, h12⟩ := bind_ok.mp h10
    obtain ⟨_, rfl⟩ := pure_ok.mp h12
    exact lt_of_lt_of_le (expression_statement_advances n s5 e _ h11)
      (le_trans l5 (le_trans l4 (le_trans l3 (le_trans l2 l1))))

theorem finishes_expression_statement (fuel n : Nat) (h : n + 2 ≤ fuel) :
    Finishes n (expression_statement fuel) := by
  unfold Azcc.expression_statement
  exact finishes_bind (finishes_expression fuel n h) fun node =>
    finishes_expect _ fun m _ => finishes_pure _ _

theorem finishes_return_statement (fuel n : Nat) (h : n + 2 ≤ fuel) :
    Finishes n (return_statement fuel) := by
  unfold Azcc.return_statement
  refine finishes_consume _ (fun m hm => ?_) (finishes_pure _ _)
  exact finishes_bind (finishes_expression fuel m (by omega)) fun node =>
    finishes_expect _ fun m' _ => finishes_pure _ _

theorem finishes_if_statement {S : Parser StatementUnion} {n : Nat}
    (hS : ∀ m, m + 1 ≤ n → Finishes m S) (fuel : Nat) (h : n + 2 ≤ fuel) :
    Finishes n (if_statement S fuel) := by
  unfold Azcc.if_statement
  refine finishes_consume _ (fun m hm => ?_) (finishes_pure _ _)
  refine finishes_consume _ (fun m1 hm1 => ?_) (finishes_pure _ _)
  refine finishes_bind (finishes_expression fuel m1 (by omega)) fun condition => ?_
  refine finishes_expect _ fun m2 hm2 => ?_
  refine finishes_bind (hS m2 (by omega)) fun thenStatement => ?_
  refine finishes_consume _ (fun m3 hm3 => ?_) (finishes_pure _ _)
  exact finishes_bind (hS m3 (by omega)) fun elseStatement => finishes_pure _ _

theorem finishes_while_statement {S : Parser StatementUnion} {n : Nat}
    (hS : ∀ m, m + 1 ≤ n → Finishes m S) (fuel : Nat) (h : n + 2 ≤ fuel) :
    Finishes n (while_statement S fuel) := by
  unfold Azcc.while_statement
  refine finishes_consume _ (fun m hm => ?_) (finishes_pure _ _)
  refine finishes_consume _ (fun m1 hm1 => ?_) (finishes_pure _ _)
  refine finishes_bind (finishes_expression fuel m1 (by omega)) fun condition => ?_
  refine finishes_expect _ fun m2 hm2 => ?_
  exact finishes_bind (hS m2 (by omega)) fun body => finishes_pure _ _

theorem finishes_for_statement {S : Parser StatementUnion} {n : Nat}
    (hS : ∀ m, m + 1 ≤ n → Finishes m S) (fuel : Nat) (h : n + 2 ≤ fuel) :
    Finishes n (for_statement S fuel) := by
  unfold Azcc.for_statement
  refine finishes_consume _ (fun m hm => ?_) (finishes_pure _ _)
  refine finishes_consume _ (fun m1 hm1 => ?_) (finishes_pure _ _)
  refine finishes_bind (finishes_expression fuel m1 (by omega)) fun initialization => ?_
  refine finishes_expect _ fun m2 hm2 => ?_
  refine finishes_bind (finishes_expression fuel m2 (by omega)) fun condition => ?_
  refine finishes_expect _ fun m3 hm3 => ?_
  refine finishes_bind (finishes_expression fuel m3 (by omega)) fun afterthought => ?_
  refine finishes_expect _ fun m4 hm4 => ?_
  exact finishes_bind (hS m4 (by omega)) fun body => finishes_pure _ _

/-- The loop of `compound_statement`: every turn parses a statement, which
moves the cursor, so a counter above the number of tokens is never used up. -/
theorem finishes_compound_statement_loop {S : Parser StatementUnion} {n : Nat}
    (hS : ∀ m, m + 1 ≤ n → Finishes m S) (hadv : Advances S) :
    ∀ (c m : Nat) (node : List StatementUnion), m + 1 ≤ n → m < c →
      Finishes m (compound_statement_loop S c node) := by
  intro c
  induction c with
  | zero => intro m node _ hc; exact absurd hc (Nat.not_lt_zero m)
  | succ c ih =>
    intro m node hm hc
    unfold Azcc.compound_statement_loop
    refine finishes_consume _ (fun m' _ => finishes_pure _ _) ?_
    exact finishes_bind_advances (hS m hm) hadv fun s m' hm' =>
      ih m' _ (by omega) (by omega)

theorem finishes_compound_statement {S : Parser StatementUnion} {n : Nat}
    (hS : ∀ m, m + 1 ≤ n → Finishes m S) (hadv : Advances S) (fuel : Nat)
    (h : n ≤ fuel) : Finishes n (compound_statement S fuel) := by
  unfold Azcc.compound_statement
  refine finishes_consume _ (fun m hm => ?_) (finishes_pure _ _)
  exact finishes_bind (finishes_compound_statement_loop hS hadv fuel m [] hm (by omega))
    fun list => finishes_pure _ _

/-- Source `statement`: fuel 3 above the number of tokens is never used up. -/
theorem finishes_statement :
    ∀ (fuel n : Nat), n + 3 ≤ fuel → Finishes n (statement fuel) := by
  intro fuel
  induction fuel with
  | zero => intro n h; exact absurd h (by omega)
  | succ f ih =>
    intro n hn
    have hS : ∀ m, m + 1 ≤ n → Finishes m (statement f) := fun m hm => ih m (by omega)
    unfold Azcc.statement
    refine finishes_bind (finishes_return_statement f n (by omega)) fun r => ?_
    cases r with
    | some returnPattern => exact finishes_pure _ _
    | none =>
    refine finishes_bind (finishes_if_statement hS f (by omega)) fun r => ?_
    cases r with
    | some ifPattern => exact finishes_pure _ _
    | none =>
    refine finishes_bind (finishes_while_statement hS f (by omega)) fun r => ?_
    cases r with
    | some whilePattern => exact finishes_pure _ _
    | none =>
    refine finishes_bind (finishes_for_statement hS f (by omega)) fun r => ?_
    cases r with
    | some forPattern => exact finishes_pure _ _
    | none =>
    refine finishes_bind
      (finishes_compound_statement hS (statement_advances f) f (by omega)) fun r => ?_
    cases r with
    | some compoundPattern => exact finishes_pure _ _
    | none =>
    exact finishes_bind (finishes_expression_statement f n (by omega)) fun e =>
      finishes_pure _ _

/-- The loop of `program`: every turn parses a statement, which moves the
cursor. -/
theorem finishes_program_loop (fuel : Nat) :
    ∀ (c m : Nat) (current : List StatementUnion), m + 3 ≤ fuel → m < c →
      Finishes m (program_loop fuel c current) := by
  intro c
  induction c with
  | zero => intro m current _ hc; exact absurd hc (Nat.not_lt_zero m)
  | succ c ih =>
    intro m current hm hc
    unfold Azcc.program_loop
    refine finishes_bind (finishes_at_eof m) fun b => ?_
    cases b
    · exact finishes_bind_advances (finishes_statement fuel m hm) (statement_advances fuel)
        fun s m' hm' => ih m' _ (by omega) (by omega)
    · exact finishes_pure _ _

/-- Source `parse`: with fuel 3 above the number of tokens the fuel is never
used up. -/
theorem parse_finishes (fuel : Nat) (head : List Token) (st : State)
    (h : head.length + 3 ≤ fuel) : parse fuel head st ≠ .error .out_of_fuel :=
  (finishes_program_loop fuel fuel head.length [] h (by omega)
    { token := head, localVariableTable := new_hash_table, currentOffset := 0 }
    (le_refl _)).1

/-! ## More fuel does not change a result -/

theorem refines_refl {α : Type} (f : Parser α) : Refines f f := fun _ _ => rfl

theorem refines_fail {α : Type} (f' : Parser α) :
    Refines (Parser.fail .out_of_fuel) f' := fun _ h => absurd rfl h

theorem refines_bind {α β : Type} {f f' : Parser α} {g g' : α → Parser β}
    (hf : Refines f f') (hg : ∀ a, Refines (g a) (g' a)) :
    Refines (f >>= g) (f' >>= g') := by
  intro st hne
  rw [bind_apply] at hne ⊢
  rw [bind_apply]
  cases hrun : f st with
  | error e =>
    rw [hrun] at hne
    have hne' : (Except.error e : Except Error (α × State)) ≠ .error .out_of_fuel := by
      intro heq
      rw [heq] at hne
      exact hne rfl
    rw [hf st (by rw [hrun]; exact hne'), hrun]
  | ok p =>
    obtain ⟨a, s1⟩ := p
    rw [hrun] at hne
    rw [hf st (by rw [hrun]; simp), hrun]
    exact hg a s1 hne

theorem refines_argument_loop {E E' : Parser Node} (hE : Refines E E') :
    ∀ (c c' : Nat) (list : List Node), c ≤ c' →
      Refines (argument_loop E c list) (argument_loop E' c' list) := by
  intro c
  induction c with
  | zero => intro c' list _; exact refines_fail _
  | succ c ih =>
    intro c' list hc
    obtain ⟨d, rfl⟩ : ∃ d, c' = d + 1 := ⟨c' - 1, by omega⟩
    unfold Azcc.argument_loop
    refine refines_bind (refines_refl _) fun b => ?_
    cases b
    · exact refines_refl _
    · exact refines_bind hE fun node => ih d _ (by omega)

theorem refines_argument {E E' : Parser Node} (hE : Refines E E') {fuel fuel' : Nat}
    (hfuel : fuel ≤ fuel') : Refines (argument E fuel) (argument E' fuel') := by
  unfold Azcc.argument
  exact refines_bind hE fun node => refines_argument_loop hE fuel fuel' _ hfuel

theorem refines_primary {E E' : Parser Node} (hE : Refines E E') {fuel fuel' : Nat}
    (hfuel : fuel ≤ fuel') : Refines (primary E fuel) (primary E' fuel') := by
  unfold Azcc.primary
  refine refines_bind (refines_refl _) fun b => ?_
  cases b
  · refine refines_bind (refines_refl _) fun r => ?_
    cases r with
    | none => exact refines_refl _
    | some identifier =>
      refine refines_bind (refines_refl _) fun b => ?_
      cases b
      · exact refines_refl _
      · refine refines_bind (refines_refl _) fun b => ?_
        cases b
        · exact refines_bind (refines_argument hE hfuel) fun arguments => refines_refl _
        · exact refines_refl _
  · exact refines_bind hE fun node => refines_refl _

theorem refines_unary {E E' : Parser Node} (hE : Refines E E') {fuel fuel' : Nat}
    (hfuel : fuel ≤ fuel') : Refines (unary E fuel) (unary E' fuel') := by
  unfold Azcc.unary
  refine refines_bind (refines_refl _) fun b => ?_
  cases b
  · refine refines_bind (refines_refl _) fun b => ?_
    cases b
    · exact refines_primary hE hfuel
    · exact refines_bind (refines_primary hE hfuel) fun node => refines_refl _
  · exact refines_primary hE hfuel

theorem refines_level_loop {E E' : Parser Node} {fuel fuel' : Nat} (k : Nat) (hk : k ≤ 4)
    (hup : Refines (at_level E fuel (k + 1)) (at_level E' fuel' (k + 1))) :
    ∀ (c c' : Nat) (node : Node), c ≤ c' →
      Refines (level_loop E fuel k c node) (level_loop E' fuel' k c' node) := by
  intro c
  induction c with
  | zero =>
    intro c' node _
    rw [level_loop_zero]
    exact refines_fail _
  | succ c ih =>
    intro c' node hc st hne
    obtain ⟨d, rfl⟩ : ∃ d, c' = d + 1 := ⟨c' - 1, by omega⟩
    cases hs : st.token with
    | nil => rw [level_loop_null _ _ _ _ _ _ hs, level_loop_null _ _ _ _ _ _ hs]
    | cons token next =>
      by_cases h : ∃ op : Op, op.level = k ∧ token.is_op op.lexeme
      · obtain ⟨op, rfl, hop⟩ := h
        rw [level_loop_hit E fuel op c node st token next hs hop] at hne ⊢
        rw [level_loop_hit E' fuel' op d node st token next hs hop]
        exact refines_bind hup (fun rhs => ih d _ (by omega)) _ hne
      · have hstop : ∀ op : Op, op.level = k → ¬ token.is_op op.lexeme :=
          fun op hl hop => h ⟨op, hl, hop⟩
        rw [level_loop_stop E fuel k c node st token next hk hs hstop,
          level_loop_stop E' fuel' k d node st token next hk hs hstop]

theorem refines_at_level {E E' : Parser Node} (hE : Refines E E') {fuel fuel' : Nat}
    (hfuel : fuel ≤ fuel') :
    ∀ (d k : Nat), k + d = 5 → Refines (at_level E fuel k) (at_level E' fuel' k) := by
  intro d
  induction d with
  | zero =>
    intro k hk
    rw [at_level_unary E fuel k (by omega), at_level_unary E' fuel' k (by omega)]
    exact refines_unary hE hfuel
  | succ d ih =>
    intro k hk
    rw [at_level_eq E fuel k (by omega), at_level_eq E' fuel' k (by omega)]
    exact refines_bind (ih (k + 1) (by omega)) fun node =>
      refines_level_loop k (by omega) (ih (k + 1) (by omega)) fuel fuel' node hfuel

/-- Source `expression` with more fuel. -/
theorem refines_expression :
    ∀ (fuel fuel' : Nat), fuel ≤ fuel' → Refines (expression fuel) (expression fuel') := by
  intro fuel
  induction fuel with
  | zero => intro fuel' _; exact refines_fail _
  | succ f ih =>
    intro fuel' hfuel
    obtain ⟨f', rfl⟩ : ∃ f', fuel' = f' + 1 := ⟨fuel' - 1, by omega⟩
    exact refines_at_level (ih f' (by omega)) (by omega) 5 0 rfl

theorem refines_expression_statement {fuel fuel' : Nat} (hfuel : fuel ≤ fuel') :
    Refines (expression_statement fuel) (expression_statement fuel') := by
  unfold Azcc.expression_statement
  exact refines_bind (refines_expression fuel fuel' hfuel) fun node => refines_refl _

theorem refines_return_statement {fuel fuel' : Nat} (hfuel : fuel ≤ fuel') :
    Refines (return_statement fuel) (return_statement fuel') := by
  unfold Azcc.return_statement
  refine refines_bind (refines_refl _) fun b => ?_
  cases b
  · exact refines_refl _
  · exact refines_bind (refines_expression fuel fuel' hfuel) fun node => refines_refl _

theorem refines_if_statement {S S' : Parser StatementUnion} (hS : Refines S S')
    {fuel fuel' : Nat} (hfuel : fuel ≤ fuel') :
    Refines (if_statement S fuel) (if_statement S' fuel') := by
  unfold Azcc.if_statement
  refine refines_bind (refines_refl _) fun b => ?_
  cases b
  · exact refines_refl _
  · refine refines_bind (refines_refl _) fun b => ?_
    cases b
    · exact refines_refl _
    · refine refines_bind (refines_expression fuel fuel' hfuel) fun condition => ?_
      refine refines_bind (refines_refl _) fun u => ?_
      refine refines_bind hS fun thenStatement => ?_
      refine refines_bind (refines_refl _) fun b => ?_
      cases b
      · exact refines_refl _
      · exact refines_bind hS fun elseStatement => refines_refl _

theorem refines_while_statement {S S' : Parser StatementUnion} (hS : Refines S S')
    {fuel fuel' : Nat} (hfuel : fuel ≤ fuel') :
    Refines (while_statement S fuel) (while_statement S' fuel') := by
  unfold Azcc.while_statement
  refine refines_bind (refines_refl _) fun b => ?_
  cases b
  · exact refines_refl _
  · refine refines_bind (refines_refl _) fun b => ?_
    cases b
    · exact refines_refl _
    · refine refines_bind (refines_expression fuel fuel' hfuel) fun condition => ?_
      refine refines_bind (refines_refl _) fun u => ?_
      exact refines_bind hS fun body => refines_refl _

theorem refines_for_statement {S S' : Parser StatementUnion} (hS : Refines S S')
    {fuel fuel' : Nat} (hfuel : fuel ≤ fuel') :
    Refines (for_statement S fuel) (for_statement S' fuel') := by
  unfold Azcc.for_statement
  refine refines_bind (refines_refl _) fun b => ?_
  cases b
  · exact refines_refl _
  · refine refines_bind (refines_refl _) fun b => ?_
    cases b
    · exact refines_refl _
    · refine refines_bind (refines_expression fuel fuel' hfuel) fun initialization => ?_
      refine refines_bind (refines_refl _) fun u => ?_
      refine refines_bind (refines_expression fuel fuel' hfuel) fun condition => ?_
      refine refines_bind (refines_refl _) fun u => ?_
      refine refines_bind (refines_expression fuel fuel' hfuel) fun afterthought => ?_
      refine refines_bind (refines_refl _) fun u => ?_
      exact refines_bind hS fun body => refines_refl _

theorem refines_compound_statement_loop {S S' : Parser StatementUnion} (hS : Refines S S') :
    ∀ (c c' : Nat) (node : List StatementUnion), c ≤ c' →
      Refines (compound_statement_loop S c node) (compound_statement_loop S' c' node) := by
  intro c
  induction c with
  | zero => intro c' node _; exact refines_fail _
  | succ c ih =>
    intro c' node hc
    obtain ⟨d, rfl⟩ : ∃ d, c' = d + 1 := ⟨c' - 1, by omega⟩
    unfold Azcc.compound_statement_loop
    refine refines_bind (refines_refl _) fun b => ?_
    cases b
    · exact refines_bind hS fun s => ih d _ (by omega)
    · exact refines_refl _

theorem refines_compound_statement {S S' : Parser StatementUnion} (hS : Refines S S')
    {fuel fuel' : Nat} (hfuel : fuel ≤ fuel') :
    Refines (compound_statement S fuel) (compound_statement S' fuel') := by
  unfold Azcc.compound_statement
  refine refines_bind (refines_refl _) fun b => ?_
  cases b
  · exact refines_refl _
  · exact refines_bind (refines_compound_statement_loop hS fuel fuel' [] hfuel)
      fun list => refines_refl _

/-- Source `statement` with more fuel. -/
theorem refines_statement :
    ∀ (fuel fuel' : Nat), fuel ≤ fuel' → Refines (statement fuel) (statement fuel') := by
  intro fuel
  induction fuel with
  | zero => intro fuel' _; exact refines_fail _
  | succ f ih =>
    intro fuel' hfuel
    obtain ⟨f', rfl⟩ : ∃ f', fuel' = f' + 1 := ⟨fuel' - 1, by omega⟩
    have hf : f ≤ f' := by omega
    have hS := ih f' hf
    unfold Azcc.statement
    refine refines_bind (refines_return_statement hf) fun r => ?_
    cases r with
    | some returnPattern => exact refines_refl _
    | none =>
    refine refines_bind (refines_if_statement hS hf) fun r => ?_
    cases r with
    | some ifPattern => exact refines_refl _
    | none =>
    refine refines_bind (refines_while_statement hS hf) fun r => ?_
    cases r with
    | some whilePattern => exact refines_refl _
    | none =>
    refine refines_bind (refines_for_statement hS hf) fun r => ?_
    cases r with
    | some forPattern => exact refines_refl _
    | none =>
    refine refines_bind (refines_compound_statement hS hf) fun r => ?_
    cases r with
    | some compoundPattern => exact refines_refl _
    | none =>
    exact refines_bind (refines_expression_statement hf) fun e => refines_refl _

theorem refines_program_loop {fuel fuel' : Nat} (hfuel : fuel ≤ fuel') :
    ∀ (c c' : Nat) (current : List StatementUnion), c ≤ c' →
      Refines (program_loop fuel c current) (program_loop fuel' c' current) := by
  intro c
  induction c with
  | zero => intro c' current _; exact refines_fail _
  | succ c ih =>
    intro c' current hc
    obtain ⟨d, rfl⟩ : ∃ d, c' = d + 1 := ⟨c' - 1, by omega⟩
    unfold Azcc.program_loop
    refine refines_bind (refines_refl _) fun b => ?_
    cases b
    · exact refines_bind (refines_statement fuel fuel' hfuel) fun s => ih d _ (by omega)
    · exact refines_refl _

/-- Source `parse` with more fuel: a result that is not the end of the fuel
stays. -/
theorem parse_fuel_monotone {fuel fuel' : Nat} (hfuel : fuel ≤ fuel') (head : List Token)
    (st : State) (h : parse fuel head st ≠ .error .out_of_fuel) :
    parse fuel' head st = parse fuel head st :=
  refines_program_loop hfuel fuel fuel' [] hfuel
    { token := head, localVariableTable := new_hash_table, currentOffset := 0 } h

/-! ## One turn of a loop moves the cursor -/

theorem closed_at_level (C : Closed G) {E : Parser Node} (hE : G Node E) (fuel k : Nat) :
    G Node (at_level E fuel k) := by
  unfold at_level
  split
  · exact C.assign hE fuel
  · exact C.equality hE fuel
  · exact C.relational hE fuel
  · exact C.add hE fuel
  · exact C.multiply hE fuel
  · exact C.unary hE fuel

theorem closed_level_loop (C : Closed G) {E : Parser Node} (hE : G Node E)
    (fuel k c : Nat) (node : Node) : G Node (level_loop E fuel k c node) := by
  unfold level_loop
  split
  · exact C.assign_loop hE fuel c node
  · exact C.equality_loop hE fuel c node
  · exact C.relational_loop hE fuel c node
  · exact C.add_loop hE fuel c node
  · exact C.multiply_loop hE fuel c node

/-- The loops of `assign`, `equality`, `relational`, `add` and `multiply`: a
run that returns has either made no turn, and hands back its node in the state
it found, or has moved the cursor. -/
theorem level_loop_turn {E : Parser Node}
    (hE : Preserves (fun st st' => st'.token <:+ st.token) Node E) (fuel k c : Nat)
    (hk : k ≤ 4) {node x : Node} {st st' : State}
    (h : level_loop E fuel k (c + 1) node st = .ok (x, st')) :
    (x = node ∧ st' = st) ∨ st'.token.length < st.token.length := by
  have C := cursor_suffix_closed
  rcases level_loop_cases E fuel k c node st hk with
    ⟨_, hnull⟩ | ⟨token, next, hs, ⟨op, hlevel, hop, hhit⟩ | ⟨_, hstop⟩⟩
  · rw [hnull] at h
    exact absurd h (by simp)
  · rw [hhit] at h
    right
    have hsuf := (C.bind _ _ _ _ (closed_at_level C hE fuel (k + 1))
      (fun rhs => closed_level_loop C hE fuel k c (op.build node rhs)) _ _ _ h).length_le
    rw [hs]
    simp only [List.length_cons]
    exact Nat.lt_succ_of_le hsuf
  · rw [hstop] at h
    simp only [Except.ok.injEq, Prod.mk.injEq] at h
    exact Or.inl ⟨h.1.symm, h.2.symm⟩

/-- The loop of `argument`: a run that returns has either made no turn or has
moved the cursor. -/
theorem argument_loop_turn {E : Parser Node}
    (hE : Preserves (fun st st' => st'.token <:+ st.token) Node E) (c : Nat)
    {list result : List Node} {st st' : State}
    (h : argument_loop E (c + 1) list st = .ok (result, st')) :
    (result = list ∧ st' = st) ∨ st'.token.length < st.token.length := by
  have C := cursor_suffix_closed
  unfold Azcc.argument_loop at h
  obtain ⟨b, s1, h1, h2⟩ := bind_ok.mp h
  obtain ⟨token, next, hs, ⟨_, rfl, rfl⟩ | ⟨_, rfl, rfl⟩⟩ := consume_ok h1
  · right
    simp only [if_true] at h2
    have hsuf := (C.bind _ _ _ _ hE
      (fun node => C.argument_loop hE c (new_list_node node list)) _ _ _ h2).length_le
    rw [hs]
    simp only [List.length_cons]
    exact Nat.lt_succ_of_le hsuf
  · simp only [Bool.false_eq_true, if_false] at h2
    obtain ⟨rfl, rfl⟩ := pure_ok.mp h2
    exact Or.inl ⟨rfl, rfl⟩

/-- The loop of `compound_statement`: a run that returns has taken the closing
brace. -/
theorem compound_statement_loop_turn {S : Parser StatementUnion}
    (hS : Preserves (fun st st' => st'.token <:+ st.token) StatementUnion S) :
    ∀ (c : Nat) {node result : List StatementUnion} {st st' : State},
      compound_statement_loop S c node st = .ok (result, st') →
      st'.token.length < st.token.length := by
  intro c
  induction c with
  | zero =>
    intro node result st st' h
    simp [compound_statement_loop, Parser.fail] at h
  | succ c ih =>
    intro node result st st' h
    unfold Azcc.compound_statement_loop at h
    obtain ⟨b, s1, h1, h2⟩ := bind_ok.mp h
    obtain ⟨token, next, hs, ⟨_, rfl, rfl⟩ | ⟨_, rfl, rfl⟩⟩ := consume_ok h1
    · simp only [Bool.not_true, Bool.false_eq_true, if_false] at h2
      obtain ⟨_, rfl⟩ := pure_ok.mp h2
      rw [hs]
      simp
    · simp only [Bool.not_false, if_true] at h2
      obtain ⟨s, s2, h3, h4⟩ := bind_ok.mp h2
      exact lt_of_lt_of_le (ih h4) (hS _ _ _ h3).length_le

/-- The loop of `program`: a run that returns has either made no turn or has
moved the cursor. -/
theorem program_loop_turn (fuel c : Nat) {current result : List StatementUnion}
    {st st' : State} (h : program_loop fuel (c + 1) current st = .ok (result, st')) :
    (result = current ∧ st' = st) ∨ st'.token.length < st.token.length := by
  have C := cursor_suffix_closed
  unfold Azcc.program_loop at h
  obtain ⟨b, s1, h1, h2⟩ := bind_ok.mp h
  obtain ⟨token, next, hs, rfl, rfl⟩ := at_eof_ok h1
  by_cases hk : token.kind = .TOKEN_EOF
  · simp only [hk, decide_True, Bool.not_true, Bool.false_eq_true, if_false] at h2
    obtain ⟨rfl, rfl⟩ := pure_ok.mp h2
    exact Or.inl ⟨rfl, rfl⟩
  · simp only [hk, decide_False, Bool.not_false, if_true] at h2
    obtain ⟨s, s2, h3, h4⟩ := bind_ok.mp h2
    exact Or.inr (lt_of_le_of_lt (C.program_loop fuel c _ _ _ _ h4).length_le
      (statement_advances fuel _ _ _ h3))

/-- On a list that ends in EOF `parse` returns or reports an error through
`error_at`, given fuel. -/
theorem parse_outcome {fuel : Nat} {head : List Token} (st : State)
    (hfuel : head.length + 3 ≤ fuel) (hhead : ends_in_eof head) :
    (∃ ast st', parse fuel head st = .ok (ast, st')) ∨
    (∃ op, parse fuel head st = .error (.not_op op)) ∨
    parse fuel head st = .error .not_number := by
  have h1 := parse_finishes fuel head st hfuel
  have h2 := (guarded_closed.program_loop fuel fuel []
    { token := head, localVariableTable := new_hash_table, currentOffset := 0 } hhead).1
  have h2' : parse fuel head st ≠ .error .null_token := h2
  cases h : parse fuel head st with
  | ok p => exact Or.inl ⟨p.1, p.2, rfl⟩
  | error e =>
    rw [h] at h1 h2'
    cases e with
    | not_op op => exact Or.inr (Or.inl ⟨op, rfl⟩)
    | not_number => exact Or.inr (Or.inr rfl)
    | null_token => exact absurd rfl h2'
    | out_of_fuel => exact absurd rfl h1

/-! ## The statements read the tokens -/

theorem Agrees.of_extends {ρ : List Char → Int} {T T' : HashTable} (h : Agrees ρ T')
    (he : Extends T T') : Agrees ρ T :=
  fun key v hf => h key v (he key v hf)

theorem reading_pure {α : Type} {Q : (List Char → Int) → List Token → α → Prop} {a : α}
    (h : ∀ ρ, Q ρ [] a) : Reading Q (pure a) := by
  intro st b st' hrun
  obtain ⟨rfl, rfl⟩ := pure_ok.mp hrun
  exact ⟨Extends.refl _, [], rfl, fun ρ _ => h ρ⟩

theorem reading_fail {α : Type} (Q : (List Char → Int) → List Token → α → Prop) (e : Error) :
    Reading Q (Parser.fail e) := by
  intro st a st' h
  simp [Parser.fail] at h

theorem reading_weaken {α : Type} {P Q : (List Char → Int) → List Token → α → Prop}
    {f : Parser α} (hf : Reading P f) (h : ∀ ρ c a, P ρ c a → Q ρ c a) : Reading Q f := by
  intro st a st' hrun
  obtain ⟨e, c, hc, p⟩ := hf st a st' hrun
  exact ⟨e, c, hc, fun ρ hρ => h ρ c a (p ρ hρ)⟩

theorem reading_bind {α β : Type} {P : (List Char → Int) → List Token → α → Prop}
    {Q : (List Char → Int) → List Token → β → Prop} {f : Parser α} {g : α → Parser β}
    (hf : Reading P f)
    (hg : ∀ a, Reading (fun ρ c2 b => ∀ c1, P ρ c1 a → Q ρ (c1 ++ c2) b) (g a)) :
    Reading Q (f >>= g) := by
  intro st b st' hrun
  obtain ⟨a, s1, h1, h2⟩ := bind_ok.mp hrun
  obtain ⟨e1, c1, hc1, p1⟩ := hf st a s1 h1
  obtain ⟨e2, c2, hc2, p2⟩ := hg a s1 b st' h2
  refine ⟨e1.trans e2, c1 ++ c2, by rw [hc1, hc2, List.append_assoc], fun ρ hρ => ?_⟩
  exact p2 ρ hρ c1 (p1 ρ (hρ.of_extends e2))

theorem reading_consume {β : Type} {Q : (List Char → Int) → List Token → β → Prop}
    {op : String} {g : Bool → Parser β} (hmiss : Reading Q (g false))
    (hhit : Reading (fun ρ c b => ∀ t : Token, t.is_op op → Q ρ (t :: c) b) (g true)) :
    Reading Q (consume op >>= g) := by
  intro st b st' hrun
  obtain ⟨r, s1, h1, h2⟩ := bind_ok.mp hrun
  obtain ⟨token, next, hs, ⟨hop, rfl, rfl⟩ | ⟨_, rfl, rfl⟩⟩ := consume_ok h1
  · obtain ⟨e, c, hc, p⟩ := hhit _ _ _ h2
    have hc' : next = c ++ st'.token := hc
    exact ⟨e, token :: c, by rw [hs, hc', List.cons_append], fun ρ hρ => p ρ hρ token hop⟩
  · exact hmiss _ _ _ h2

theorem reading_expect {β : Type} {Q : (List Char → Int) → List Token → β → Prop}
    {op : String} {g : Unit → Parser β}
    (h : Reading (fun ρ c b => ∀ t : Token, t.is_op op → Q ρ (t :: c) b) (g ())) :
    Reading Q (expect op >>= g) := by
  intro st b st' hrun
  obtain ⟨r, s1, h1, h2⟩ := bind_ok.mp hrun
  obtain ⟨token, next, hs, hop, rfl⟩ := expect_ok h1
  obtain ⟨e, c, hc, p⟩ := h _ _ _ h2
  have hc' : next = c ++ st'.token := hc
  exact ⟨e, token :: c, by rw [hs, hc', List.cons_append], fun ρ hρ => p ρ hρ token hop⟩

theorem reading_expect_number {β : Type} {Q : (List Char → Int) → List Token → β → Prop}
    {g : Int → Parser β}
    (h : ∀ t : Token, Reading (fun ρ c b => t.kind = .TOKEN_NUMBER → Q ρ (t :: c) b)
      (g t.value)) :
    Reading Q (expect_number >>= g) := by
  intro st b st' hrun
  obtain ⟨r, s1, h1, h2⟩ := bind_ok.mp hrun
  obtain ⟨token, next, hs, hk, rfl, rfl⟩ := expect_number_ok h1
  obtain ⟨e, c, hc, p⟩ := h token _ _ _ h2
  have hc' : next = c ++ st'.token := hc
  exact ⟨e, token :: c, by rw [hs, hc', List.cons_append], fun ρ hρ => p ρ hρ hk⟩

theorem reading_consume_identifier {β : Type}
    {Q : (List Char → Int) → List Token → β → Prop} {g : Option Token → Parser β}
    (hnone : Reading Q (g none))
    (hsome : ∀ t : Token,
      Reading (fun ρ c b => t.kind = .TOKEN_IDENTIFIER → Q ρ (t :: c) b) (g (some t))) :
    Reading Q (consume_identifier >>= g) := by
  intro st b st' hrun
  obtain ⟨r, s1, h1, h2⟩ := bind_ok.mp hrun
  obtain ⟨token, next, hs, ⟨hk, rfl, rfl⟩ | ⟨_, rfl, rfl⟩⟩ := consume_identifier_ok h1
  · obtain ⟨e, c, hc, p⟩ := hsome token _ _ _ h2
    have hc' : next = c ++ st'.token := hc
    exact ⟨e, token :: c, by rw [hs, hc', List.cons_append], fun ρ hρ => p ρ hρ hk⟩
  · exact hnone _ _ _ h2

theorem reading_at_eof {β : Type} {Q : (List Char → Int) → List Token → β → Prop}
    {g : Bool → Parser β} (h : ∀ b, Reading Q (g b)) : Reading Q (at_eof >>= g) := by
  intro st b st' hrun
  obtain ⟨r, s1, h1, h2⟩ := bind_ok.mp hrun
  obtain ⟨_, _, _, _, rfl⟩ := at_eof_ok h1
  exact h r _ _ _ h2

/-- Source `new_node_lvar`: the node is the LVAR of the offset that every
offset function agreeing with the table left gives the lexeme. -/
theorem reading_new_node_lvar (t : Token) {Q : (List Char → Int) → List Token → Node → Prop}
    (h : ∀ ρ, Q ρ [] (.lvar (ρ t.lexeme))) : Reading Q (new_node_lvar t) := by
  intro st node st' hrun
  rcases new_node_lvar_ok hrun with ⟨v, hv, rfl, rfl⟩ | ⟨hv, rfl, rfl⟩
  · refine ⟨Extends.refl _, [], rfl, fun ρ hρ => ?_⟩
    rw [← hρ _ _ hv]
    exact h ρ
  · refine ⟨?_, [], rfl, fun ρ hρ => ?_⟩
    · intro key v hkv
      simp only [hash_table_store, hash_table_find]
      by_cases hkey : t.lexeme = key
      · rw [← hkey, hv] at hkv
        cases hkv
      · simp [hkey, hkv]
    · have hfind : hash_table_find
          (hash_table_store st.localVariableTable t.lexeme
            { name := t.lexeme, offset := int_wrap (st.currentOffset + 8) }) t.lexeme
          = some { name := t.lexeme, offset := int_wrap (st.currentOffset + 8) } := by
        simp [hash_table_store, hash_table_find]
      have hval := hρ _ _ hfind
      simp only [] at hval
      rw [← hval]
      exact h ρ

theorem reading_argument_loop {E : Parser Node} (hE : Reading Reads E) :
    ∀ (n : Nat) (list : List Node),
      Reading (fun ρ c r => ∀ c0, ReadsArguments ρ c0 list → ReadsArguments ρ (c0 ++ c) r)
        (argument_loop E n list) := by
  intro n
  induction n with
  | zero => intro list; exact reading_fail _ _
  | succ n ih =>
    intro list
    unfold Azcc.argument_loop
    refine reading_consume ?_ ?_
    · refine reading_pure ?_
      intro ρ c0 h0
      rw [List.append_nil]
      exact h0
    · refine reading_bind hE ?_
      intro node
      refine reading_weaken (ih (new_list_node node list)) ?_
      intro ρ c2 r hr c1 h1 comma hcomma c0 h0
      have h := hr (c0 ++ comma :: c1) (ReadsArguments.next c0 comma c1 list node h0 hcomma h1)
      simpa [List.append_assoc] using h

theorem reading_argument {E : Parser Node} (hE : Reading Reads E) (fuel : Nat) :
    Reading ReadsArguments (argument E fuel) := by
  unfold Azcc.argument
  refine reading_bind hE ?_
  intro node
  refine reading_weaken (reading_argument_loop hE fuel (new_list_node node [])) ?_
  intro ρ c2 r hr c1 h1
  exact hr c1 (ReadsArguments.first c1 node h1)

theorem reading_primary {E : Parser Node} (hE : Reading Reads E) (fuel : Nat) :
    Reading Reads (primary E fuel) := by
  unfold Azcc.primary
  refine reading_consume ?_ ?_
  · refine reading_consume_identifier ?_ ?_
    · refine reading_expect_number fun t => reading_pure ?_
      intro ρ hk
      exact Reads.number t hk
    · intro identifier
      refine reading_consume ?_ ?_
      · exact reading_new_node_lvar identifier fun ρ hk => Reads.reference identifier hk
      · refine reading_consume ?_ ?_
        · refine reading_bind (reading_argument hE fuel) ?_
          intro arguments
          refine reading_expect (reading_pure ?_)
          intro ρ close hclose c1 hargs o ho hk
          exact Reads.call identifier o close c1 arguments hk ho hclose hargs
        · refine reading_pure ?_
          intro ρ close hclose o ho hk
          exact Reads.call_empty identifier o close hk ho hclose
  · refine reading_bind hE ?_
    intro node
    refine reading_expect (reading_pure ?_)
    intro ρ close hclose c1 h1 o ho
    exact Reads.parenthesis o close c1 node ho hclose h1

theorem reading_unary {E : Parser Node} (hE : Reading Reads E) (fuel : Nat) :
    Reading Reads (unary E fuel) := by
  unfold Azcc.unary
  refine reading_consume ?_ ?_
  · refine reading_consume ?_ ?_
    · exact reading_primary hE fuel
    · refine reading_bind (reading_primary hE fuel) ?_
      intro node
      refine reading_pure ?_
      intro ρ c1 h1 sign hsign
      rw [List.append_nil]
      exact Reads.minus sign c1 node hsign h1
  · refine reading_weaken (reading_primary hE fuel) ?_
    intro ρ c node h sign hsign
    exact Reads.plus sign c node hsign h

/-- The loop of a level, given the expression function of the level above. -/
theorem reading_level_loop {E : Parser Node} (fuel k : Nat) (hk : k ≤ 4)
    (hup : Reading Reads (at_level E fuel (k + 1))) :
    ∀ (n : Nat) (node : Node),
      Reading (fun ρ c r => ∀ c0, Reads ρ c0 node → Reads ρ (c0 ++ c) r)
        (level_loop E fuel k n node) := by
  intro n
  induction n with
  | zero =>
    intro node
    rw [level_loop_zero]
    exact reading_fail _ _
  | succ n ih =>
    intro node st a st' hrun
    rcases level_loop_cases E fuel k n node st hk with
      ⟨_, hnull⟩ | ⟨token, next, hs, ⟨op, hlevel, hop, hhit⟩ | ⟨_, hstop⟩⟩
    · rw [hnull] at hrun
      exact absurd hrun (by simp)
    · rw [hhit] at hrun
      have hrest : Reading
          (fun ρ c r => ∀ c0, Reads ρ c0 node → Reads ρ (c0 ++ token :: c) r)
          (at_level E fuel (k + 1) >>= fun rhs =>
            level_loop E fuel k n (op.build node rhs)) := by
        refine reading_bind hup ?_
        intro rhs
        refine reading_weaken (ih (op.build node rhs)) ?_
        intro ρ c2 r hr c1 h1 c0 h0
        have h := hr (c0 ++ token :: c1) (Reads.binary op token c0 c1 node rhs hop h0 h1)
        simpa [List.append_assoc] using h
      obtain ⟨e, c, hc, p⟩ := hrest { st with token := next } a st' hrun
      have hc' : next = c ++ st'.token := hc
      exact ⟨e, token :: c, by rw [hs, hc', List.cons_append], p⟩
    · rw [hstop] at hrun
      obtain ⟨rfl, rfl⟩ : a = node ∧ st' = st := by
        simp only [Except.ok.injEq, Prod.mk.injEq] at hrun
        exact ⟨hrun.1.symm, hrun.2.symm⟩
      refine ⟨Extends.refl _, [], rfl, fun ρ _ c0 h0 => ?_⟩
      rw [List.append_nil]
      exact h0

theorem reading_at_level {E : Parser Node} (hE : Reading Reads E) (fuel : Nat) :
    ∀ (d k : Nat), k + d = 5 → Reading Reads (at_level E fuel k) := by
  intro d
  induction d with
  | zero =>
    intro k hk
    rw [at_level_unary E fuel k (by omega)]
    exact reading_unary hE fuel
  | succ d ih =>
    intro k hk
    rw [at_level_eq E fuel k (by omega)]
    refine reading_bind (ih (k + 1) (by omega)) ?_
    intro node
    refine reading_weaken
      (reading_level_loop fuel k (by omega) (ih (k + 1) (by omega)) fuel node) ?_
    intro ρ c2 r hr c1 h1
    exact hr c1 h1

theorem reading_expression : ∀ fuel : Nat, Reading Reads (expression fuel) := by
  intro fuel
  induction fuel with
  | zero => exact reading_fail _ _
  | succ n ih => exact reading_at_level ih n 5 0 rfl
theorem reads_after_dropped {ρ : List Char → Int} {c ts : List Token} {s : StatementUnion}
    (hc : dropped_keyword c) (h : ReadsStatement ρ ts s) : ReadsStatement ρ (c ++ ts) s := by
  rcases hc with rfl | ⟨kw, rfl, hkw⟩
  · exact h
  · exact ReadsStatement.keyword_dropped kw ts s hkw h

theorem reading_expression_statement (fuel : Nat) :
    Reading (fun ρ c (s : ExpressionStatement) => ReadsStatement ρ c (.expressionStatement s))
      (expression_statement fuel) := by
  unfold Azcc.expression_statement
  refine reading_bind (reading_expression fuel) ?_
  intro node
  refine reading_expect (reading_pure ?_)
  intro ρ semicolon hsemi c1 h1
  exact ReadsStatement.expression c1 semicolon node hsemi h1

theorem reading_return_statement (fuel : Nat) :
    Reading (reads_option StatementUnion.returnStatement) (return_statement fuel) := by
  unfold Azcc.return_statement
  refine reading_consume ?_ ?_
  · exact reading_pure fun ρ => Or.inl rfl
  · refine reading_bind (reading_expression fuel) ?_
    intro node
    refine reading_expect (reading_pure ?_)
    intro ρ semicolon hsemi c1 h1 kw hkw
    exact ReadsStatement.returning kw c1 semicolon node hkw hsemi h1

theorem reading_if_statement {S : Parser StatementUnion} (hS : Reading ReadsStatement S)
    (fuel : Nat) :
    Reading (reads_option StatementUnion.ifStatement) (if_statement S fuel) := by
  unfold Azcc.if_statement
  refine reading_consume ?_ ?_
  · exact reading_pure fun ρ => Or.inl rfl
  · refine reading_consume ?_ ?_
    · exact reading_pure fun ρ kw hkw => Or.inr ⟨kw, rfl, Or.inl hkw⟩
    · refine reading_bind (reading_expression fuel) ?_
      intro condition
      refine reading_expect ?_
      refine reading_bind hS ?_
      intro thenStatement
      refine reading_consume ?_ ?_
      · refine reading_pure ?_
        intro ρ ts hts close hclose tc hcond o ho kw hkw
        rw [List.append_nil]
        exact ReadsStatement.conditional kw o close tc ts condition thenStatement
          hkw ho hclose hcond hts
      · refine reading_bind hS ?_
        intro elseStatement
        refine reading_pure ?_
        intro ρ te hte e he ts hts close hclose tc hcond o ho kw hkw
        rw [List.append_nil]
        exact ReadsStatement.conditional_else kw o close e tc ts te condition thenStatement
          elseStatement hkw ho hclose he hcond hts hte

theorem reading_while_statement {S : Parser StatementUnion} (hS : Reading ReadsStatement S)
    (fuel : Nat) :
    Reading (reads_option StatementUnion.whileStatement) (while_statement S fuel) := by
  unfold Azcc.while_statement
  refine reading_consume ?_ ?_
  · exact reading_pure fun ρ => Or.inl rfl
  · refine reading_consume ?_ ?_
    · exact reading_pure fun ρ kw hkw => Or.inr ⟨kw, rfl, Or.inr (Or.inl hkw)⟩
    · refine reading_bind (reading_expression fuel) ?_
      intro condition
      refine reading_expect ?_
      refine reading_bind hS ?_
      intro body
      refine reading_pure ?_
      intro ρ ts hts close hclose tc hcond o ho kw hkw
      rw [List.append_nil]
      exact ReadsStatement.while_loop kw o close tc ts condition body hkw ho hclose hcond hts

theorem reading_for_statement {S : Parser StatementUnion} (hS : Reading ReadsStatement S)
    (fuel : Nat) :
    Reading (reads_option StatementUnion.forStatement) (for_statement S fuel) := by
  unfold Azcc.for_statement
  refine reading_consume ?_ ?_
  · exact reading_pure fun ρ => Or.inl rfl
  · refine reading_consume ?_ ?_
    · exact reading_pure fun ρ kw hkw => Or.inr ⟨kw, rfl, Or.inr (Or.inr hkw)⟩
    · refine reading_bind (reading_expression fuel) ?_
      intro initialization
      refine reading_expect ?_
      refine reading_bind (reading_expression fuel) ?_
      intro condition
      refine reading_expect ?_
      refine reading_bind (reading_expression fuel) ?_
      intro afterthought
      refine reading_expect ?_
      refine reading_bind hS ?_
      intro body
      refine reading_pure ?_
      intro ρ ts hts close hclose t3 h3 s2 hs2 t2 h2 s1 hs1 t1 h1 o ho kw hkw
      rw [List.append_nil]
      exact ReadsStatement.for_loop kw o s1 s2 close t1 t2 t3 ts initialization condition
        afterthought body hkw ho hs1 hs2 hclose h1 h2 h3 hts

theorem reading_compound_statement_loop {S : Parser StatementUnion}
    (hS : Reading ReadsStatement S) :
    ∀ (n : Nat) (node : List StatementUnion),
      Reading (fun ρ c r => ∀ c0, ReadsStatements ρ c0 node →
          ∃ ts close, c0 ++ c = ts ++ [close] ∧ close.is_op "\x7d" ∧ ReadsStatements ρ ts r)
        (compound_statement_loop S n node) := by
  intro n
  induction n with
  | zero => intro node; exact reading_fail _ _
  | succ n ih =>
    intro node
    unfold Azcc.compound_statement_loop
    refine reading_consume ?_ ?_
    · refine reading_bind hS ?_
      intro s
      refine reading_weaken (ih (new_list_node s node)) ?_
      intro ρ c2 r hr c1 h1 c0 h0
      obtain ⟨ts, close, hts, hclose, hread⟩ :=
        hr (c0 ++ c1) (ReadsStatements.more c0 c1 node s h0 h1)
      exact ⟨ts, close, by rw [← hts, List.append_assoc], hclose, hread⟩
    · refine reading_pure ?_
      intro ρ close hclose c0 h0
      exact ⟨c0, close, rfl, hclose, h0⟩

theorem reading_compound_statement {S : Parser StatementUnion}
    (hS : Reading ReadsStatement S) (fuel : Nat) :
    Reading (reads_option StatementUnion.compoundStatement) (compound_statement S fuel) := by
  unfold Azcc.compound_statement
  refine reading_consume ?_ ?_
  · exact reading_pure fun ρ => Or.inl rfl
  · refine reading_bind (reading_compound_statement_loop hS fuel []) ?_
    intro list
    refine reading_pure ?_
    intro ρ c1 h1 o ho
    obtain ⟨ts, close, hts, hclose, hread⟩ := h1 [] ReadsStatements.empty
    rw [List.append_nil]
    rw [List.nil_append] at hts
    rw [hts]
    exact ReadsStatement.compound o close ts list ho hclose hread

theorem reading_statement : ∀ fuel : Nat, Reading ReadsStatement (statement fuel) := by
  intro fuel
  induction fuel with
  | zero => exact reading_fail _ _
  | succ n ih =>
    unfold Azcc.statement
    refine reading_bind (reading_return_statement n) ?_
    intro r
    cases r with
    | some returnPattern =>
      refine reading_pure ?_
      intro ρ c1 h1
      rw [List.append_nil]
      exact h1
    | none =>
    refine reading_bind (reading_if_statement ih n) ?_
    intro r
    cases r with
    | some ifPattern =>
      refine reading_pure ?_
      intro ρ c2 h2 c1 d1
      rw [List.append_nil]
      exact reads_after_dropped d1 h2
    | none =>
    refine reading_bind (reading_while_statement ih n) ?_
    intro r
    cases r with
    | some whilePattern =>
      refine reading_pure ?_
      intro ρ c3 h3 c2 d2 c1 d1
      rw [List.append_nil]
      exact reads_after_dropped d1 (reads_after_dropped d2 h3)
    | none =>
    refine reading_bind (reading_for_statement ih n) ?_
    intro r
    cases r with
    | some forPattern =>
      refine reading_pure ?_
      intro ρ c4 h4 c3 d3 c2 d2 c1 d1
      rw [List.append_nil]
      exact reads_after_dropped d1 (reads_after_dropped d2 (reads_after_dropped d3 h4))
    | none =>
    refine reading_bind (reading_compound_statement ih n) ?_
    intro r
    cases r with
    | some compoundPattern =>
      refine reading_pure ?_
      intro ρ c5 h5 c4 d4 c3 d3 c2 d2 c1 d1
      rw [List.append_nil]
      exact reads_after_dropped d1 (reads_after_dropped d2 (reads_after_dropped d3
        (reads_after_dropped d4 h5)))
    | none =>
    refine reading_bind (reading_expression_statement n) ?_
    intro expressionPattern
    refine reading_pure ?_
    intro ρ c6 h6 c5 d5 c4 d4 c3 d3 c2 d2 c1 d1
    rw [List.append_nil]
    exact reads_after_dropped d1 (reads_after_dropped d2 (reads_after_dropped d3
      (reads_after_dropped d4 (reads_after_dropped d5 h6))))

theorem reading_program_loop (fuel : Nat) :
    ∀ (n : Nat) (current : List StatementUnion),
      Reading (fun ρ c r => ∀ c0, ReadsStatements ρ c0 current → ReadsStatements ρ (c0 ++ c) r)
        (program_loop fuel n current) := by
  intro n
  induction n with
  | zero => intro current; exact reading_fail _ _
  | succ n ih =>
    intro current
    unfold Azcc.program_loop
    refine reading_at_eof fun b => ?_
    cases b
    · refine reading_bind (reading_statement fuel) ?_
      intro s
      refine reading_weaken (ih (new_list_node s current)) ?_
      intro ρ c2 r hr c1 h1 c0 h0
      have h := hr (c0 ++ c1) (ReadsStatements.more c0 c1 current s h0 h1)
      rw [List.append_assoc] at h
      exact h
    · refine reading_pure ?_
      intro ρ c0 h0
      rw [List.append_nil]
      exact h0

/-- The statements `parse` returns read the tokens the cursor has moved over,
every variable reference as the LVAR of the offset the final table binds its
lexeme to. -/
theorem reads_parse {fuel : Nat} {head : List Token} {st st' : State}
    {ast : List StatementUnion} (h : parse fuel head st = .ok (ast, st')) :
    ∃ consumed, head = consumed ++ st'.token ∧
      ∀ ρ, Agrees ρ st'.localVariableTable → ReadsStatements ρ consumed ast := by
  obtain ⟨_, c, hc, p⟩ := reading_program_loop fuel fuel [] _ _ _ (parse_ok h)
  exact ⟨c, hc, fun ρ hρ => p ρ hρ [] ReadsStatements.empty⟩

theorem index_of_lt {name : List Char} {L : List (List Char)} (h : name ∈ L) :
    index_of name L < L.length := by
  induction L with
  | nil => simp at h
  | cons a rest ih =>
    unfold index_of
    by_cases ha : a = name
    · simp [ha]
    · simp only [ha, if_false, List.length_cons]
      have hmem : name ∈ rest := by
        rcases List.mem_cons.mp h with h | h
        · exact absurd h.symm ha
        · exact h
      exact Nat.succ_lt_succ (ih hmem)

theorem index_of_get {L : List (List Char)} (hL : L.Nodup) (i : Nat) (hi : i < L.length) :
    index_of (L.get ⟨i, hi⟩) L = i := by
  induction L generalizing i with
  | nil => simp at hi
  | cons a rest ih =>
    rw [List.nodup_cons] at hL
    cases i with
    | zero => simp [index_of]
    | succ j =>
      have hj : j < rest.length := by simpa using hi
      have hget : (a :: rest).get ⟨j + 1, hi⟩ = rest.get ⟨j, hj⟩ := rfl
      rw [hget]
      unfold index_of
      have hne : a ≠ rest.get ⟨j, hj⟩ := fun h => hL.1 (by rw [h]; exact List.get_mem rest j hj)
      simp only [hne, if_false]
      rw [ih hL.2 j hj]

theorem get_index_of {name : List Char} {L : List (List Char)} (h : name ∈ L) :
    L.get ⟨index_of name L, index_of_lt h⟩ = name := by
  induction L with
  | nil => simp at h
  | cons a rest ih =>
    by_cases ha : a = name
    · simp [index_of, ha]
    · have hmem : name ∈ rest := by
        rcases List.mem_cons.mp h with h | h
        · exact absurd h.symm ha
        · exact h
      have hidx : index_of name (a :: rest) = index_of name rest + 1 := by
        simp [index_of, ha]
      have := ih hmem
      simp only [List.get_eq_getElem] at this ⊢
      simp only [hidx, List.getElem_cons_succ]
      exact this

/-- While 8 times the number of names is in the range of `int`, the table of
the names in first-use order binds the `i`-th name (from 0) to
`8 * (i + 1)`. -/
theorem find_first_use {names : List (List Char)}
    (hfit : 8 * ((first_uses names).length : Int) ≤ 2147483647) (i : Nat)
    (hi : i < (first_uses names).length) :
    hash_table_find (table_of_reversed (first_uses names).reverse)
        ((first_uses names).get ⟨i, hi⟩)
      = some { name := (first_uses names).get ⟨i, hi⟩, offset := 8 * ((i : Int) + 1) } := by
  rw [find_table_of_reversed _ (nodup_first_uses names) i hi,
    int_wrap_of_fits (by omega) (by omega)]

/-- While 8 times the number of names is in the range of `int`, the offsets in
first-use order agree with the table of the names in first-use order. -/
theorem agrees_first_use {names : List (List Char)}
    (hfit : 8 * ((first_uses names).length : Int) ≤ 2147483647) :
    Agrees (first_use_offset names) (table_of_reversed (first_uses names).reverse) := by
  intro key v hfind
  have hmem : key ∈ first_uses names := by
    by_contra hno
    have hnone := (find_table_of_reversed_none (first_uses names).reverse key).mpr
      (by simpa using hno)
    rw [hnone] at hfind
    cases hfind
  have h := find_first_use hfit _ (index_of_lt hmem)
  rw [get_index_of hmem, hfind] at h
  simp only [Option.some.injEq] at h
  rw [h]
  rfl

/-- The offset of the `i`-th distinct name (from 0) is `8 * (i + 1)`. -/
theorem first_use_offset_get (names : List (List Char)) (i : Nat)
    (hi : i < (first_uses names).length) :
    first_use_offset names ((first_uses names).get ⟨i, hi⟩) = 8 * ((i : Int) + 1) := by
  unfold first_use_offset
  rw [index_of_get (nodup_first_uses names) i hi]

/-- Two names of the list have the same offset in first-use order only when
they are equal. -/
theorem first_use_offset_inj {names : List (List Char)} {n m : List Char}
    (hn : n ∈ names) (hm : m ∈ names) :
    first_use_offset names n = first_use_offset names m ↔ n = m := by
  constructor
  · intro h
    unfold first_use_offset at h
    have hidx : index_of n (first_uses names) = index_of m (first_uses names) := by omega
    have h1 := get_index_of ((mem_first_uses names n).mpr hn)
    have h2 := get_index_of ((mem_first_uses names m).mpr hm)
    rw [← h1, ← h2]
    congr 1
    exact Fin.ext hidx
  · rintro rfl
    rfl

theorem agrees_bound_offset (T : HashTable) : Agrees (bound_offset T) T := by
  intro key v hfind
  simp only [bound_offset, hfind]

/-! ## The properties of the specification -/

/-! ### C1: chained assignment -/

/-- C1 (defect of `assign`): on `a = b = c ;` the loop of `assign` folds to
the left, so the statement's node is ASSIGN(ASSIGN(LVAR a, LVAR b), LVAR c),
which is not the tree ASSIGN(LVAR a, ASSIGN(LVAR b, LVAR c)) of the grammar
`assign = equality ("=" assign)?`. -/
theorem parse_assign_chain_folds_left :
    returned (parse 9
        [ident "a", reserved "=", ident "b", reserved "=", ident "c", reserved ";", eof]
        State.initial)
      = some [.expressionStatement
          ⟨.binary .NODE_ASSIGN (.binary .NODE_ASSIGN (.lvar 8) (.lvar 16)) (.lvar 24)⟩] ∧
    returned (parse 9
        [ident "a", reserved "=", ident "b", reserved "=", ident "c", reserved ";", eof]
        State.initial)
      ≠ some [.expressionStatement
          ⟨.binary .NODE_ASSIGN (.lvar 8) (.binary .NODE_ASSIGN (.lvar 16) (.lvar 24))⟩] := by
  have h : returned (parse 9
        [ident "a", reserved "=", ident "b", reserved "=", ident "c", reserved ";", eof]
        State.initial)
      = some [.expressionStatement
          ⟨.binary .NODE_ASSIGN (.binary .NODE_ASSIGN (.lvar 8) (.lvar 16)) (.lvar 24)⟩] := rfl
  refine ⟨h, ?_⟩
  rw [h]
  simp

/-! ### C2: greater-than lowering -/

/-- C2 (counterexample): from a fresh state `a > b ;` gives LT(LVAR@16, LVAR@8)
and `b < a ;` gives LT(LVAR@8, LVAR@16): the two trees differ in their LVAR
offsets. -/
theorem parse_gt_differs_from_swapped_lt :
    returned (parse 9 [ident "a", reserved ">", ident "b", reserved ";", eof] State.initial)
      = some [.expressionStatement ⟨.binary .NODE_LT (.lvar 16) (.lvar 8)⟩] ∧
    returned (parse 9 [ident "b", reserved "<", ident "a", reserved ";", eof] State.initial)
      = some [.expressionStatement ⟨.binary .NODE_LT (.lvar 8) (.lvar 16)⟩] ∧
    returned (parse 9 [ident "a", reserved ">", ident "b", reserved ";", eof] State.initial)
      ≠ returned (parse 9 [ident "b", reserved "<", ident "a", reserved ";", eof]
          State.initial) := by
  have h1 : returned
      (parse 9 [ident "a", reserved ">", ident "b", reserved ";", eof] State.initial)
      = some [.expressionStatement ⟨.binary .NODE_LT (.lvar 16) (.lvar 8)⟩] := rfl
  have h2 : returned
      (parse 9 [ident "b", reserved "<", ident "a", reserved ";", eof] State.initial)
      = some [.expressionStatement ⟨.binary .NODE_LT (.lvar 8) (.lvar 16)⟩] := rfl
  refine ⟨h1, h2, ?_⟩
  rw [h1, h2]
  simp

/-- C2 (amended): for operands `a`, `b` that `add` parses in `a > b ; EOF`,
to the nodes `A` and `B`, `parse` returns for `a > b ;` the one statement
EXPRESSION(LT(B, A)) and for `b < a ;` the one statement EXPRESSION(LT(B', A'))
where `A'`, `B'` are `A`, `B` up to LVAR offsets: the two trees have the same
node kinds, the same children, the same NUM values and the same called names,
and differ at most in LVAR offsets (likewise LE for `a >= b ;` and
`b <= a ;`).  The second stream is any stream of another source text: its
operand tokens `a'`, `b'` are alike those of `a`, `b` (same kinds, lexemes and
number values), its semicolon and sentinel are its own.  For operands that are
number or identifier tokens the two trees are identical unless `a` and `b` are
identifiers with different lexemes; then the offsets follow the order of first
use in each stream, LT(LVAR@16, LVAR@8) for `a > b ;` and LT(LVAR@8, LVAR@16)
for `b < a ;`. -/
theorem gt_lowering_up_to_offsets (g l : Op)
    (hpair : (g = Op.gt ∧ l = Op.lt) ∨ (g = Op.ge ∧ l = Op.le))
    (fuel : Nat) (hfuel : 2 ≤ fuel) :
    (∀ (a b a' b' : List Token) (tg tl semicolon semicolon' sentinel sentinel' : Token)
        (st st' sa sb : State) (A B : Node),
      List.Forall₂ Token.alike a a' → List.Forall₂ Token.alike b b' →
      tg.is_op g.lexeme → tl.is_op l.lexeme →
      semicolon.is_op ";" → semicolon'.is_op ";" →
      sentinel.kind = .TOKEN_EOF → sentinel'.kind = .TOKEN_EOF →
      add (expression fuel) fuel
          { token := a ++ tg :: (b ++ [semicolon, sentinel]), localVariableTable := [],
            currentOffset := 0 } = .ok (A, sa) →
      sa.token = tg :: (b ++ [semicolon, sentinel]) →
      add (expression fuel) fuel { sa with token := b ++ [semicolon, sentinel] }
        = .ok (B, sb) →
      sb.token = [semicolon, sentinel] →
      ∃ A' B' : Node,
        returned (parse (fuel + 2) (a ++ tg :: (b ++ [semicolon, sentinel])) st)
          = some [.expressionStatement { node := .binary l.kind B A }] ∧
        returned (parse (fuel + 2) (b' ++ tl :: (a' ++ [semicolon', sentinel'])) st')
          = some [.expressionStatement { node := .binary l.kind B' A' }] ∧
        A'.erase_offsets = A.erase_offsets ∧ B'.erase_offsets = B.erase_offsets) ∧
    (∀ (a b a' b' tg tl semicolon semicolon' sentinel sentinel' : Token) (st st' : State),
      (a.kind = .TOKEN_NUMBER ∨ a.kind = .TOKEN_IDENTIFIER) →
      (b.kind = .TOKEN_NUMBER ∨ b.kind = .TOKEN_IDENTIFIER) →
      a.alike a' → b.alike b' →
      tg.is_op g.lexeme → tl.is_op l.lexeme →
      semicolon.is_op ";" → semicolon'.is_op ";" →
      sentinel.kind = .TOKEN_EOF → sentinel'.kind = .TOKEN_EOF →
      (¬ (a.kind = .TOKEN_IDENTIFIER ∧ b.kind = .TOKEN_IDENTIFIER ∧ a.lexeme ≠ b.lexeme) →
        ∃ x y : Node,
          returned (parse (fuel + 2) [a, tg, b, semicolon, sentinel] st)
            = some [.expressionStatement { node := .binary l.kind y x }] ∧
          returned (parse (fuel + 2) [b', tl, a', semicolon', sentinel'] st')
            = some [.expressionStatement { node := .binary l.kind y x }]) ∧
      (a.kind = .TOKEN_IDENTIFIER ∧ b.kind = .TOKEN_IDENTIFIER ∧ a.lexeme ≠ b.lexeme →
        returned (parse (fuel + 2) [a, tg, b, semicolon, sentinel] st)
          = some [.expressionStatement { node := .binary l.kind (.lvar 16) (.lvar 8) }] ∧
        returned (parse (fuel + 2) [b', tl, a', semicolon', sentinel'] st')
          = some [.expressionStatement
              { node := .binary l.kind (.lvar 8) (.lvar 16) }])) := by
  have hbuild : ∀ x y : Node, g.build x y = .binary l.kind y x ∧
      l.build y x = .binary l.kind y x := by
    intro x y
    rcases hpair with ⟨rfl, rfl⟩ | ⟨rfl, rfl⟩ <;> exact ⟨rfl, rfl⟩
  have hg : g.level = 2 := by
    rcases hpair with ⟨rfl, _⟩ | ⟨rfl, _⟩ <;> rfl
  have hl : l.level = 2 := by
    rcases hpair with ⟨_, rfl⟩ | ⟨_, rfl⟩ <;> rfl
  refine ⟨?_, ?_⟩
  · intro a b a' b' tg tl semicolon semicolon' sentinel sentinel' st st' sa sb A B
      haa hbb htg htl hsemi hsemi' he he' hA hsa hB hsb
    obtain ⟨B', A', T1, T2, o1, o2, hrunB, hrunA, hshapeA, hshapeB⟩ :=
      add_operands_exchanged g l hg hl fuel a b a' b' [sentinel] [sentinel'] tg tl
        semicolon semicolon' sa sb A B [] 0 haa hbb htg htl hsemi hsemi' hA hsa hB hsb
    have h1 := parse_relational g hg fuel hfuel _ st sa sb A B tg semicolon sentinel
      (b ++ [semicolon, sentinel]) [] hA hsa htg hB hsb hsemi he
    have h2 := parse_relational l hl fuel hfuel _ st' _ _ B' A' tl semicolon' sentinel'
      (a' ++ [semicolon', sentinel']) [] hrunB rfl htl hrunA rfl hsemi' he'
    refine ⟨A', B', ?_, ?_, hshapeA.symm, hshapeB.symm⟩
    · rw [h1, (hbuild A B).1]
      rfl
    · rw [h2, (hbuild A' B').2]
      rfl
  · intro a b a' b' tg tl semicolon semicolon' sentinel sentinel' st st' ha hb haa hbb
      htg htl hsemi hsemi' he he'
    have ha' : a'.kind = .TOKEN_NUMBER ∨ a'.kind = .TOKEN_IDENTIFIER := by
      rw [← haa.1]
      exact ha
    have hb' : b'.kind = .TOKEN_NUMBER ∨ b'.kind = .TOKEN_IDENTIFIER := by
      rw [← hbb.1]
      exact hb
    rw [parse_binary_atoms g fuel hfuel a b tg semicolon sentinel st ha hb htg hsemi he,
      parse_binary_atoms l fuel hfuel b' a' tl semicolon' sentinel' st' hb' ha' htl hsemi' he',
      atom_alike hbb, atom_alike haa]
    simp only [(hbuild _ _).1, (hbuild _ _).2]
    constructor
    · intro hnot
      rcases ha with ha | ha <;> rcases hb with hb | hb
      · refine ⟨_, _, rfl, ?_⟩
        simp [atom, ha, hb]
      · refine ⟨_, _, rfl, ?_⟩
        simp [atom, ha, hb, hash_table_find]
      · refine ⟨_, _, rfl, ?_⟩
        simp [atom, ha, hb, hash_table_find]
      · have heq : a.lexeme = b.lexeme := by
          by_contra hne
          exact hnot ⟨ha, hb, hne⟩
        refine ⟨_, _, rfl, ?_⟩
        simp [atom, ha, hb, hash_table_find, hash_table_store, heq]
    · rintro ⟨ha', hb', hne⟩
      simp [atom, ha', hb', hash_table_find, hash_table_store, hne, Ne.symm hne, int_wrap]

/-- C2 (amended) at the streams of `f ( a ) + 1 > b ;` and
`b < f ( a ) + 1 ;`, whose operands `add` parses to ADD(FUNC f(LVAR@8), NUM 1)
and LVAR@16 in the first; at the streams of the source texts `a > b;` and
`b < a;`, each token of the second with the text from it on, which give
LT(LVAR@16, LVAR@8) and LT(LVAR@8, LVAR@16); and at `x >= 1 ;` and `1 <= x ;`,
which give the same tree. -/
theorem gt_lowering_up_to_offsets_witness :
    (∃ A' B' : Node,
      returned (parse 4
          ([ident "f", reserved "(", ident "a", reserved ")", reserved "+", number 1]
            ++ reserved ">" :: ([ident "b"] ++ [reserved ";", eof])) State.initial)
        = some [.expressionStatement
            ⟨.binary .NODE_LT (.lvar 16)
              (.binary .NODE_ADD (.func ⟨"f".data, [.lvar 8]⟩) (.num 1))⟩] ∧
      returned (parse 4
          ([ident "b"] ++ reserved "<" ::
            ([ident "f", reserved "(", ident "a", reserved ")", reserved "+", number 1]
              ++ [reserved ";", eof])) State.initial)
        = some [.expressionStatement ⟨.binary .NODE_LT B' A'⟩] ∧
      A'.erase_offsets
        = (Node.binary .NODE_ADD (.func ⟨"f".data, [.lvar 8]⟩) (.num 1)).erase_offsets ∧
      B'.erase_offsets = (Node.lvar 16).erase_offsets) ∧
    (returned (parse 4
          [token_at .TOKEN_IDENTIFIER "a > b;" 1, token_at .TOKEN_RESERVED "> b;" 1,
            token_at .TOKEN_IDENTIFIER "b;" 1, token_at .TOKEN_RESERVED ";" 1,
            token_at .TOKEN_EOF "" 0] State.initial)
        = some [.expressionStatement ⟨.binary .NODE_LT (.lvar 16) (.lvar 8)⟩] ∧
      returned (parse 4
          [token_at .TOKEN_IDENTIFIER "b < a;" 1, token_at .TOKEN_RESERVED "< a;" 1,
            token_at .TOKEN_IDENTIFIER "a;" 1, token_at .TOKEN_RESERVED ";" 1,
            token_at .TOKEN_EOF "" 0] State.initial)
        = some [.expressionStatement ⟨.binary .NODE_LT (.lvar 8) (.lvar 16)⟩]) ∧
    ∃ x y : Node,
      returned (parse 4 [ident "x", reserved ">=", number 1, reserved ";", eof] State.initial)
        = some [.expressionStatement ⟨.binary .NODE_LE y x⟩] ∧
      returned (parse 4 [number 1, reserved "<=", ident "x", reserved ";", eof] State.initial)
        = some [.expressionStatement ⟨.binary .NODE_LE y x⟩] :=
  ⟨(gt_lowering_up_to_offsets Op.gt Op.lt (Or.inl ⟨rfl, rfl⟩) 2 (le_refl 2)).1
      [ident "f", reserved "(", ident "a", reserved ")", reserved "+", number 1]
      [ident "b"]
      [ident "f", reserved "(", ident "a", reserved ")", reserved "+", number 1]
      [ident "b"] (reserved ">") (reserved "<") (reserved ";") (reserved ";") eof eof
      State.initial State.initial _ _
      (.binary .NODE_ADD (.func ⟨"f".data, [.lvar 8]⟩) (.num 1)) (.lvar 16)
      (alike_list_refl _) (alike_list_refl _)
      (by decide) (by decide) (by decide) (by decide) rfl rfl rfl rfl rfl rfl,
    ((gt_lowering_up_to_offsets Op.gt Op.lt (Or.inl ⟨rfl, rfl⟩) 2 (le_refl 2)).2
      (token_at .TOKEN_IDENTIFIER "a > b;" 1) (token_at .TOKEN_IDENTIFIER "b;" 1)
      (token_at .TOKEN_IDENTIFIER "a;" 1) (token_at .TOKEN_IDENTIFIER "b < a;" 1)
      (token_at .TOKEN_RESERVED "> b;" 1) (token_at .TOKEN_RESERVED "< a;" 1)
      (token_at .TOKEN_RESERVED ";" 1) (token_at .TOKEN_RESERVED ";" 1)
      (token_at .TOKEN_EOF "" 0) (token_at .TOKEN_EOF "" 0)
      State.initial State.initial (Or.inr rfl) (Or.inr rfl)
      ⟨rfl, rfl, rfl, fun _ => rfl⟩ ⟨rfl, rfl, rfl, fun _ => rfl⟩
      (by decide) (by decide) (by decide) (by decide) rfl rfl).2 (by decide),
    ((gt_lowering_up_to_offsets Op.ge Op.le (Or.inr ⟨rfl, rfl⟩) 2 (le_refl 2)).2
      (ident "x") (number 1) (ident "x") (number 1) (reserved ">=") (reserved "<=")
      (reserved ";") (reserved ";") eof eof
      State.initial State.initial (Or.inr rfl) (Or.inl rfl)
      ⟨rfl, rfl, rfl, fun _ => rfl⟩ ⟨rfl, rfl, rfl, fun _ => rfl⟩
      (by decide) (by decide) (by decide) (by decide) rfl rfl).1 (by decide)⟩

/-! ### C3: a recogniser that declines -/

/-- C3 (defect of `if_statement`, `while_statement` and `for_statement`): with
the cursor on `if x ;` the recogniser `if_statement` consumes `if`, finds no
`(` and returns the null pointer with the cursor one token further, on `x`;
`while_statement` on `while x ;` and `for_statement` on `for x ;` do the
same.  The table and the counter are left alone. -/
theorem if_statement_declines_after_advancing :
    if_statement (statement 9) 9
        { token := [reserved "if", ident "x", reserved ";", eof],
          localVariableTable := [], currentOffset := 0 }
      = .ok (none,
        { token := [ident "x", reserved ";", eof],
          localVariableTable := [], currentOffset := 0 }) ∧
    while_statement (statement 9) 9
        { token := [reserved "while", ident "x", reserved ";", eof],
          localVariableTable := [], currentOffset := 0 }
      = .ok (none,
        { token := [ident "x", reserved ";", eof],
          localVariableTable := [], currentOffset := 0 }) ∧
    for_statement (statement 9) 9
        { token := [reserved "for", ident "x", reserved ";", eof],
          localVariableTable := [], currentOffset := 0 }
      = .ok (none,
        { token := [ident "x", reserved ";", eof],
          localVariableTable := [], currentOffset := 0 }) :=
  ⟨rfl, rfl, rfl⟩

/-! ### C4: `if` without `(` -/

/-- C4 (defect of `if_statement`): `if 1 ;`, where no `(` follows `if`, does
not abort: `parse` returns the single statement EXPRESSION(NUM 1) and leaves
the cursor on the end-of-input token. -/
theorem parse_accepts_if_without_paren :
    parse 9 [reserved "if", number 1, reserved ";", eof] State.initial
      = .ok ([.expressionStatement ⟨.num 1⟩],
        { token := [eof], localVariableTable := [], currentOffset := 0 }) := by
  rfl

/-! ### C5: offsets in first-use order -/

/-- C5: on an EOF-terminated token stream that `parse` accepts, let the
distinct variable names (lexemes of identifiers not immediately followed by
`(`) in order of first occurrence be `n_1, ..., n_k`, with `8 * k` in the range
of `int`.  Then the returned statements read the tokens in front of the
sentinel with every variable reference as the node LVAR of the offset of its
lexeme in first-use order: each LVAR node made for a reference to `n_i` carries
`8 * i`.  The table binds `n_i` to `8 * i`, and the counter ends at `8 * k`. -/
theorem offsets_follow_first_use (fuel : Nat) (head : List Token) (st st' : State)
    (ast : List StatementUnion) (hwf : eof_terminated head)
    (hfit : 8 * ((first_uses (variable_names head)).length : Int) ≤ 2147483647)
    (h : parse fuel head st = .ok (ast, st')) :
    (∃ body sentinel, head = body ++ [sentinel] ∧
      ReadsStatements (first_use_offset (variable_names head)) body ast) ∧
    (∀ (i : Nat) (hi : i < (first_uses (variable_names head)).length),
      first_use_offset (variable_names head)
          ((first_uses (variable_names head)).get ⟨i, hi⟩) = 8 * ((i : Int) + 1) ∧
      hash_table_find st'.localVariableTable
          ((first_uses (variable_names head)).get ⟨i, hi⟩)
        = some { name := (first_uses (variable_names head)).get ⟨i, hi⟩,
                 offset := 8 * ((i : Int) + 1) }) ∧
    st'.currentOffset = 8 * ((first_uses (variable_names head)).length : Int) := by
  obtain ⟨⟨body, sentinel, hhead, hcursor, _⟩, htable, hcounter⟩ :=
    parse_final_state hwf h
  obtain ⟨consumed, hconsumed, hreads⟩ := reads_parse h
  have hbody : consumed = body := by
    rw [hcursor, hhead] at hconsumed
    exact (List.append_inj' hconsumed rfl).1.symm
  refine ⟨⟨body, sentinel, hhead, ?_⟩, fun i hi => ⟨first_use_offset_get _ i hi, ?_⟩, ?_⟩
  · rw [← hbody]
    refine hreads _ ?_
    rw [htable]
    exact agrees_first_use hfit
  · rw [htable]
    exact find_first_use hfit i hi
  · rw [hcounter]
    exact int_wrap_of_fits (by omega) hfit

/-- C5 at `a = 1; b = a + 2;`: the names in first-use order are `a`, `b`; the
statements ASSIGN(LVAR@8, NUM 1) and ASSIGN(LVAR@16, ADD(LVAR@8, NUM 2)) read
the ten tokens in front of the sentinel with `a` at 8 and `b` at 16, and the
counter ends at 16. -/
theorem offsets_follow_first_use_witness :
    first_uses (variable_names tokens_two_assignments) = ["a".data, "b".data] ∧
    first_use_offset (variable_names tokens_two_assignments) "a".data = 8 ∧
    first_use_offset (variable_names tokens_two_assignments) "b".data = 16 ∧
    8 * ((first_uses (variable_names tokens_two_assignments)).length : Int) ≤ 2147483647 ∧
    parse 20 tokens_two_assignments State.initial
      = .ok ([.expressionStatement ⟨.binary .NODE_ASSIGN (.lvar 8) (.num 1)⟩,
              .expressionStatement ⟨.binary .NODE_ASSIGN (.lvar 16)
                (.binary .NODE_ADD (.lvar 8) (.num 2))⟩],
          { token := [eof],
            localVariableTable := [("b".data, ⟨"b".data, 16⟩), ("a".data, ⟨"a".data, 8⟩)],
            currentOffset := 16 }) ∧
    ((∃ body sentinel, tokens_two_assignments = body ++ [sentinel] ∧
        ReadsStatements (first_use_offset (variable_names tokens_two_assignments)) body
          [.expressionStatement ⟨.binary .NODE_ASSIGN (.lvar 8) (.num 1)⟩,
           .expressionStatement ⟨.binary .NODE_ASSIGN (.lvar 16)
             (.binary .NODE_ADD (.lvar 8) (.num 2))⟩]) ∧
     (∀ (i : Nat) (hi : i < (first_uses (variable_names tokens_two_assignments)).length),
        first_use_offset (variable_names tokens_two_assignments)
            ((first_uses (variable_names tokens_two_assignments)).get ⟨i, hi⟩)
          = 8 * ((i : Int) + 1) ∧
        hash_table_find [("b".data, ⟨"b".data, 16⟩), ("a".data, ⟨"a".data, 8⟩)]
            ((first_uses (variable_names tokens_two_assignments)).get ⟨i, hi⟩)
          = some { name := (first_uses (variable_names tokens_two_assignments)).get ⟨i, hi⟩,
                   offset := 8 * ((i : Int) + 1) }) ∧
     (16 : Int) = 8 * ((first_uses (variable_names tokens_two_assignments)).length : Int)) :=
  ⟨by decide, by decide, by decide, by decide, rfl,
    offsets_follow_first_use 20 tokens_two_assignments State.initial
      { token := [eof],
        localVariableTable := [("b".data, ⟨"b".data, 16⟩), ("a".data, ⟨"a".data, 8⟩)],
        currentOffset := 16 }
      [.expressionStatement ⟨.binary .NODE_ASSIGN (.lvar 8) (.num 1)⟩,
       .expressionStatement ⟨.binary .NODE_ASSIGN (.lvar 16)
         (.binary .NODE_ADD (.lvar 8) (.num 2))⟩]
      ⟨tokens_two_assignments.dropLast, eof, rfl, rfl, by decide⟩ (by decide) rfl⟩

/-! ### C6: one offset per lexeme -/

/-- C6: on an EOF-terminated token stream that `parse` accepts, the returned
statements read the tokens in front of the sentinel with every variable
reference, wherever it stands (inside a compound statement or after it), as the
node LVAR of the offset the one final table binds its lexeme to: two references
with the same lexeme carry the same offset.  When 8 times the number of
distinct variable names is in the range of `int`, two variable names of the
stream are bound to the same offset only if they are equal: two references
carry the same offset exactly when their lexemes are equal. -/
theorem offset_shared_iff_same_lexeme (fuel : Nat) (head : List Token) (st st' : State)
    (ast : List StatementUnion) (hwf : eof_terminated head)
    (h : parse fuel head st = .ok (ast, st')) :
    (∃ body sentinel, head = body ++ [sentinel] ∧
      ReadsStatements (bound_offset st'.localVariableTable) body ast) ∧
    (8 * ((first_uses (variable_names head)).length : Int) ≤ 2147483647 →
      ∀ n ∈ variable_names head, ∀ m ∈ variable_names head,
        (bound_offset st'.localVariableTable n = bound_offset st'.localVariableTable m
          ↔ n = m)) := by
  obtain ⟨body, sentinel, hhead, hcursor, _, _⟩ := parse_final_cursor hwf h
  obtain ⟨consumed, hconsumed, hreads⟩ := reads_parse h
  have hbody : consumed = body := by
    rw [hcursor, hhead] at hconsumed
    exact (List.append_inj' hconsumed rfl).1.symm
  refine ⟨⟨body, sentinel, hhead, ?_⟩, fun hfit n hn m hm => ?_⟩
  · rw [← hbody]
    exact hreads _ (agrees_bound_offset _)
  · obtain ⟨_, htable, _⟩ := parse_final_state hwf h
    have hbound : ∀ x ∈ variable_names head,
        bound_offset st'.localVariableTable x = first_use_offset (variable_names head) x := by
      intro x hx
      have hmem := (mem_first_uses (variable_names head) x).mpr hx
      have hfind := find_first_use hfit _ (index_of_lt hmem)
      rw [get_index_of hmem, ← htable] at hfind
      simp only [bound_offset, hfind]
      rfl
    rw [hbound n hn, hbound m hm]
    exact first_use_offset_inj hn hm

/-- C6 at `{ a = 1; } b = a;`: `a`, first used inside the compound statement,
is read as LVAR@8 inside it and after it, `b` as LVAR@16, and the offsets of
`a` and `b` differ. -/
theorem offset_shared_iff_same_lexeme_witness :
    parse 20 tokens_block_then_use State.initial
      = .ok ([.compoundStatement
                ⟨some [.expressionStatement ⟨.binary .NODE_ASSIGN (.lvar 8) (.num 1)⟩]⟩,
              .expressionStatement ⟨.binary .NODE_ASSIGN (.lvar 16) (.lvar 8)⟩],
          { token := [eof],
            localVariableTable := [("b".data, ⟨"b".data, 16⟩), ("a".data, ⟨"a".data, 8⟩)],
            currentOffset := 16 }) ∧
    bound_offset [("b".data, ⟨"b".data, 16⟩), ("a".data, ⟨"a".data, 8⟩)] "a".data = 8 ∧
    bound_offset [("b".data, ⟨"b".data, 16⟩), ("a".data, ⟨"a".data, 8⟩)] "b".data = 16 ∧
    variable_names tokens_block_then_use = ["a".data, "b".data, "a".data] ∧
    ((∃ body sentinel, tokens_block_then_use = body ++ [sentinel] ∧
        ReadsStatements
          (bound_offset [("b".data, ⟨"b".data, 16⟩), ("a".data, ⟨"a".data, 8⟩)]) body
          [.compoundStatement
             ⟨some [.expressionStatement ⟨.binary .NODE_ASSIGN (.lvar 8) (.num 1)⟩]⟩,
           .expressionStatement ⟨.binary .NODE_ASSIGN (.lvar 16) (.lvar 8)⟩]) ∧
     8 * ((first_uses (variable_names tokens_block_then_use)).length : Int) ≤ 2147483647 ∧
     ∀ n ∈ variable_names tokens_block_then_use,
       ∀ m ∈ variable_names tokens_block_then_use,
       (bound_offset [("b".data, ⟨"b".data, 16⟩), ("a".data, ⟨"a".data, 8⟩)] n
           = bound_offset [("b".data, ⟨"b".data, 16⟩), ("a".data, ⟨"a".data, 8⟩)] m
         ↔ n = m)) :=
  ⟨rfl, by decide, by decide, by decide,
    (offset_shared_iff_same_lexeme 20 tokens_block_then_use State.initial
      { token := [eof],
        localVariableTable := [("b".data, ⟨"b".data, 16⟩), ("a".data, ⟨"a".data, 8⟩)],
        currentOffset := 16 }
      [.compoundStatement
         ⟨some [.expressionStatement ⟨.binary .NODE_ASSIGN (.lvar 8) (.num 1)⟩]⟩,
       .expressionStatement ⟨.binary .NODE_ASSIGN (.lvar 16) (.lvar 8)⟩]
      ⟨tokens_block_then_use.dropLast, eof, rfl, rfl, by decide⟩ rfl).1,
    by decide,
    (offset_shared_iff_same_lexeme 20 tokens_block_then_use State.initial
      { token := [eof],
        localVariableTable := [("b".data, ⟨"b".data, 16⟩), ("a".data, ⟨"a".data, 8⟩)],
        currentOffset := 16 }
      [.compoundStatement
         ⟨some [.expressionStatement ⟨.binary .NODE_ASSIGN (.lvar 8) (.num 1)⟩]⟩,
       .expressionStatement ⟨.binary .NODE_ASSIGN (.lvar 16) (.lvar 8)⟩]
      ⟨tokens_block_then_use.dropLast, eof, rfl, rfl, by decide⟩ rfl).2 (by decide)⟩

/-! ### C7: the cursor after the parse -/

/-- C7: when `parse` returns, the cursor is on a token of kind EOF of the
stream it was given; on an EOF-terminated stream, where the only token of kind
EOF is the last, the cursor is on that sentinel. -/
theorem parse_ends_on_sentinel (fuel : Nat) (head : List Token) (st st' : State)
    (ast : List StatementUnion) (h : parse fuel head st = .ok (ast, st')) :
    (∃ sentinel rest, st'.token = sentinel :: rest ∧ sentinel.kind = .TOKEN_EOF ∧
      (sentinel :: rest) <:+ head) ∧
    (eof_terminated head →
      ∃ body sentinel, head = body ++ [sentinel] ∧ st'.token = [sentinel] ∧
        sentinel.kind = .TOKEN_EOF) := by
  have hloop := parse_ok h
  obtain ⟨token, next, hs, hk⟩ := program_loop_stops_at_eof _ _ _ _ _ _ hloop
  have hsuf : st'.token <:+ head := cursor_suffix_closed.program_loop fuel fuel [] _ _ _ hloop
  refine ⟨⟨token, next, hs, hk, by rw [← hs]; exact hsuf⟩, fun hwf => ?_⟩
  exact (parse_final_state hwf h).1

/-- C7 at `42;`: the stream is EOF-terminated, `parse` returns the statement
EXPRESSION(NUM 42), and the cursor is left on the sentinel. -/
theorem parse_ends_on_sentinel_witness :
    eof_terminated [number 42, reserved ";", eof] ∧
    parse 20 [number 42, reserved ";", eof] State.initial
      = .ok ([.expressionStatement ⟨.num 42⟩],
          { token := [eof], localVariableTable := [], currentOffset := 0 }) ∧
    ∃ body sentinel, [number 42, reserved ";", eof] = body ++ [sentinel] ∧
      [eof] = [sentinel] ∧ sentinel.kind = .TOKEN_EOF :=
  ⟨⟨[number 42, reserved ";"], eof, rfl, rfl, by decide⟩, rfl,
    (parse_ends_on_sentinel 20 [number 42, reserved ";", eof] State.initial
      { token := [eof], localVariableTable := [], currentOffset := 0 }
      [.expressionStatement ⟨.num 42⟩] rfl).2
      ⟨[number 42, reserved ";"], eof, rfl, rfl, by decide⟩⟩

/-! ### C8: left-associative operators -/

/-- C8: for an operator `op` among `+ - * / == != < <=` and operands `a`,
`b`, `c` that `primary` parses one after the other (to the nodes `na`, `nb`,
`nc`), each followed by the token the stream `a op b op c ; EOF` has there,
`parse` returns the one EXPRESSION statement whose node has the kind of `op`,
the node of kind `op` over `na` and `nb` as left child and `nc` as right
child. -/
theorem binary_operators_fold_left (op : Op)
    (hop : op ∈ [Op.add, Op.sub, Op.mul, Op.div, Op.eq, Op.ne, Op.lt, Op.le])
    (fuel : Nat) (hfuel : 3 ≤ fuel) (head : List Token) (st sa sb sc : State)
    (na nb nc : Node) (ta tb semicolon sentinel : Token) (ra rb rest : List Token)
    (ha : primary (expression fuel) fuel
      { token := head, localVariableTable := [], currentOffset := 0 } = .ok (na, sa))
    (hsa : sa.token = ta :: ra) (hta : ta.is_op op.lexeme)
    (hb : primary (expression fuel) fuel { sa with token := ra } = .ok (nb, sb))
    (hsb : sb.token = tb :: rb) (htb : tb.is_op op.lexeme)
    (hc : primary (expression fuel) fuel { sb with token := rb } = .ok (nc, sc))
    (hsc : sc.token = semicolon :: sentinel :: rest) (hsemi : semicolon.is_op ";")
    (he : sentinel.kind = .TOKEN_EOF) :
    parse (fuel + 2) head st
      = .ok ([.expressionStatement
              { node := .binary op.kind (.binary op.kind na nb) nc }],
          { sc with token := sentinel :: rest }) := by
  have hlevel : op.level ≤ 4 := by cases op <;> simp [Op.level]
  have hstop := stops_above_of_semicolon hsemi
  have hx := level_operand (show 0 < fuel by omega) ha hsa (op.level + 1) (stops_above_of_is_op hta)
  have hy := level_operand (show 0 < fuel by omega) hb hsb (op.level + 1) (stops_above_of_is_op htb)
  have hz := level_operand (show 0 < fuel by omega) hc hsc (op.level + 1)
    (stops_above_mono hstop (Nat.zero_le _))
  have key : ∀ c : Nat, 3 ≤ c →
      level_loop (expression fuel) fuel op.level c na sa
        = .ok (op.build (op.build na nb) nc, sc) := by
    intro c hc3
    obtain ⟨n, rfl⟩ := Nat.exists_eq_add_of_le hc3
    rw [show 3 + n = (n + 2) + 1 by omega,
      level_loop_step _ _ op (n + 2) na nb sa sb ta ra hsa hta hy,
      level_loop_step _ _ op (n + 1) _ nc sb sc tb rb hsb htb hz]
    exact level_loop_stop _ _ _ n _ sc semicolon _ hlevel hsc
      (fun op' _ => hstop op' (Nat.zero_le _))
  have hfold : at_level (expression fuel) fuel op.level
      { token := head, localVariableTable := [], currentOffset := 0 }
      = .ok (op.build (op.build na nb) nc, sc) := by
    rw [at_level_eq _ _ _ hlevel, bind_apply, hx]
    exact key fuel hfuel
  have hfold' : at_level (expression fuel) fuel (0 + op.level)
      { token := head, localVariableTable := [], currentOffset := 0 }
      = .ok (op.build (op.build na nb) nc, sc) := by
    rw [Nat.zero_add]
    exact hfold
  have hzero := level_descend (show 0 < fuel by omega) hsc op.level 0 (by omega) hstop hfold'
  obtain ⟨token, next, hhead, hstart⟩ := primary_first_token ha
  have hbuild : op.build (op.build na nb) nc
      = .binary op.kind (.binary op.kind na nb) nc := by
    simp only [List.mem_cons, List.mem_singleton, List.not_mem_nil, or_false] at hop
    rcases hop with rfl | rfl | rfl | rfl | rfl | rfl | rfl | rfl <;> rfl
  rw [← hbuild]
  exact parse_of_expression hhead (Or.inl hstart) hzero hsc hsemi he

/-- C8 at `a - b - c ;`: the operands are the three variables, and the result
is SUB(SUB(LVAR@8, LVAR@16), LVAR@24). -/
theorem binary_operators_fold_left_witness :
    Op.sub ∈ [Op.add, Op.sub, Op.mul, Op.div, Op.eq, Op.ne, Op.lt, Op.le] ∧
    parse 5
        [ident "a", reserved "-", ident "b", reserved "-", ident "c", reserved ";", eof]
        State.initial
      = .ok ([.expressionStatement
              ⟨.binary .NODE_SUB (.binary .NODE_SUB (.lvar 8) (.lvar 16)) (.lvar 24)⟩],
          { token := [eof],
            localVariableTable :=
              [("c".data, ⟨"c".data, 24⟩), ("b".data, ⟨"b".data, 16⟩),
               ("a".data, ⟨"a".data, 8⟩)],
            currentOffset := 24 }) :=
  ⟨by decide,
    binary_operators_fold_left Op.sub (by decide) 3 (le_refl 3)
      [ident "a", reserved "-", ident "b", reserved "-", ident "c", reserved ";", eof]
      State.initial _ _ _ (.lvar 8) (.lvar 16) (.lvar 24) (reserved "-") (reserved "-")
      (reserved ";") eof _ _ [] rfl rfl (by decide) rfl rfl (by decide) rfl rfl (by decide)
      rfl⟩

/-! ### C9: precedence -/

/-- C9: operators `o1` and `o2` of different binding levels (4 for `* /`, 3
for `+ -`, 2 for `< <= > >=`, 1 for `== !=`, 0 for `=`) and operands `a`, `b`,
`c` that `primary` parses one after the other in the stream
`a o1 b o2 c ; EOF`: `parse` returns the one EXPRESSION statement whose root is
built from the looser operator, with the node built from the tighter operator
as a single operand of it. -/
theorem looser_operator_is_root (o1 o2 : Op) (hne : o1.level ≠ o2.level)
    (fuel : Nat) (hfuel : 2 ≤ fuel) (head : List Token) (st sa sb sc : State)
    (na nb nc : Node) (ta tb semicolon sentinel : Token) (ra rb rest : List Token)
    (ha : primary (expression fuel) fuel
      { token := head, localVariableTable := [], currentOffset := 0 } = .ok (na, sa))
    (hsa : sa.token = ta :: ra) (hta : ta.is_op o1.lexeme)
    (hb : primary (expression fuel) fuel { sa with token := ra } = .ok (nb, sb))
    (hsb : sb.token = tb :: rb) (htb : tb.is_op o2.lexeme)
    (hc : primary (expression fuel) fuel { sb with token := rb } = .ok (nc, sc))
    (hsc : sc.token = semicolon :: sentinel :: rest) (hsemi : semicolon.is_op ";")
    (he : sentinel.kind = .TOKEN_EOF) :
    parse (fuel + 2) head st
      = .ok ([.expressionStatement
              { node := if o1.level < o2.level then o1.build na (o2.build nb nc)
                        else o2.build (o1.build na nb) nc }],
          { sc with token := sentinel :: rest }) := by
  have hstop := stops_above_of_semicolon hsemi
  have hstop' : ∀ k : Nat, ∀ op' : Op, op'.level = k → ¬ semicolon.is_op op'.lexeme :=
    fun _ op' _ => hstop op' (Nat.zero_le _)
  have hl1 : o1.level ≤ 4 := by cases o1 <;> simp [Op.level]
  have hl2 : o2.level ≤ 4 := by cases o2 <;> simp [Op.level]
  obtain ⟨token, next, hhead, hstart⟩ := primary_first_token ha
  by_cases hlt : o1.level < o2.level
  · simp only [hlt, if_true]
    have hx := level_operand (show 0 < fuel by omega) ha hsa (o1.level + 1)
      (stops_above_of_is_op hta)
    have hy := level_operand (show 0 < fuel by omega) hb hsb (o2.level + 1)
      (stops_above_of_is_op htb)
    have hz := level_operand (show 0 < fuel by omega) hc hsc (o2.level + 1)
      (stops_above_mono hstop (Nat.zero_le _))
    have hinner := level_binary hfuel hy hsb htb hz hsc (hstop' _)
    have hinner0 : at_level (expression fuel) fuel
        (o1.level + 1 + (o2.level - (o1.level + 1))) { sa with token := ra }
        = .ok (o2.build nb nc, sc) := by
      rw [show o1.level + 1 + (o2.level - (o1.level + 1)) = o2.level by omega]
      exact hinner
    have hinner' := level_descend (show 0 < fuel by omega) hsc (o2.level - (o1.level + 1))
      (o1.level + 1) (by omega) (stops_above_mono hstop (Nat.zero_le _)) hinner0
    have houter := level_binary hfuel hx hsa hta hinner' hsc (hstop' _)
    have houter0 : at_level (expression fuel) fuel (0 + o1.level)
        { token := head, localVariableTable := [], currentOffset := 0 }
        = .ok (o1.build na (o2.build nb nc), sc) := by
      rw [Nat.zero_add]
      exact houter
    have hzero := level_descend (show 0 < fuel by omega) hsc o1.level 0 (by omega) hstop
      houter0
    exact parse_of_expression hhead (Or.inl hstart) hzero hsc hsemi he
  · simp only [hlt, if_false]
    have hgt : o2.level < o1.level := by omega
    have hx := level_operand (show 0 < fuel by omega) ha hsa (o1.level + 1)
      (stops_above_of_is_op hta)
    have hy := level_operand (show 0 < fuel by omega) hb hsb (o1.level + 1)
      (stops_above_mono (stops_above_of_is_op htb) (by omega))
    have hinner := level_binary hfuel hx hsa hta hy hsb
      (not_is_op_of_level_ne htb (by omega))
    have hinner0 : at_level (expression fuel) fuel
        (o2.level + 1 + (o1.level - (o2.level + 1)))
        { token := head, localVariableTable := [], currentOffset := 0 }
        = .ok (o1.build na nb, sb) := by
      rw [show o2.level + 1 + (o1.level - (o2.level + 1)) = o1.level by omega]
      exact hinner
    have hinner' := level_descend (show 0 < fuel by omega) hsb (o1.level - (o2.level + 1))
      (o2.level + 1) (by omega) (stops_above_of_is_op htb) hinner0
    have hz := level_operand (show 0 < fuel by omega) hc hsc (o2.level + 1)
      (stops_above_mono hstop (Nat.zero_le _))
    have houter := level_binary hfuel hinner' hsb htb hz hsc (hstop' _)
    have houter0 : at_level (expression fuel) fuel (0 + o2.level)
        { token := head, localVariableTable := [], currentOffset := 0 }
        = .ok (o2.build (o1.build na nb) nc, sc) := by
      rw [Nat.zero_add]
      exact houter
    have hzero := level_descend (show 0 < fuel by omega) hsc o2.level 0 (by omega) hstop
      houter0
    exact parse_of_expression hhead (Or.inl hstart) hzero hsc hsemi he

/-- C9 at `1 + 2 * 3 ;` and `1 * 2 < 3 ;`: the results are ADD(NUM 1, MUL(NUM
2, NUM 3)) and LT(MUL(NUM 1, NUM 2), NUM 3). -/
theorem looser_operator_is_root_witness :
    parse 4 [number 1, reserved "+", number 2, reserved "*", number 3, reserved ";", eof]
        State.initial
      = .ok ([.expressionStatement
              ⟨.binary .NODE_ADD (.num 1) (.binary .NODE_MUL (.num 2) (.num 3))⟩],
          { token := [eof], localVariableTable := [], currentOffset := 0 }) ∧
    parse 4 [number 1, reserved "*", number 2, reserved "<", number 3, reserved ";", eof]
        State.initial
      = .ok ([.expressionStatement
              ⟨.binary .NODE_LT (.binary .NODE_MUL (.num 1) (.num 2)) (.num 3)⟩],
          { token := [eof], localVariableTable := [], currentOffset := 0 }) :=
  ⟨looser_operator_is_root Op.add Op.mul (by decide) 2 (le_refl 2)
      [number 1, reserved "+", number 2, reserved "*", number 3, reserved ";", eof]
      State.initial _ _ _ (.num 1) (.num 2) (.num 3) (reserved "+") (reserved "*")
      (reserved ";") eof _ _ [] rfl rfl (by decide) rfl rfl (by decide) rfl rfl (by decide)
      rfl,
    looser_operator_is_root Op.mul Op.lt (by decide) 2 (le_refl 2)
      [number 1, reserved "*", number 2, reserved "<", number 3, reserved ";", eof]
      State.initial _ _ _ (.num 1) (.num 2) (.num 3) (reserved "*") (reserved "<")
      (reserved ";") eof _ _ [] rfl rfl (by decide) rfl rfl (by decide) rfl rfl (by decide)
      rfl⟩

/-! ### C10: dangling else -/

/-- C10: in `if ( c1 ) if ( c2 ) s1 else s2`, where `expression` parses the
conditions to `c1` and `c2`, `statement` parses the branches to `s1` and `s2`
and the token after `s2` is not another `else`, `statement` returns an IF
statement with condition `c1` and no else-branch whose then-branch is the IF
statement with condition `c2`, then-branch `s1` and else-branch `s2`. -/
theorem else_binds_to_inner_if (fuel : Nat) (st sc1 sc2 ss1 ss2 : State) (c1 c2 : Node)
    (s1 s2 : StatementUnion)
    (tif1 topen1 tclose1 tif2 topen2 tclose2 telse tafter : Token)
    (r0 r1 r2 r3 r4 : List Token)
    (hst : st.token = tif1 :: topen1 :: r0) (hif1 : tif1.is_op "if")
    (hopen1 : topen1.is_op "(")
    (hc1 : expression (fuel + 1) { st with token := r0 } = .ok (c1, sc1))
    (hsc1 : sc1.token = tclose1 :: tif2 :: topen2 :: r1) (hclose1 : tclose1.is_op ")")
    (hif2 : tif2.is_op "if") (hopen2 : topen2.is_op "(")
    (hc2 : expression fuel { sc1 with token := r1 } = .ok (c2, sc2))
    (hsc2 : sc2.token = tclose2 :: r2) (hclose2 : tclose2.is_op ")")
    (hs1 : statement fuel { sc2 with token := r2 } = .ok (s1, ss1))
    (hss1 : ss1.token = telse :: r3) (helse : telse.is_op "else")
    (hs2 : statement fuel { ss1 with token := r3 } = .ok (s2, ss2))
    (hss2 : ss2.token = tafter :: r4) (hafter : ¬ tafter.is_op "else") :
    statement (fuel + 2) st
      = .ok (.ifStatement
          { condition := c1,
            thenStatement := .ifStatement
              { condition := c2, thenStatement := s1, elseStatement := some s2 },
            elseStatement := none }, ss2) := by
  have hinner_tok : ({ sc1 with token := tif2 :: topen2 :: r1 } : State).token
      = tif2 :: topen2 :: r1 := rfl
  have hinner : statement (fuel + 1) { sc1 with token := tif2 :: topen2 :: r1 }
      = .ok (.ifStatement
          { condition := c2, thenStatement := s1, elseStatement := some s2 }, ss2) := by
    rw [statement]
    simp only [bind_apply,
      return_statement_declines hinner_tok
        (show ¬ tif2.is_op "return" by rw [is_op_iff_eq hif2]; decide)]
    rw [if_statement, bind_apply, consume_hit hinner_tok hif2]
    simp only [Bool.not_true, Bool.false_eq_true, if_false, bind_apply]
    rw [consume_hit (show ({ sc1 with token := topen2 :: r1 } : State).token
      = topen2 :: r1 from rfl) hopen2]
    simp only [Bool.not_true, Bool.false_eq_true, if_false, bind_apply, hc2,
      expect_hit hsc2 hclose2, hs1, consume_hit hss1 helse, if_true, hs2]
    rfl
  rw [statement]
  simp only [bind_apply,
    return_statement_declines hst
      (show ¬ tif1.is_op "return" by rw [is_op_iff_eq hif1]; decide)]
  rw [if_statement, bind_apply, consume_hit hst hif1]
  simp only [Bool.not_true, Bool.false_eq_true, if_false, bind_apply]
  rw [consume_hit (show ({ st with token := topen1 :: r0 } : State).token
    = topen1 :: r0 from rfl) hopen1]
  simp only [Bool.not_true, Bool.false_eq_true, if_false, bind_apply, hc1,
    expect_hit hsc1 hclose1, hinner, consume_miss hss2 hafter]
  rfl

/-- C10 at `if ( 1 ) if ( 2 ) 3 ; else 4 ;` followed by the sentinel. -/
theorem else_binds_to_inner_if_witness :
    statement 5
        { token := [reserved "if", reserved "(", number 1, reserved ")",
                    reserved "if", reserved "(", number 2, reserved ")",
                    number 3, reserved ";", reserved "else", number 4, reserved ";", eof],
          localVariableTable := [], currentOffset := 0 }
      = .ok (.ifStatement
          { condition := .num 1,
            thenStatement := .ifStatement
              { condition := .num 2,
                thenStatement := .expressionStatement ⟨.num 3⟩,
                elseStatement := some (.expressionStatement ⟨.num 4⟩) },
            elseStatement := none },
          { token := [eof], localVariableTable := [], currentOffset := 0 }) :=
  else_binds_to_inner_if 3
    { token := [reserved "if", reserved "(", number 1, reserved ")",
                reserved "if", reserved "(", number 2, reserved ")",
                number 3, reserved ";", reserved "else", number 4, reserved ";", eof],
      localVariableTable := [], currentOffset := 0 }
    _ _ _ _ (.num 1) (.num 2) (.expressionStatement ⟨.num 3⟩)
    (.expressionStatement ⟨.num 4⟩)
    (reserved "if") (reserved "(") (reserved ")") (reserved "if") (reserved "(")
    (reserved ")") (reserved "else") eof _ _ _ _ []
    rfl (by decide) (by decide) rfl rfl (by decide) (by decide) (by decide) rfl rfl
    (by decide) rfl rfl (by decide) rfl rfl (by decide)

/-! ### C11: unary lowering -/

/-- C11: with the cursor on a sign followed by the tokens `p` of a primary,
`unary` on `- p` returns SUB(NUM 0, n) and `unary` on `+ p` returns `n` itself,
where `n` is the node `primary` returns for `p`, and leaves the state `primary`
leaves; when `primary` aborts on `p`, so does `unary`, with the same error.
Without a sign `unary` is `primary`. -/
theorem unary_lowering (E : Parser Node) (fuel : Nat) (st : State) (sign : Token)
    (rest : List Token) (hs : st.token = sign :: rest) :
    (sign.is_op "-" →
      (∀ n st', primary E fuel { st with token := rest } = .ok (n, st') →
        unary E fuel st = .ok (.binary .NODE_SUB (.num 0) n, st')) ∧
      (∀ e, primary E fuel { st with token := rest } = .error e →
        unary E fuel st = .error e)) ∧
    (sign.is_op "+" → unary E fuel st = primary E fuel { st with token := rest }) ∧
    (¬ sign.is_op "+" → ¬ sign.is_op "-" → unary E fuel st = primary E fuel st) := by
  refine ⟨fun hminus => ?_, fun hplus => ?_, fun hnp hnm => ?_⟩
  · have hnp : ¬ sign.is_op "+" := by
      rw [is_op_iff_eq hminus]
      decide
    refine ⟨fun n st' hp => ?_, fun e hp => ?_⟩
    · rw [unary, bind_apply, consume_miss hs hnp]
      simp only [Bool.false_eq_true, if_false, bind_apply, consume_hit hs hminus, if_true, hp]
      rfl
    · rw [unary, bind_apply, consume_miss hs hnp]
      simp only [Bool.false_eq_true, if_false, bind_apply, consume_hit hs hminus, if_true, hp]
  · rw [unary, bind_apply, consume_hit hs hplus]
    rfl
  · rw [unary, bind_apply, consume_miss hs hnp]
    simp only [Bool.false_eq_true, if_false, bind_apply, consume_miss hs hnm]

/-- C11 at `- x ;` and `+ 5 ;`: `unary` returns SUB(NUM 0, LVAR@8) and
NUM 5, and stops in front of the semicolon. -/
theorem unary_lowering_witness :
    unary (expression 2) 2
        { token := [reserved "-", ident "x", reserved ";", eof], localVariableTable := [],
          currentOffset := 0 }
      = .ok (.binary .NODE_SUB (.num 0) (.lvar 8),
          { token := [reserved ";", eof],
            localVariableTable := [("x".data, { name := "x".data, offset := 8 })],
            currentOffset := 8 }) ∧
    unary (expression 2) 2
        { token := [reserved "+", number 5, reserved ";", eof], localVariableTable := [],
          currentOffset := 0 }
      = .ok (.num 5,
          { token := [reserved ";", eof], localVariableTable := [], currentOffset := 0 }) :=
  ⟨((unary_lowering (expression 2) 2
        { token := [reserved "-", ident "x", reserved ";", eof], localVariableTable := [],
          currentOffset := 0 }
        (reserved "-") [ident "x", reserved ";", eof] rfl).1 (by decide)).1 _ _ rfl,
    ((unary_lowering (expression 2) 2
        { token := [reserved "+", number 5, reserved ";", eof], localVariableTable := [],
          currentOffset := 0 }
        (reserved "+") [number 5, reserved ";", eof] rfl).2.1 (by decide)).trans rfl⟩

/-! ### C12: the match rule of the cursor -/

/-- C12: with the cursor on `token`, `consume(op)` returns true and leaves the
cursor on the next token when `token` is reserved and its lexeme has the length
and the bytes of `op`; in every other case it returns false and leaves the
state as it was.  It returns true in no other way.  `expect(op)` moves to the
next token under the same condition and reports the error naming `op`
otherwise.  Neither touches the table or the counter. -/
theorem consume_expect_match_rule (op : String) (st : State) (token : Token)
    (next : List Token) (hs : st.token = token :: next) :
    (token.kind = .TOKEN_RESERVED ∧ token.length = strlen op ∧ token.lexeme = op.data →
      consume op st = .ok (true, { st with token := next }) ∧
      expect op st = .ok ((), { st with token := next })) ∧
    (¬ (token.kind = .TOKEN_RESERVED ∧ token.length = strlen op ∧ token.lexeme = op.data) →
      consume op st = .ok (false, st) ∧ expect op st = .error (.not_op op)) ∧
    (∀ st', consume op st = .ok (true, st') →
      (token.kind = .TOKEN_RESERVED ∧ token.length = strlen op ∧ token.lexeme = op.data) ∧
        st' = { st with token := next }) ∧
    (∀ u st', expect op st = .ok (u, st') →
      (token.kind = .TOKEN_RESERVED ∧ token.length = strlen op ∧ token.lexeme = op.data) ∧
        st' = { st with token := next }) := by
  have hcond : (token.kind = .TOKEN_RESERVED ∧ token.length = strlen op ∧
      token.lexeme = op.data) ↔ token.is_op op := Iff.rfl
  rw [hcond]
  refine ⟨fun h => ⟨consume_hit hs h, expect_hit hs h⟩, fun h => ⟨consume_miss hs h, ?_⟩,
    fun st' h => ?_, fun u st' h => ?_⟩
  · rw [expect_eq]
    simp [hs, h]
  · obtain ⟨token', next', hs', ⟨hop, _, rfl⟩ | ⟨_, hfalse, _⟩⟩ := consume_ok h
    · rw [hs] at hs'
      obtain ⟨rfl, rfl⟩ := List.cons.inj hs'
      exact ⟨hop, rfl⟩
    · exact absurd hfalse (by decide)
  · obtain ⟨token', next', hs', hop, rfl⟩ := expect_ok h
    rw [hs] at hs'
    obtain ⟨rfl, rfl⟩ := List.cons.inj hs'
    exact ⟨hop, rfl⟩

/-- C12 on the tokens of the source text `<= b;`: `consume("<=")` takes the
reserved token `<=`; `consume("<")`, whose operator is only a prefix of the
lexeme, and `consume("<=>")`, of which the lexeme is only a prefix, leave it;
on the identifier `b`, `consume("b")` returns false and `expect(";")` reports
an error. -/
theorem consume_expect_match_rule_witness :
    consume "<="
        { token := [token_at .TOKEN_RESERVED "<= b;" 2, token_at .TOKEN_IDENTIFIER "b;" 1,
            token_at .TOKEN_RESERVED ";" 1, eof],
          localVariableTable := [], currentOffset := 0 }
      = .ok (true,
          { token := [token_at .TOKEN_IDENTIFIER "b;" 1, token_at .TOKEN_RESERVED ";" 1, eof],
            localVariableTable := [], currentOffset := 0 }) ∧
    consume "<"
        { token := [token_at .TOKEN_RESERVED "<= b;" 2, token_at .TOKEN_IDENTIFIER "b;" 1,
            token_at .TOKEN_RESERVED ";" 1, eof],
          localVariableTable := [], currentOffset := 0 }
      = .ok (false,
          { token := [token_at .TOKEN_RESERVED "<= b;" 2, token_at .TOKEN_IDENTIFIER "b;" 1,
              token_at .TOKEN_RESERVED ";" 1, eof],
            localVariableTable := [], currentOffset := 0 }) ∧
    consume "<=>"
        { token := [token_at .TOKEN_RESERVED "<= b;" 2, token_at .TOKEN_IDENTIFIER "b;" 1,
            token_at .TOKEN_RESERVED ";" 1, eof],
          localVariableTable := [], currentOffset := 0 }
      = .ok (false,
          { token := [token_at .TOKEN_RESERVED "<= b;" 2, token_at .TOKEN_IDENTIFIER "b;" 1,
              token_at .TOKEN_RESERVED ";" 1, eof],
            localVariableTable := [], currentOffset := 0 }) ∧
    consume "b"
        { token := [token_at .TOKEN_IDENTIFIER "b;" 1, token_at .TOKEN_RESERVED ";" 1, eof],
          localVariableTable := [], currentOffset := 0 }
      = .ok (false,
          { token := [token_at .TOKEN_IDENTIFIER "b;" 1, token_at .TOKEN_RESERVED ";" 1, eof],
            localVariableTable := [], currentOffset := 0 }) ∧
    expect ";"
        { token := [token_at .TOKEN_IDENTIFIER "b;" 1, token_at .TOKEN_RESERVED ";" 1, eof],
          localVariableTable := [], currentOffset := 0 }
      = .error (.not_op ";") :=
  ⟨((consume_expect_match_rule "<=" _ (token_at .TOKEN_RESERVED "<= b;" 2) _ rfl).1
      (by decide)).1,
    ((consume_expect_match_rule "<" _ (token_at .TOKEN_RESERVED "<= b;" 2) _ rfl).2.1
      (by decide)).1,
    ((consume_expect_match_rule "<=>" _ (token_at .TOKEN_RESERVED "<= b;" 2) _ rfl).2.1
      (by decide)).1,
    ((consume_expect_match_rule "b" _ (token_at .TOKEN_IDENTIFIER "b;" 1) _ rfl).2.1
      (by decide)).1,
    ((consume_expect_match_rule ";" _ (token_at .TOKEN_IDENTIFIER "b;" 1) _ rfl).2.1
      (by decide)).2⟩

/-! ### C13: function calls -/

/-- C13: with the cursor on an identifier immediately followed by `(`,
`primary` returns a FUNC node whose call record has the lexeme of the
identifier as name.  When `)` follows directly the argument list is empty and
only the cursor has moved.  Otherwise, when `E` (the function `expression` in
`parse.c`) parses the arguments, separated by commas and followed by `)`, to the
nodes `arguments`, the record holds `arguments` in source order, and the state
is the one the runs of `E` leave, started from the table and the counter as
they were in front of the identifier: the callee name is not stored and the
counter is not advanced for it.  So after `parse` of an EOF-terminated stream
the table binds no name that the stream uses only in front of `(`, and the
counter is 8 times the number of distinct variable names as an `int`: the
value `int_wrap` gives that product, which is the product itself when it is in
the range of `int`. -/
theorem call_keeps_name_and_arguments (E : Parser Node) (fuel : Nat) (st : State)
    (identifier paren : Token) (after : List Token)
    (hs : st.token = identifier :: paren :: after)
    (hk : identifier.kind = .TOKEN_IDENTIFIER) (hparen : paren.is_op "(") :
    (∀ (close : Token) (rest : List Token), after = close :: rest → close.is_op ")" →
      primary E fuel st
        = .ok (.func { name := identifier.lexeme, arguments := [] },
            { st with token := rest })) ∧
    (∀ (first close : Token) (more rest : List Token) (arguments : List Node) (s : State),
      after = first :: more → ¬ first.is_op ")" →
      argument_runs E arguments { st with token := after } s →
      s.token = close :: rest → close.is_op ")" → arguments.length ≤ fuel →
      primary E fuel st
        = .ok (.func { name := identifier.lexeme, arguments := arguments },
            { s with token := rest })) ∧
    (∀ (F : Nat) (head : List Token) (st0 st' : State) (ast : List StatementUnion),
      eof_terminated head → parse F head st0 = .ok (ast, st') →
      (∀ name : List Char, name ∉ variable_names head →
        hash_table_find st'.localVariableTable name = none) ∧
      st'.currentOffset
        = int_wrap (8 * ((first_uses (variable_names head)).length : Int)) ∧
      (8 * ((first_uses (variable_names head)).length : Int) ≤ 2147483647 →
        st'.currentOffset = 8 * ((first_uses (variable_names head)).length : Int))) := by
  have hnot : ¬ identifier.is_op "(" := not_is_op_of_kind (by rw [hk]; decide) _
  have hid : consume_identifier st = .ok (some identifier, { st with token := paren :: after }) := by
    simp [Azcc.consume_identifier, hs, hk]
  have hopen : consume "(" { st with token := paren :: after }
      = .ok (true, { st with token := after }) := consume_hit rfl hparen
  refine ⟨fun close rest hafter hclose => ?_,
    fun first close more rest arguments s hafter hfirst hruns hsr hclose hfuel => ?_,
    fun F head st0 st' ast hwf hparse => ?_⟩
  · have hc : consume ")" { st with token := after }
        = .ok (true, { st with token := rest }) := consume_hit hafter hclose
    rw [primary, bind_apply, consume_miss hs hnot]
    simp only [Bool.false_eq_true, if_false, bind_apply, hid, hopen, if_true, hc,
      Bool.not_true]
    rfl
  · have hc : consume ")" { st with token := after }
        = .ok (false, { st with token := after }) := consume_miss hafter hfirst
    have hargs := argument_of_runs hruns hsr
      (show ¬ close.is_op "," by rw [is_op_iff_eq hclose]; decide) hfuel
    rw [primary, bind_apply, consume_miss hs hnot]
    simp only [Bool.false_eq_true, if_false, bind_apply, hid, hopen, if_true, hc,
      Bool.not_false, hargs, expect_hit hsr hclose]
    rfl
  · obtain ⟨_, htable, hcounter⟩ := parse_final_state hwf hparse
    refine ⟨fun name hname => ?_, hcounter, fun hfit => ?_⟩
    · rw [htable, find_table_of_reversed_none]
      intro hmem
      exact hname ((mem_first_uses _ _).mp (List.mem_reverse.mp hmem))
    · rw [hcounter]
      exact int_wrap_of_fits (by omega) hfit

/-- C13 at `f ( ) ;` and `g ( a , b + 1 , 3 ) ;`: the first gives FUNC `f`
with no argument and leaves the table empty and the counter 0; the second gives
FUNC `g` with the arguments LVAR@8, ADD(LVAR@16, NUM 1), NUM 3, and its table
holds `a` and `b` only, the counter being 16. -/
theorem call_keeps_name_and_arguments_witness :
    primary (expression 3) 3
        { token := [ident "f", reserved "(", reserved ")", reserved ";", eof],
          localVariableTable := [], currentOffset := 0 }
      = .ok (.func ⟨"f".data, []⟩,
          { token := [reserved ";", eof], localVariableTable := [], currentOffset := 0 }) ∧
    primary (expression 3) 3
        { token := [ident "g", reserved "(", ident "a", reserved ",", ident "b", reserved "+",
            number 1, reserved ",", number 3, reserved ")", reserved ";", eof],
          localVariableTable := [], currentOffset := 0 }
      = .ok (.func ⟨"g".data, [.lvar 8, .binary .NODE_ADD (.lvar 16) (.num 1), .num 3]⟩,
          { token := [reserved ";", eof],
            localVariableTable :=
              [("b".data, { name := "b".data, offset := 16 }),
               ("a".data, { name := "a".data, offset := 8 })],
            currentOffset := 16 }) ∧
    parse 5 [ident "f", reserved "(", reserved ")", reserved ";", eof] State.initial
      = .ok ([.expressionStatement ⟨.func ⟨"f".data, []⟩⟩],
          { token := [eof], localVariableTable := [], currentOffset := 0 }) ∧
    parse 5 [ident "g", reserved "(", ident "a", reserved ",", ident "b", reserved "+",
          number 1, reserved ",", number 3, reserved ")", reserved ";", eof] State.initial
      = .ok ([.expressionStatement
              ⟨.func ⟨"g".data, [.lvar 8, .binary .NODE_ADD (.lvar 16) (.num 1), .num 3]⟩⟩],
          { token := [eof],
            localVariableTable :=
              [("b".data, { name := "b".data, offset := 16 }),
               ("a".data, { name := "a".data, offset := 8 })],
            currentOffset := 16 }) :=
  ⟨(call_keeps_name_and_arguments (expression 3) 3
        { token := [ident "f", reserved "(", reserved ")", reserved ";", eof],
          localVariableTable := [], currentOffset := 0 }
        (ident "f") (reserved "(") [reserved ")", reserved ";", eof] rfl rfl (by decide)).1
      (reserved ")") [reserved ";", eof] rfl (by decide),
    (call_keeps_name_and_arguments (expression 3) 3
        { token := [ident "g", reserved "(", ident "a", reserved ",", ident "b", reserved "+",
            number 1, reserved ",", number 3, reserved ")", reserved ";", eof],
          localVariableTable := [], currentOffset := 0 }
        (ident "g") (reserved "(")
        [ident "a", reserved ",", ident "b", reserved "+", number 1, reserved ",", number 3,
          reserved ")", reserved ";", eof] rfl rfl (by decide)).2.1
      (ident "a") (reserved ")") _ [reserved ";", eof]
      [.lvar 8, .binary .NODE_ADD (.lvar 16) (.num 1), .num 3]
      { token := [reserved ")", reserved ";", eof],
        localVariableTable :=
          [("b".data, { name := "b".data, offset := 16 }),
           ("a".data, { name := "a".data, offset := 8 })],
        currentOffset := 16 }
      rfl (by decide)
      ⟨_, reserved ",", _, rfl, rfl, by decide, _, reserved ",", _, rfl, rfl, by decide, rfl⟩
      rfl (by decide) (by decide),
    rfl, rfl⟩

/-! ### C14: no leakage between runs -/

/-- C14 (defect of `compound_statement`, the one of C15): `parse` of `{ }`
returns one COMPOUND statement whose `statementHead` is the `next` field of the
local `head` of `compound_statement`, which nothing has written.  The value of
that pointer is what the stack held when `compound_statement` was entered: the
token list does not determine it, so the returned AST is not a function of the
token list alone, and it is not the null pointer of an empty list.  For the
sentinel alone `parse` returns the empty list, whose head `program` has set to
the null pointer. -/
theorem parse_empty_block_leaks_head :
    parse 9 [reserved "\x7b", reserved "\x7d", eof] State.initial
      = .ok ([.compoundStatement { statementHead := none }],
          { token := [eof], localVariableTable := [], currentOffset := 0 }) ∧
    parse 9 [reserved "\x7b", reserved "\x7d", eof] State.initial
      ≠ .ok ([.compoundStatement { statementHead := some [] }],
          { token := [eof], localVariableTable := [], currentOffset := 0 }) ∧
    parse 9 [eof] State.initial
      = .ok ([], { token := [eof], localVariableTable := [], currentOffset := 0 }) := by
  have h : parse 9 [reserved "\x7b", reserved "\x7d", eof] State.initial
      = .ok ([.compoundStatement { statementHead := none }],
          { token := [eof], localVariableTable := [], currentOffset := 0 }) := rfl
  refine ⟨h, ?_, rfl⟩
  rw [h]
  simp

/-! ### C15: compound bodies -/

/-- C15 (defect of `compound_statement`): on `{ }` the loop links no cell, and
`result->statementHead = head.next` copies the `next` field of the local
`head`, which nothing has written: the pointer is indeterminate, not the null
pointer of an empty list (`program` sets `head.next = NULL` before its loop,
`compound_statement` does not).  With a statement in the body the first
`new_list_node` writes `head.next`: on `{ 1 ; 2 ; }` the list holds the two
statements in source order. -/
theorem compound_statement_empty_body_indeterminate :
    compound_statement (statement 9) 9
        { token := [reserved "\x7b", reserved "\x7d", eof], localVariableTable := [],
          currentOffset := 0 }
      = .ok (some { statementHead := none },
          { token := [eof], localVariableTable := [], currentOffset := 0 }) ∧
    compound_statement (statement 9) 9
        { token := [reserved "\x7b", reserved "\x7d", eof], localVariableTable := [],
          currentOffset := 0 }
      ≠ .ok (some { statementHead := some [] },
          { token := [eof], localVariableTable := [], currentOffset := 0 }) ∧
    compound_statement (statement 9) 9
        { token := [reserved "\x7b", number 1, reserved ";", number 2, reserved ";",
            reserved "\x7d", eof],
          localVariableTable := [], currentOffset := 0 }
      = .ok (some { statementHead := some [.expressionStatement ⟨.num 1⟩,
                                           .expressionStatement ⟨.num 2⟩] },
          { token := [eof], localVariableTable := [], currentOffset := 0 }) := by
  have h : compound_statement (statement 9) 9
        { token := [reserved "\x7b", reserved "\x7d", eof], localVariableTable := [],
          currentOffset := 0 }
      = .ok (some { statementHead := none },
          { token := [eof], localVariableTable := [], currentOffset := 0 }) := rfl
  refine ⟨h, ?_, rfl⟩
  rw [h]
  simp

/-! ### C16: frame slots -/

/-- C17: when `equality` parses a left operand to the node `e`, stops in
front of `=`, and parses what follows `=` to the node `r`, up to `; EOF`, then
`parse` accepts the stream and returns the one statement
EXPRESSION(ASSIGN(e, r)), whatever kind of node `e` is. -/
theorem assign_accepts_any_left_operand (fuel : Nat) (hfuel : 2 ≤ fuel) (head : List Token)
    (st se sr : State) (e r : Node) (teq semicolon sentinel : Token)
    (after rest : List Token)
    (he : equality (expression fuel) fuel
      { token := head, localVariableTable := [], currentOffset := 0 } = .ok (e, se))
    (hse : se.token = teq :: after) (hteq : teq.is_op "=")
    (hr : equality (expression fuel) fuel { se with token := after } = .ok (r, sr))
    (hsr : sr.token = semicolon :: sentinel :: rest) (hsemi : semicolon.is_op ";")
    (heof : sentinel.kind = .TOKEN_EOF) :
    parse (fuel + 2) head st
      = .ok ([.expressionStatement { node := .binary .NODE_ASSIGN e r }],
          { sr with token := sentinel :: rest }) := by
  have hstop := stops_above_of_semicolon hsemi
  have hbin : at_level (expression fuel) fuel Op.assign.level
      { token := head, localVariableTable := [], currentOffset := 0 }
      = .ok (Op.assign.build e r, sr) :=
    level_binary hfuel he hse hteq hr hsr (fun op' _ => hstop op' (Nat.zero_le _))
  obtain ⟨token, next, hhead, hstart⟩ :=
    at_level_first_token 4 1 rfl (show at_level (expression fuel) fuel 1 _ = _ from he)
  exact parse_of_expression hhead hstart hbin hsr hsemi heof

/-- C17 at `1 = 2 ;`: `parse` returns EXPRESSION(ASSIGN(NUM 1, NUM 2)). -/
theorem assign_accepts_any_left_operand_witness :
    parse 4 [number 1, reserved "=", number 2, reserved ";", eof] State.initial
      = .ok ([.expressionStatement ⟨.binary .NODE_ASSIGN (.num 1) (.num 2)⟩],
          { token := [eof], localVariableTable := [], currentOffset := 0 }) :=
  assign_accepts_any_left_operand 2 (le_refl 2)
    [number 1, reserved "=", number 2, reserved ";", eof] State.initial
    { token := [reserved "=", number 2, reserved ";", eof], localVariableTable := [],
      currentOffset := 0 }
    { token := [reserved ";", eof], localVariableTable := [], currentOffset := 0 }
    (.num 1) (.num 2) (reserved "=") (reserved ";") eof
    [number 2, reserved ";", eof] [] rfl rfl (by decide) rfl rfl (by decide) rfl

/-! ### C18: the header of `for` -/

/-- C18: with the cursor on `for (`, `for_statement` reports the error of
`expect_number` and returns no ForStatement when the token at the
initialisation slot is `;` or `)`; when the initialisation is parsed, `;`
follows and the token at the condition slot is `;` or `)`; and when
initialisation and condition are parsed, each followed by `;`, and the token at
the afterthought slot is `;` or `)`.  Conversely, when `for_statement` returns
a ForStatement, each of the three slots starts with a token an expression can
start with (`(`, `+`, `-`, an identifier or a number) and holds the expression
parsed there. -/
theorem for_header_needs_three_expressions (S : Parser StatementUnion) (fuel : Nat)
    (hfuel : 0 < fuel) (st : State) (tfor topen : Token) (r0 : List Token)
    (hs : st.token = tfor :: topen :: r0) (hfor : tfor.is_op "for")
    (hopen : topen.is_op "(") :
    (∀ (t : Token) (rest : List Token), r0 = t :: rest → t.is_op ";" ∨ t.is_op ")" →
      for_statement S fuel st = .error .not_number) ∧
    (∀ (initialization : Node) (s1 : State) (semi t : Token) (rest : List Token),
      expression fuel { st with token := r0 } = .ok (initialization, s1) →
      s1.token = semi :: t :: rest → semi.is_op ";" → t.is_op ";" ∨ t.is_op ")" →
      for_statement S fuel st = .error .not_number) ∧
    (∀ (initialization condition : Node) (s1 s2 : State) (semi1 semi2 t : Token)
        (r1 rest : List Token),
      expression fuel { st with token := r0 } = .ok (initialization, s1) →
      s1.token = semi1 :: r1 → semi1.is_op ";" →
      expression fuel { s1 with token := r1 } = .ok (condition, s2) →
      s2.token = semi2 :: t :: rest → semi2.is_op ";" → t.is_op ";" ∨ t.is_op ")" →
      for_statement S fuel st = .error .not_number) ∧
    (∀ (x : ForStatement StatementUnion) (st' : State),
      for_statement S fuel st = .ok (some x, st') →
      ∃ (s1 s2 s3 : State) (semi1 semi2 t0 t1 t2 : Token) (r1 r2 n0 n1 n2 : List Token),
        r0 = t0 :: n0 ∧ starts_expression t0 ∧
        expression fuel { st with token := r0 } = .ok (x.initialization, s1) ∧
        s1.token = semi1 :: r1 ∧ semi1.is_op ";" ∧
        r1 = t1 :: n1 ∧ starts_expression t1 ∧
        expression fuel { s1 with token := r1 } = .ok (x.condition, s2) ∧
        s2.token = semi2 :: r2 ∧ semi2.is_op ";" ∧
        r2 = t2 :: n2 ∧ starts_expression t2 ∧
        expression fuel { s2 with token := r2 } = .ok (x.afterthought, s3)) := by
  have hempty : ∀ t : Token, t.is_op ";" ∨ t.is_op ")" → ¬ starts_expression t := by
    rintro t (h | h)
    · exact not_starts_expression_of_is_op h (by decide) (by decide) (by decide)
    · exact not_starts_expression_of_is_op h (by decide) (by decide) (by decide)
  have hc1 : consume "for" st = .ok (true, { st with token := topen :: r0 }) :=
    consume_hit hs hfor
  have hc2 : consume "(" { st with token := topen :: r0 }
      = .ok (true, { st with token := r0 }) := consume_hit rfl hopen
  refine ⟨fun t rest hr0 ht => ?_, fun initialization s1 semi t rest hinit hs1 hsemi ht => ?_,
    fun initialization condition s1 s2 semi1 semi2 t r1 rest hinit hs1 hsemi1 hcond hs2
      hsemi2 ht => ?_, fun x st' hrun => ?_⟩
  · have herr : expression fuel { st with token := r0 } = .error .not_number :=
      expression_rejects hfuel hr0 (hempty t ht)
    rw [for_statement, bind_apply, hc1]
    simp only [Bool.not_true, Bool.false_eq_true, if_false, bind_apply, hc2, herr]
  · have herr : expression fuel { s1 with token := t :: rest } = .error .not_number :=
      expression_rejects hfuel rfl (hempty t ht)
    rw [for_statement, bind_apply, hc1]
    simp only [Bool.not_true, Bool.false_eq_true, if_false, bind_apply, hc2, hinit,
      expect_hit hs1 hsemi, herr]
  · have herr : expression fuel { s2 with token := t :: rest } = .error .not_number :=
      expression_rejects hfuel rfl (hempty t ht)
    rw [for_statement, bind_apply, hc1]
    simp only [Bool.not_true, Bool.false_eq_true, if_false, bind_apply, hc2, hinit,
      expect_hit hs1 hsemi1, hcond, expect_hit hs2 hsemi2, herr]
  · rw [for_statement, bind_apply, hc1] at hrun
    simp only [Bool.not_true, Bool.false_eq_true, if_false, bind_apply, hc2] at hrun
    obtain ⟨initialization, s1, h1, hrun⟩ := bind_ok.mp hrun
    obtain ⟨u1, s1', h2, hrun⟩ := bind_ok.mp hrun
    obtain ⟨semi1, r1, hs1, hsemi1, rfl⟩ := expect_ok h2
    obtain ⟨condition, s2, h3, hrun⟩ := bind_ok.mp hrun
    obtain ⟨u2, s2', h4, hrun⟩ := bind_ok.mp hrun
    obtain ⟨semi2, r2, hs2, hsemi2, rfl⟩ := expect_ok h4
    obtain ⟨afterthought, s3, h5, hrun⟩ := bind_ok.mp hrun
    obtain ⟨u3, s3', _, hrun⟩ := bind_ok.mp hrun
    obtain ⟨body, s4, _, hrun⟩ := bind_ok.mp hrun
    obtain ⟨hx, _⟩ := pure_ok.mp hrun
    obtain ⟨rfl⟩ := Option.some.inj hx
    obtain ⟨t0, n0, ht0, hstart0⟩ := expression_first_token h1
    obtain ⟨t1, n1, ht1, hstart1⟩ := expression_first_token h3
    obtain ⟨t2, n2, ht2, hstart2⟩ := expression_first_token h5
    exact ⟨s1, s2, s3, semi1, semi2, t0, t1, t2, r1, r2, n0, n1, n2, ht0, hstart0, h1, hs1,
      hsemi1, ht1, hstart1, h3, hs2, hsemi2, ht2, hstart2, h5⟩

/-- C18 at `for ( ; ; ) 1 ;`, `for ( 0 ; ; ) 1 ;` and `for ( 0 ; 0 ; ) 1 ;`:
`for_statement` reports the error, and so does `parse` on the first. -/
theorem for_header_needs_three_expressions_witness :
    for_statement (statement 3) 3
        { token := [reserved "for", reserved "(", reserved ";", reserved ";", reserved ")",
            number 1, reserved ";", eof],
          localVariableTable := [], currentOffset := 0 }
      = .error .not_number ∧
    for_statement (statement 3) 3
        { token := [reserved "for", reserved "(", number 0, reserved ";", reserved ";",
            reserved ")", number 1, reserved ";", eof],
          localVariableTable := [], currentOffset := 0 }
      = .error .not_number ∧
    for_statement (statement 3) 3
        { token := [reserved "for", reserved "(", number 0, reserved ";", number 0,
            reserved ";", reserved ")", number 1, reserved ";", eof],
          localVariableTable := [], currentOffset := 0 }
      = .error .not_number ∧
    parse 9 [reserved "for", reserved "(", reserved ";", reserved ";", reserved ")",
        number 1, reserved ";", eof] State.initial
      = .error .not_number :=
  ⟨(for_header_needs_three_expressions (statement 3) 3 (by decide)
        { token := [reserved "for", reserved "(", reserved ";", reserved ";", reserved ")",
            number 1, reserved ";", eof],
          localVariableTable := [], currentOffset := 0 }
        (reserved "for") (reserved "(") _ rfl (by decide) (by decide)).1
      (reserved ";") _ rfl (Or.inl (by decide)),
    (for_header_needs_three_expressions (statement 3) 3 (by decide)
        { token := [reserved "for", reserved "(", number 0, reserved ";", reserved ";",
            reserved ")", number 1, reserved ";", eof],
          localVariableTable := [], currentOffset := 0 }
        (reserved "for") (reserved "(") _ rfl (by decide) (by decide)).2.1
      (.num 0)
      { token := [reserved ";", reserved ";", reserved ")", number 1, reserved ";", eof],
        localVariableTable := [], currentOffset := 0 }
      (reserved ";") (reserved ";") _ rfl rfl (by decide) (Or.inl (by decide)),
    (for_header_needs_three_expressions (statement 3) 3 (by decide)
        { token := [reserved "for", reserved "(", number 0, reserved ";", number 0,
            reserved ";", reserved ")", number 1, reserved ";", eof],
          localVariableTable := [], currentOffset := 0 }
        (reserved "for") (reserved "(") _ rfl (by decide) (by decide)).2.2.1
      (.num 0) (.num 0)
      { token := [reserved ";", number 0, reserved ";", reserved ")", number 1, reserved ";",
          eof],
        localVariableTable := [], currentOffset := 0 }
      { token := [reserved ";", reserved ")", number 1, reserved ";", eof],
        localVariableTable := [], currentOffset := 0 }
      (reserved ";") (reserved ";") (reserved ")") _ _ rfl rfl (by decide) rfl rfl
      (by decide) (Or.inr (by decide)),
    rfl⟩

/-! ### C19: termination by progress -/

/-- C19: `parse` terminates on every finite token list: with fuel 3 above the
number of tokens the fuel that bounds the nesting and the loops of the model is
never used up, and more fuel gives the same result.  On a list that ends in an
EOF token the result is a return or an error reported through `error_at`.  The
reason is progress: every call of `statement` that returns has moved the cursor
forward by at least one token, and a run of the loop of `assign`, `equality`,
`relational`, `add`, `multiply`, `argument`, `compound_statement` or `program`
that has made a turn has moved the cursor forward. -/
theorem parse_terminates_by_progress (fuel : Nat) (head : List Token) (st : State)
    (hfuel : head.length + 3 ≤ fuel) :
    parse fuel head st ≠ .error .out_of_fuel ∧
    parse fuel head st = parse (head.length + 3) head st ∧
    (ends_in_eof head →
      (∃ ast st', parse fuel head st = .ok (ast, st')) ∨
      (∃ op, parse fuel head st = .error (.not_op op)) ∨
      parse fuel head st = .error .not_number) ∧
    (∀ (F : Nat) (st0 st' : State) (s : StatementUnion),
      statement F st0 = .ok (s, st') → st'.token.length < st0.token.length) ∧
    (∀ (F k c : Nat) (node x : Node) (st0 st' : State), k ≤ 4 →
      level_loop (expression F) F k (c + 1) node st0 = .ok (x, st') →
      (x = node ∧ st' = st0) ∨ st'.token.length < st0.token.length) ∧
    (∀ (F c : Nat) (list result : List Node) (st0 st' : State),
      argument_loop (expression F) (c + 1) list st0 = .ok (result, st') →
      (result = list ∧ st' = st0) ∨ st'.token.length < st0.token.length) ∧
    (∀ (F c : Nat) (node result : List StatementUnion) (st0 st' : State),
      compound_statement_loop (statement F) c node st0 = .ok (result, st') →
      st'.token.length < st0.token.length) ∧
    (∀ (F c : Nat) (current result : List StatementUnion) (st0 st' : State),
      program_loop F (c + 1) current st0 = .ok (result, st') →
      (result = current ∧ st' = st0) ∨ st'.token.length < st0.token.length) := by
  have C := cursor_suffix_closed
  refine ⟨parse_finishes fuel head st hfuel, ?_, fun hhead => parse_outcome st hfuel hhead,
    fun F st0 st' s h => statement_advances F st0 s st' h,
    fun F k c node x st0 st' hk h => level_loop_turn (C.expression F) F k c hk h,
    fun F c list result st0 st' h => argument_loop_turn (C.expression F) c h,
    fun F c node result st0 st' h => compound_statement_loop_turn (C.statement F) c h,
    fun F c current result st0 st' h => program_loop_turn F c h⟩
  exact parse_fuel_monotone hfuel head st (parse_finishes _ head st (le_refl _))

/-- C19 at `1 + 2 ; EOF` and `1 + EOF`, five and three tokens: fuel 9 is
enough, the first stream returns EXPRESSION(ADD(NUM 1, NUM 2)) and the second
stops with the error of `expect_number`, with fuel 9 as with fuel 8 and 6. -/
theorem parse_terminates_by_progress_witness :
    [number 1, reserved "+", number 2, reserved ";", eof].length + 3 ≤ 9 ∧
    parse 9 [number 1, reserved "+", number 2, reserved ";", eof] State.initial
      ≠ .error .out_of_fuel ∧
    parse 9 [number 1, reserved "+", number 2, reserved ";", eof] State.initial
      = parse 8 [number 1, reserved "+", number 2, reserved ";", eof] State.initial ∧
    parse 9 [number 1, reserved "+", number 2, reserved ";", eof] State.initial
      = .ok ([.expressionStatement ⟨.binary .NODE_ADD (.num 1) (.num 2)⟩],
          { token := [eof], localVariableTable := [], currentOffset := 0 }) ∧
    parse 9 [number 1, reserved "+", eof] State.initial
      = parse 6 [number 1, reserved "+", eof] State.initial ∧
    parse 9 [number 1, reserved "+", eof] State.initial = .error .not_number :=
  ⟨by decide,
    (parse_terminates_by_progress 9 [number 1, reserved "+", number 2, reserved ";", eof]
      State.initial (by decide)).1,
    (parse_terminates_by_progress 9 [number 1, reserved "+", number 2, reserved ";", eof]
      State.initial (by decide)).2.1,
    rfl,
    (parse_terminates_by_progress 9 [number 1, reserved "+", eof]
      State.initial (by decide)).2.1,
    rfl⟩

/-! ### C20: the cursor never runs off the token list -/

/-- C20: on a token list whose last token has kind EOF, `parse` never
dereferences a null token pointer, and when it returns the cursor is on a token
of the list.  The same holds of `statement` and `expression` from every state
whose cursor is on a token of the list: they do not dereference a null pointer
and leave the cursor on a token of the list.  The reason is in the cursor
operations: `consume` and `expect` move on from a reserved token only,
`consume_identifier` from an identifier, `expect_number` from a number, none of
them from the token of kind EOF, and otherwise the cursor stays. -/
theorem cursor_never_leaves_the_list (fuel : Nat) (head : List Token) (st : State)
    (hhead : ends_in_eof head) :
    parse fuel head st ≠ .error .null_token ∧
    (∀ ast st', parse fuel head st = .ok (ast, st') →
      st'.token <:+ head ∧ st'.token ≠ []) ∧
    (∀ st0 : State, st0.token <:+ head → st0.token ≠ [] →
      (statement fuel st0 ≠ .error .null_token ∧
        ∀ s st', statement fuel st0 = .ok (s, st') → st'.token <:+ head ∧ st'.token ≠ []) ∧
      (expression fuel st0 ≠ .error .null_token ∧
        ∀ node st', expression fuel st0 = .ok (node, st') →
          st'.token <:+ head ∧ st'.token ≠ [])) ∧
    (∀ (op : String) (st0 st' : State) (b : Bool), consume op st0 = .ok (b, st') →
      st' = st0 ∨
        ∃ token, st0.token = token :: st'.token ∧ token.kind = .TOKEN_RESERVED) ∧
    (∀ (st0 st' : State) (r : Option Token), consume_identifier st0 = .ok (r, st') →
      st' = st0 ∨
        ∃ token, st0.token = token :: st'.token ∧ token.kind = .TOKEN_IDENTIFIER) ∧
    (∀ (op : String) (st0 st' : State) (u : Unit), expect op st0 = .ok (u, st') →
      ∃ token, st0.token = token :: st'.token ∧ token.kind = .TOKEN_RESERVED) ∧
    (∀ (st0 st' : State) (v : Int), expect_number st0 = .ok (v, st') →
      ∃ token, st0.token = token :: st'.token ∧ token.kind = .TOKEN_NUMBER) := by
  have hne : ∀ {tokens : List Token}, ends_in_eof tokens → tokens ≠ [] := by
    intro tokens h
    obtain ⟨token, next, rfl⟩ := ends_in_eof_cons h
    exact List.cons_ne_nil _ _
  have hloop := guarded_closed.program_loop fuel fuel []
    { token := head, localVariableTable := new_hash_table, currentOffset := 0 } hhead
  have hparse : parse fuel head st = program_loop fuel fuel []
      { token := head, localVariableTable := new_hash_table, currentOffset := 0 } := rfl
  refine ⟨?_, ?_, ?_, ?_, ?_, ?_, ?_⟩
  · rw [hparse]
    exact hloop.1
  · intro ast st' h
    rw [hparse] at h
    exact ⟨cursor_suffix_closed.program_loop fuel fuel [] _ ast st' h, hne (hloop.2 ast st' h)⟩
  · intro st0 hsuf hnonempty
    have hst0 := ends_in_eof_of_suffix hhead hsuf hnonempty
    refine ⟨⟨(guarded_closed.statement fuel st0 hst0).1, fun s st' h => ?_⟩,
      ⟨(guarded_closed.expression fuel st0 hst0).1, fun node st' h => ?_⟩⟩
    · exact ⟨(cursor_suffix_closed.statement fuel st0 s st' h).trans hsuf,
        hne ((guarded_closed.statement fuel st0 hst0).2 s st' h)⟩
    · exact ⟨(cursor_suffix_closed.expression fuel st0 node st' h).trans hsuf,
        hne ((guarded_closed.expression fuel st0 hst0).2 node st' h)⟩
  · intro op st0 st' b h
    obtain ⟨token, next, hs, ⟨hop, _, rfl⟩ | ⟨_, _, rfl⟩⟩ := consume_ok h
    · exact Or.inr ⟨token, hs, hop.1⟩
    · exact Or.inl rfl
  · intro st0 st' r h
    obtain ⟨token, next, hs, ⟨hk, _, rfl⟩ | ⟨_, _, rfl⟩⟩ := consume_identifier_ok h
    · exact Or.inr ⟨token, hs, hk⟩
    · exact Or.inl rfl
  · intro op st0 st' u h
    obtain ⟨token, next, hs, hop, rfl⟩ := expect_ok h
    exact ⟨token, hs, hop.1⟩
  · intro st0 st' v h
    obtain ⟨token, next, hs, hk, _, rfl⟩ := expect_number_ok h
    exact ⟨token, hs, hk⟩

/-- C20 at `1 + EOF` and `42 ; EOF`: both lists end in EOF; on the first
`parse` stops at the EOF token with the error of `expect_number`, not with a
null pointer, and on the second it returns with the cursor on the EOF token. -/
theorem cursor_never_leaves_the_list_witness :
    ends_in_eof [number 1, reserved "+", eof] ∧
    parse 9 [number 1, reserved "+", eof] State.initial ≠ .error .null_token ∧
    parse 9 [number 1, reserved "+", eof] State.initial = .error .not_number ∧
    parse 9 [number 42, reserved ";", eof] State.initial
      = .ok ([.expressionStatement ⟨.num 42⟩],
          { token := [eof], localVariableTable := [], currentOffset := 0 }) ∧
    ([eof] <:+ [number 42, reserved ";", eof] ∧ [eof] ≠ []) :=
  ⟨⟨[number 1, reserved "+"], eof, rfl, rfl⟩,
    (cursor_never_leaves_the_list 9 [number 1, reserved "+", eof] State.initial
      ⟨[number 1, reserved "+"], eof, rfl, rfl⟩).1,
    rfl, rfl,
    (cursor_never_leaves_the_list 9 [number 42, reserved ";", eof] State.initial
      ⟨[number 42, reserved ";"], eof, rfl, rfl⟩).2.1
      [.expressionStatement ⟨.num 42⟩]
      { token := [eof], localVariableTable := [], currentOffset := 0 } rfl⟩

end Azcc
